import Mathlib

/-!
# scsidev: naming engine and identity protocol layer

A shallow embedding of `src/scsidev.c`.  C `int`/`char` values are `Int`, unsigned
values are `Nat` with explicit reduction modulo `2 ^ w`, `char *` strings are
`Option (List Char)` (`none` is the NULL pointer) and a call that does not return
normally (an `abort ()` or an invalid memory access) is an explicit outcome.
-/

namespace Scsidev

/-! ## Outcomes of a call -/

/-- Outcome of running a C function of the program. -/
inductive Exec (α : Type) where
  /-- the call returns `a` -/
  | ret (a : α) : Exec α
  /-- the call does not return: `abort ()` or `exit ()`, or an access outside every
  object (NULL dereference, copy with an out-of-range length, store past a local array) -/
  | crash : Exec α
  /-- the iteration bound of the model was reached (excluded by the totality lemmas) -/
  | nofuel : Exec α
  deriving DecidableEq

/-! ## Data model (`struct regnames`, `enum devtype_t`) -/

/-- The C `enum devtype_t { NONE=0, SG, SD, SR, ST, OSST, SCH, }`. -/
inductive devtype_t where
  | NONE | SG | SD | SR | ST | OSST | SCH
  deriving DecidableEq

/-- The C `typedef struct regnames { ... } sname`.  The `next` pointer is the list
structure of the registry; the alias and `related` links hold the position of the entry
pointed to.  The C fields `unsafe` and `alias` are spelled `unsafe_flag` and
`alias_of`. -/
structure sname where
  name : Option (List Char) := none
  oldname : Option (List Char) := none
  manufacturer : Option (List Char) := none
  model : Option (List Char) := none
  rev : Option (List Char) := none
  serial : Option (List Char) := none
  wwid : Nat := 0
  hsv_os_id : Int := 0
  devtp : devtype_t := devtype_t.NONE
  inq_devtp : Int := 0
  rmvbl : Int := 0
  unsafe_flag : Int := 0
  partition : Int := 0
  hostid : Int := 0
  major : Int := 0
  minor : Int := 0
  hostname : Option (List Char) := none
  shorthostname : Option (List Char) := none
  hostnum : Int := 0
  chan : Int := 0
  id : Int := 0
  lun : Int := 0
  alias_of : Option Nat := none
  related : Option Nat := none
  deriving DecidableEq

/-- The constant `const unsigned long long no_wwid = 0;`. -/
def no_wwid : Nat := 0

/-- The constant `const int no_hsv_os_id = -1;`. -/
def no_hsv_os_id : Int := -1

/-! ## Machine integers -/

/-- The 32-bit pattern of a C `int`. -/
def to_u32 (x : Int) : Nat := (x % 4294967296).toNat

/-- The C `int` with a given 32-bit pattern. -/
def of_u32 (n : Nat) : Int := if n < 2147483648 then (n : Int) else (n : Int) - 4294967296

/-- The C expression `a & b` on `int` operands. -/
def int_and (a b : Int) : Int := of_u32 (to_u32 a &&& to_u32 b)

/-! ## Peripheral type codes

`TYPE_DISK` ... `TYPE_MEDIUM_CHANGER` come from the system header `scsi/scsi.h`;
their values are those of the SCSI standard, which the copy of
`scsi_device_types[]` in the source lists in the same order. -/

/-- Modelled from the spec: `TYPE_DISK` of `scsi/scsi.h`, direct-access. -/
def TYPE_DISK : Int := 0x00
/-- Modelled from the spec: `TYPE_TAPE` of `scsi/scsi.h`, sequential-access. -/
def TYPE_TAPE : Int := 0x01
/-- Modelled from the spec: `TYPE_WORM` of `scsi/scsi.h`, write-once. -/
def TYPE_WORM : Int := 0x04
/-- Modelled from the spec: `TYPE_ROM` of `scsi/scsi.h`, CD-ROM. -/
def TYPE_ROM : Int := 0x05
/-- Modelled from the spec: `TYPE_MOD` of `scsi/scsi.h`, optical memory. -/
def TYPE_MOD : Int := 0x07
/-- Modelled from the spec: `TYPE_MEDIUM_CHANGER` of `scsi/scsi.h`. -/
def TYPE_MEDIUM_CHANGER : Int := 0x08

/-! ## `inq_devtp_to_devtp` -/

/-- The test `memcmp (s, lit, n) != 0` for a NUL-terminated string `s` and a literal
`lit` of at least `n` characters: the first `n` bytes of `s`, its terminator
included, differ from those of `lit`. -/
def memcmp_nz (s lit : List Char) (n : Nat) : Bool :=
  (s ++ [Char.ofNat 0]).take n != lit.take n

/-- The macro `OSST_SUPPORTS(spnt)`.  `memcmp` reads through `spnt->manufacturer`
and, when the first comparison gives 0, through `spnt->model`; neither pointer is
tested against NULL. -/
def OSST_SUPPORTS (spnt : sname) : Exec Bool :=
  match spnt.manufacturer with
  | none => Exec.crash
  | some mf =>
    if memcmp_nz mf "OnStream".toList 8 then Exec.ret false
    else
      match spnt.model with
      | none => Exec.crash
      | some md =>
        Exec.ret (!(memcmp_nz md "SC-".toList 3 && memcmp_nz md "DI-".toList 3 &&
                    memcmp_nz md "DP-".toList 3 && memcmp_nz md "FW-".toList 3 &&
                    memcmp_nz md "USB".toList 3))

/-- The C function `inq_devtp_to_devtp (inq_devtp, spnt)`; `spnt` may be NULL. -/
def inq_devtp_to_devtp (inq_devtp : Int) (spnt : Option sname) : Exec devtype_t :=
  if inq_devtp = TYPE_DISK ∨ inq_devtp = TYPE_MOD then Exec.ret devtype_t.SD
  else if inq_devtp = TYPE_TAPE then
    match spnt with
    | none => Exec.ret devtype_t.ST
    | some e =>
      match OSST_SUPPORTS e with
      | Exec.ret true => Exec.ret devtype_t.OSST
      | Exec.ret false => Exec.ret devtype_t.ST
      | Exec.crash => Exec.crash
      | Exec.nofuel => Exec.nofuel
  else if inq_devtp = TYPE_ROM ∨ inq_devtp = TYPE_WORM then Exec.ret devtype_t.SR
  else if inq_devtp = TYPE_MEDIUM_CHANGER then Exec.ret devtype_t.SCH
  else Exec.ret devtype_t.SG

/-! ## Formatted output -/

/-- The conversion `%d` of `sprintf` applied to an `int`. -/
def fmt_d (x : Int) : List Char :=
  if x < 0 then '-' :: Nat.toDigits 10 x.natAbs else Nat.toDigits 10 x.toNat

/-- The conversion `%x` of `sprintf` applied to an `int`: the value is read as
`unsigned int`. -/
def fmt_x (x : Int) : List Char := Nat.toDigits 16 (to_u32 x)

/-- The conversion `%c` of `sprintf`: the argument is converted to `unsigned char`. -/
def fmt_c (v : Nat) : Char := Char.ofNat (v % 256)

/-! ## `scsiname` -/

/-- The macro `DEVSCSI`, the text "/dev/scsi". -/
def DEVSCSI : List Char := "/dev/scsi".toList

/-- The text `scsiname` prints at `genpart`: `"c%db%dt%du%d"` when `nm_cbtu` is set,
`"h%d-%xc%di%dl%d"` otherwise. -/
def scsiname_genpart (nm_cbtu : Int) (spnt : sname) : List Char :=
  if nm_cbtu ≠ 0 then
    "c".toList ++ fmt_d spnt.hostnum ++ "b".toList ++ fmt_d spnt.chan ++
      "t".toList ++ fmt_d spnt.id ++ "u".toList ++ fmt_d spnt.lun
  else
    "h".toList ++ fmt_d spnt.hostnum ++ "-".toList ++ fmt_x spnt.hostid ++
      "c".toList ++ fmt_d spnt.chan ++ "i".toList ++ fmt_d spnt.id ++
      "l".toList ++ fmt_d spnt.lun

/-- The `switch (tp)` of `scsiname`: the pair `(dnm, app)`, or `none` in the
`default:` case, which calls `abort ()`. -/
def scsiname_dnm (spnt : sname) : Option (List Char × List Char) :=
  match spnt.devtp with
  | devtype_t.SG => some ("sg".toList, [])
  | devtype_t.SR => some ("sr".toList, [])
  | devtype_t.ST =>
    if int_and spnt.minor 0x80 ≠ 0 then some ("nst".toList, []) else some ("st".toList, [])
  | devtype_t.OSST =>
    if int_and spnt.minor 0x80 ≠ 0 then some ("nosst".toList, [])
    else some ("osst".toList, [])
  | devtype_t.SD =>
    if int_and spnt.minor 0x0f ≠ 0 then
      some ("sd".toList, "p".toList ++ fmt_d (int_and spnt.minor 0x0f))
    else some ("sd".toList, [])
  | devtype_t.SCH => some ("sch".toList, [])
  | devtype_t.NONE => none

/-- The C function `scsiname (spnt)`: the name it stores in `spnt->name` and returns.
The capacity of the scratch array `nm[64]` is not modelled. -/
def scsiname (nm_cbtu : Int) (spnt : sname) : Exec (List Char) :=
  match scsiname_dnm spnt with
  | none => Exec.crash
  | some (dnm, app) =>
    Exec.ret (DEVSCSI ++ "/".toList ++ dnm ++ scsiname_genpart nm_cbtu spnt ++ app)

/-! ## Legacy names: `sd_major_to_disknum`, `sd_devname`, `oldscsiname` -/

/-- Reduction of an arithmetic result to the range of `int`. -/
def wrap32 (x : Int) : Int := of_u32 (to_u32 x)

/-- The C expression `x >> n` on an `int` (arithmetic shift). -/
def int_shr (x : Int) (n : Nat) : Int := x / (2 ^ n : Int)

/-- The C expression `x << n` on an `int`. -/
def int_shl (x : Int) (n : Nat) : Int := wrap32 (x * (2 ^ n : Int))

/-- The major `SCSI_DISK0_MAJOR` of the system header `linux/major.h`, the 8 that
`disknum_to_sd_major` returns under this name. -/
def SCSI_DISK0_MAJOR : Int := 8
/-- The major `SCSI_DISK1_MAJOR` of the system header `linux/major.h`. -/
def SCSI_DISK1_MAJOR : Int := 65
/-- The major `SCSI_DISK7_MAJOR` of the system header `linux/major.h`. -/
def SCSI_DISK7_MAJOR : Int := 71

/-- The C function `sd_major_to_disknum (major, minor)`. -/
def sd_major_to_disknum (major minor : Int) : Int :=
  if major = SCSI_DISK0_MAJOR then int_shr minor 4
  else if major ≥ SCSI_DISK1_MAJOR ∧ major ≤ SCSI_DISK7_MAJOR then
    wrap32 (int_shr minor 4 + int_shl (major - 64) 4)
  else if major ≥ 128 ∧ major ≤ 135 then
    wrap32 (int_shr minor 4 + int_shl (major - 120) 4)
  else if major ≥ 144 then
    wrap32 (int_shr minor 4 + int_shl (major - 128) 4)
  else if major ≥ 72 ∧ major < 128 then
    wrap32 (int_shr minor 4 + int_shl (major + 55) 4)
  else if major ≥ 136 ∧ major < 144 then
    wrap32 (int_shr minor 4 + int_shl (major + 47) 4)
  else if major ≥ 12 ∧ major ≤ 64 then
    wrap32 (int_shr minor 4 + int_shl (major + 179) 4)
  else -1

/-- The C function `sd_devname (disknum, buffer)`: the text it prints to `buffer`.
`disknum` is an `unsigned int`. -/
def sd_devname (disknum : Nat) : List Char :=
  if disknum < 26 then
    "sd".toList ++ [fmt_c (97 + disknum)]
  else if disknum < 26 * 27 then
    let min1 := disknum / 26 - 1
    let min2 := disknum % 26
    "sd".toList ++ [fmt_c (97 + min1), fmt_c (97 + min2)]
  else
    let min1 := (disknum / 26 - 1) / 26 - 1
    let min2 := (disknum / 26 - 1) % 26
    let min3 := disknum % 26
    "sd".toList ++ [fmt_c (97 + min1), fmt_c (97 + min2), fmt_c (97 + min3)]

/-- The C function `oldscsiname (spnt)`: the name it stores in `spnt->oldname`;
the `default:` case calls `abort ()`. -/
def oldscsiname (use_scd : Int) (spnt : sname) : Exec (List Char) :=
  match spnt.devtp with
  | devtype_t.SG => Exec.ret ("sg".toList ++ fmt_d spnt.minor)
  | devtype_t.SR =>
    if use_scd ≠ 0 then Exec.ret ("scd".toList ++ fmt_d spnt.minor)
    else Exec.ret ("sr".toList ++ fmt_d spnt.minor)
  | devtype_t.ST =>
    if int_and spnt.minor 0x80 ≠ 0 then
      Exec.ret ("nst".toList ++ fmt_d (int_and spnt.minor 0x7f))
    else Exec.ret ("st".toList ++ fmt_d (int_and spnt.minor 0x7f))
  | devtype_t.OSST =>
    if int_and spnt.minor 0x80 ≠ 0 then
      Exec.ret ("nosst".toList ++ fmt_d (int_and spnt.minor 0x7f))
    else Exec.ret ("osst".toList ++ fmt_d (int_and spnt.minor 0x7f))
  | devtype_t.SCH => Exec.ret ("sch".toList ++ fmt_d spnt.minor)
  | devtype_t.SD =>
    let diskno := sd_major_to_disknum spnt.major spnt.minor
    let genpart := sd_devname (to_u32 diskno)
    if int_and spnt.minor 0x0f ≠ 0 then
      Exec.ret (genpart ++ fmt_d (int_and spnt.minor 0x0f))
    else Exec.ret genpart
  | devtype_t.NONE => Exec.crash

/-! ## Identifier page 0x83: `get_no`, `extract_wwid`

The argument `unsigned char *page` is the memory behind the pointer: `page i` is the
byte at offset `i`, reduced to `unsigned char` on every read. -/

/-- Byte at offset `i` of the page. -/
def byte_at (page : Nat → Nat) (i : Nat) : Nat := page i % 256

/-- The expression `ntohl (*(unsigned int*) (page + i))`: four bytes, big endian. -/
def ntohl_at (page : Nat → Nat) (i : Nat) : Nat :=
  byte_at page i * 16777216 + byte_at page (i + 1) * 65536 +
    byte_at page (i + 2) * 256 + byte_at page (i + 3)

/-- The expression `ntohs (p83->length)`: bytes 2 and 3 of the page, big endian. -/
def pg83_length (page : Nat → Nat) : Nat := byte_at page 2 * 256 + byte_at page 3

/-- Field `pgcode` of `struct pg83`. -/
def pg83_pgcode (page : Nat → Nat) : Nat := byte_at page 1

/-- Field `pident` of the `struct pg83id` at offset `pid`. -/
def pg83id_pident (page : Nat → Nat) (pid : Nat) : Nat := byte_at page pid
/-- Field `idtype` of the `struct pg83id` at offset `pid`. -/
def pg83id_idtype (page : Nat → Nat) (pid : Nat) : Nat := byte_at page (pid + 1)
/-- Field `res` of the `struct pg83id` at offset `pid`. -/
def pg83id_res (page : Nat → Nat) (pid : Nat) : Nat := byte_at page (pid + 2)
/-- Field `idlen` of the `struct pg83id` at offset `pid`. -/
def pg83id_idlen (page : Nat → Nat) (pid : Nat) : Nat := byte_at page (pid + 3)
/-- Offset of the field `iddata` of the `struct pg83id` at offset `pid`. -/
def pg83id_iddata (pid : Nat) : Nat := pid + 4

/-- The local `assoc  = (pid->idtype & 0x30) >> 4` of `extract_wwid`. -/
def pg83id_assoc (page : Nat → Nat) (pid : Nat) : Nat := (pg83id_idtype page pid &&& 0x30) >>> 4
/-- The local `code   =  pid->pident & 0x0f` of `extract_wwid`. -/
def pg83id_code (page : Nat → Nat) (pid : Nat) : Nat := pg83id_pident page pid &&& 0x0f
/-- The local `idtype =  pid->idtype & 0x0f` of `extract_wwid`. -/
def pg83id_desig (page : Nat → Nat) (pid : Nat) : Nat := pg83id_idtype page pid &&& 0x0f
/-- The local `naa = (pid->iddata[0] & 0xf0) >> 4` of `extract_wwid`. -/
def pg83id_naa (page : Nat → Nat) (pid : Nat) : Nat :=
  (byte_at page (pg83id_iddata pid) &&& 0xf0) >>> 4

/-- The C function `get_no (data, start, stop)`, `data` being the offset in the page. -/
def get_no (page : Nat → Nat) (data start stop : Nat) : Nat :=
  let dat := ntohl_at page data
  let dat := dat &&& (0xffffffff >>> start)
  let dat := dat >>> (32 - stop)
  dat

/-- The C expression `x << n` on an `unsigned long long`. -/
def shl64 (x n : Nat) : Nat := (x <<< n) % 18446744073709551616

/-- A line printed by `extract_wwid`. -/
inductive Msg where
  /-- the line "Page does not contain any WWID" -/
  | no_wwid_page : Msg
  /-- the line "T10 ID: ..." printed from `ven_id` and `dev_id`, with the bytes copied to
  `ven_id` and to `dev_id` -/
  | t10_id (ven dev : List Nat) : Msg
  deriving DecidableEq

/-- The `for` loop of `extract_wwid`, entered with the record pointer at offset `pid`
and `out` printed so far; at most `fuel` records are visited.  In the T10 branch,
`memcpy (dev_id, pid->iddata+8, pid->idlen-8)` gets a length that wraps around when
`idlen < 8`, and `dev_id[pid->idlen] = 0` stores past `char dev_id[130]` when
`idlen >= 130`. -/
def extract_wwid_loop (verbose : Int) (page : Nat → Nat) (len : Nat) :
    Nat → Nat → List Msg → Exec (Nat × List Msg)
  | 0, pid, out => if pid < 4 + len then Exec.nofuel else Exec.ret (no_wwid, out)
  | fuel + 1, pid, out =>
    if ¬ (pid < 4 + len) then Exec.ret (no_wwid, out)
    else
      let assoc := pg83id_assoc page pid
      let code := pg83id_code page pid
      let idtype := pg83id_desig page pid
      let idlen := pg83id_idlen page pid
      let iddata := pg83id_iddata pid
      let next := pid + 4 + idlen
      if assoc ≠ 0 then extract_wwid_loop verbose page len fuel next out
      else if idtype = 2 ∧ code = 1 then
        if idlen = 8 ∨ idlen = 12 ∨ idtype = 3 then
          Exec.ret (shl64 (get_no page iddata 0 32) 32 ||| get_no page (iddata + 4) 0 32, out)
        else if idlen = 16 then
          Exec.ret (shl64 (get_no page (iddata + 4) 0 32) 32 |||
            get_no page (iddata + 8) 0 32, out)
        else extract_wwid_loop verbose page len fuel next out
      else if idtype = 3 ∧ code = 1 then
        let naa := pg83id_naa page pid
        if naa = 2 then
          Exec.ret (shl64 (get_no page (iddata + 2) 0 24) 32 |||
            shl64 (get_no page iddata 4 12 &&& 0xff) 24 |||
            get_no page (iddata + 5) 0 24, out)
        else if naa = 5 ∨ naa = 6 then
          Exec.ret (shl64 (get_no page iddata 4 28) 36 |||
            shl64 (get_no page (iddata + 3) 4 8) 32 |||
            get_no page (iddata + 4) 0 32, out)
        else extract_wwid_loop verbose page len fuel next out
      else if idtype = 1 ∧ code = 2 ∧ verbose ≠ 0 then
        if idlen < 8 ∨ 130 ≤ idlen then Exec.crash
        else
          extract_wwid_loop verbose page len fuel next
            (out ++ [Msg.t10_id ((List.range 8).map (fun k => byte_at page (iddata + k)))
              ((List.range (idlen - 8)).map (fun k => byte_at page (iddata + 8 + k)))])
      else extract_wwid_loop verbose page len fuel next out

/-- The C function `extract_wwid (page)`, with the global `verbose`: the value
returned and the lines printed.  Every pass of the loop advances the record pointer
by at least 4, so `len` passes exhaust the declared length. -/
def extract_wwid (verbose : Int) (page : Nat → Nat) : Exec (Nat × List Msg) :=
  let len := pg83_length page
  if pg83_pgcode page ≠ 0x83 then Exec.ret (no_wwid, [Msg.no_wwid_page])
  else if pg83id_res page 4 ≠ 0 then
    Exec.ret (shl64 (get_no page 4 0 32) 32 ||| get_no page (4 + 4) 0 32, [])
  else extract_wwid_loop verbose page len len 4 []

/-- The page whose first bytes are `bs`, followed by zero bytes (the buffer is
cleared before the INQUIRY command is issued). -/
def page_of (bs : List Nat) : Nat → Nat := fun i => bs.getD i 0

/-! ## Specification-side definitions -/

/-- The kind table in the words of the specification: the device kind for a
peripheral type code, `osst` telling whether the entry is a known OnStream tape. -/
def kind_table (t : Int) (osst : Bool) : devtype_t :=
  if t = 0x00 ∨ t = 0x07 then devtype_t.SD
  else if t = 0x01 then (if osst then devtype_t.OSST else devtype_t.ST)
  else if t = 0x05 ∨ t = 0x04 then devtype_t.SR
  else if t = 0x08 then devtype_t.SCH
  else devtype_t.SG

/-- The OnStream test in the words of the specification: the manufacturer begins
with "OnStream" and the model begins with one of the five known prefixes. -/
def osst_known (mf md : List Char) : Bool :=
  decide ("OnStream".toList <+: mf) &&
    (decide ("SC-".toList <+: md) || decide ("DI-".toList <+: md) ||
     decide ("DP-".toList <+: md) || decide ("FW-".toList <+: md) ||
     decide ("USB".toList <+: md))

/-- The letter of a bijective base-26 digit: digit `d + 1` (with `d` in 0..25) is
written as the `d`-th lowercase letter. -/
def bij26_letter (d : Nat) : Char := Char.ofNat (97 + d)

/-- Value of a bijective base-26 numeral, most significant digit first; the list
holds each digit minus one, so that 'a' is the digit 1 and 'z' the digit 26. -/
def bij26_value (ds : List Nat) : Nat := ds.foldl (fun acc d => acc * 26 + (d + 1)) 0

/-- The index written by a disk letter: its distance from 'a'. -/
def bij26_index (c : Char) : Nat := c.toNat - 97

/-- Eight bytes of the page from offset `i`, read as one big-endian 64-bit integer. -/
def be64_at (page : Nat → Nat) (i : Nat) : Nat :=
  ((List.range 8).map (fun k => byte_at page (i + k))).foldl (fun acc b => acc * 256 + b) 0

/-- The big-endian 24-bit value of three bytes. -/
def be24 (a b c : Nat) : Nat := a * 65536 + b * 256 + c

/-- Offsets of the identifier records of a page: they lie back to back from offset
`pid` on, each a 4-byte header followed by `idlen` payload bytes, as long as the
offset is inside the declared length `len`. -/
def pg83_records_from (page : Nat → Nat) (len : Nat) : Nat → Nat → List Nat
  | 0, _ => []
  | fuel + 1, pid =>
    if pid < 4 + len then
      pid :: pg83_records_from page len fuel (pid + 4 + pg83id_idlen page pid)
    else []

/-- Offsets of all identifier records of a page. -/
def pg83_records (page : Nat → Nat) : List Nat :=
  pg83_records_from page (pg83_length page) (pg83_length page) 4

/-! ## Example pages -/

/-- A page 0x83 with one NAA-5 record of the logical unit, payload
`50 01 02 03 04 05 06 07`. -/
def naa5_page : Nat → Nat :=
  page_of [0x00, 0x83, 0x00, 0x0c, 0x01, 0x03, 0x00, 0x08,
    0x50, 0x01, 0x02, 0x03, 0x04, 0x05, 0x06, 0x07]

/-- A page 0x83 with one EUI-64 record of the logical unit, of length 8. -/
def eui64_page : Nat → Nat :=
  page_of [0x00, 0x83, 0x00, 0x0c, 0x01, 0x02, 0x00, 0x08,
    0x00, 0x11, 0x22, 0x33, 0x44, 0x55, 0x66, 0x77]

/-- A page 0x83 with one NAA-2 record of the logical unit. -/
def naa2_page : Nat → Nat :=
  page_of [0x00, 0x83, 0x00, 0x0c, 0x01, 0x03, 0x00, 0x08,
    0x2a, 0xbc, 0x01, 0x02, 0x03, 0x04, 0x05, 0x06]

/-- A page 0x83 whose only record is an ASCII/T10 record of the logical unit with a
4-byte payload, shorter than the 8-byte vendor field. -/
def t10_short_page : Nat → Nat :=
  page_of [0x00, 0x83, 0x00, 0x08, 0x02, 0x01, 0x00, 0x04, 0x41, 0x42, 0x43, 0x44]

/-- A page 0x83 whose first record describes the target port (association 1) and
whose second record is an EUI-64 record of the logical unit. -/
def port_then_eui64_page : Nat → Nat :=
  page_of [0x00, 0x83, 0x00, 0x14, 0x01, 0x13, 0x00, 0x04, 0xde, 0xad, 0xbe, 0xef,
    0x01, 0x02, 0x00, 0x08, 0x00, 0x11, 0x22, 0x33, 0x44, 0x55, 0x66, 0x77]

/-- A page 0x80 (unit serial number), not the identifier page. -/
def serial_page : Nat → Nat :=
  page_of [0x00, 0x80, 0x00, 0x04, 0x31, 0x32, 0x33, 0x34]

/-! ## `getstr` -/

/-- The first loop of `getstr`, `while (*(page+start) == ' ' && start < stop) ++start;`:
the value of `start` after at most `fuel` passes. -/
def getstr_lead (page : Nat → Nat) (stop : Nat) : Nat → Nat → Nat
  | 0, start => start
  | fuel + 1, start =>
    if byte_at page start = 32 ∧ start < stop then getstr_lead page stop fuel (start + 1)
    else start

/-- The second loop of `getstr`, `while (*(page+stop) == ' ' && stop > start) --stop;`:
the value of `stop` after at most `fuel` passes. -/
def getstr_trail (page : Nat → Nat) (start : Nat) : Nat → Nat → Nat
  | 0, stop => stop
  | fuel + 1, stop =>
    if byte_at page stop = 32 ∧ stop > start then getstr_trail page start fuel (stop - 1)
    else stop

/-- The C function `getstr (page, start, stop)`, the offsets being non-negative:
`ret none` is the NULL pointer, `ret (some bs)` the string made of the `ln` bytes
copied by `memcpy`.  Each loop ends within `stop - start` passes.  A negative `ln`
(`stop < start - 1`) reaches `memcpy` as a length that wraps around. -/
def getstr (page : Nat → Nat) (start stop : Nat) : Exec (Option (List Nat)) :=
  let start1 := getstr_lead page stop (stop - start) start
  let stop1 := getstr_trail page start1 (stop - start1) stop
  if stop1 = start1 then Exec.ret none
  else if stop1 + 1 < start1 then Exec.crash
  else
    Exec.ret (some ((List.range (stop1 + 1 - start1)).map (fun k => byte_at page (start1 + k))))

/-- The standard INQUIRY response of a device whose vendor field (bytes 8..15) holds
the single character "A" padded with spaces. -/
def inq_vendor_A_page : Nat → Nat :=
  page_of [0x01, 0x80, 0x02, 0x02, 0x1f, 0x00, 0x00, 0x00,
    0x41, 0x20, 0x20, 0x20, 0x20, 0x20, 0x20, 0x20]

/-- A page 0x80 (unit serial number) with an empty body: its length byte is 0. -/
def serial_empty_page : Nat → Nat := page_of [0x00, 0x80, 0x00, 0x00]

/-! ## Alias matching (`build_special`) -/

/-- The locals of `build_special` that hold one tokenized line of the alias file, with
the values they are reset to before each line. -/
structure alias_rec where
  lun : Int := -1
  id : Int := -1
  chan : Int := -1
  hostid : Int := -1
  hostnum : Int := -1
  part : Int := -1
  wwid : Nat := no_wwid
  hsv_os_id : Int := -1
  host : Option (List Char) := none
  manufacturer : Option (List Char) := none
  model : Option (List Char) := none
  serial_number : Option (List Char) := none
  rev : Option (List Char) := none
  name : Option (List Char) := none
  devtype_i : devtype_t := devtype_t.NONE
  devtype : Option (List Char) := none
  deriving DecidableEq

/-- The test `field == NULL || strcmp (field, want) != 0` of the matching loop. -/
def str_differs (field : Option (List Char)) (want : List Char) : Bool :=
  match field with
  | none => true
  | some s => s != want

/-- The test `field == NULL || strncmp (field, host, strlen (host)) != 0` of the
matching loop. -/
def host_differs (field : Option (List Char)) (host : List Char) : Bool :=
  match field with
  | none => true
  | some s => s.take host.length != host

/-- The body of the matching loop of `build_special` up to the comment "We have a
match": `false` when one of the `continue` statements is taken for the entry `spnt`,
`true` otherwise. -/
def alias_match (r : alias_rec) (spnt : sname) : Bool :=
  if spnt.alias_of ≠ none then false
  else if r.id ≠ -1 ∧ r.id ≠ spnt.id then false
  else if r.chan ≠ -1 ∧ r.chan ≠ spnt.chan then false
  else if r.lun ≠ -1 ∧ r.lun ≠ spnt.lun then false
  else if r.hostid ≠ -1 ∧ r.hostid ≠ spnt.hostid then false
  else if r.hostnum ≠ -1 ∧ r.hostnum ≠ spnt.hostnum then false
  else if r.hsv_os_id ≠ -1 ∧ r.hsv_os_id ≠ spnt.hsv_os_id then false
  else if spnt.devtp ≠ r.devtype_i then false
  else if r.part ≠ spnt.partition then false
  else if (spnt.devtp = devtype_t.ST ∨ spnt.devtp = devtype_t.OSST) ∧
      int_and spnt.minor 0x80 ≠ 0 then false
  else if r.wwid ≠ no_wwid ∧ r.wwid ≠ spnt.wwid then false
  else if r.manufacturer.any (fun s => str_differs spnt.manufacturer s) then false
  else if r.model.any (fun s => str_differs spnt.model s) then false
  else if r.serial_number.any (fun s => str_differs spnt.serial s) then false
  else if r.rev.any (fun s => str_differs spnt.rev s) then false
  else if r.host.any (fun h => host_differs spnt.hostname h && host_differs spnt.shorthostname h)
    then false
  else true

/-- The conditions of the match predicate on every field but the partition: the
entry is no alias and no non-rewind tape, has the kind of the record, equals the
record on every field the record constrains, and a constrained host name is a prefix
of its long or short host name. -/
def alias_match_fields (r : alias_rec) (e : sname) : Prop :=
  e.alias_of = none ∧
  ¬ ((e.devtp = devtype_t.ST ∨ e.devtp = devtype_t.OSST) ∧ int_and e.minor 0x80 ≠ 0) ∧
  e.devtp = r.devtype_i ∧
  (r.id ≠ -1 → e.id = r.id) ∧ (r.lun ≠ -1 → e.lun = r.lun) ∧
  (r.chan ≠ -1 → e.chan = r.chan) ∧ (r.hostid ≠ -1 → e.hostid = r.hostid) ∧
  (r.hostnum ≠ -1 → e.hostnum = r.hostnum) ∧
  (r.hsv_os_id ≠ -1 → e.hsv_os_id = r.hsv_os_id) ∧
  (r.wwid ≠ no_wwid → e.wwid = r.wwid) ∧
  (∀ s, r.manufacturer = some s → e.manufacturer = some s) ∧
  (∀ s, r.model = some s → e.model = some s) ∧
  (∀ s, r.serial_number = some s → e.serial = some s) ∧
  (∀ s, r.rev = some s → e.rev = some s) ∧
  (∀ h, r.host = some h →
    (∃ n, e.hostname = some n ∧ h <+: n) ∨ (∃ n, e.shorthostname = some n ∧ h <+: n))

/-- The match predicate as the specification words it: a field the record does not
constrain imposes no condition on the entry, the partition included. -/
def alias_match_spec (r : alias_rec) (e : sname) : Prop :=
  alias_match_fields r e ∧ (r.part ≠ -1 → e.partition = r.part)

/-! ## Alias registration (`register_dev`, `build_special`)

The registry `reglist` is the list of its entries from the head on; every
registration puts the new entry at the head.  A pointer to an entry of the registry
is the number of entries behind it, which is the number of entries registered
before it and does not change when later entries are put in front. -/

/-- The C expression `a | b` on `int` operands. -/
def int_or (a b : Int) : Int := of_u32 (to_u32 a ||| to_u32 b)

/-- Conversion of an `int` to `signed char` (the assignment `spnt->partition = part`). -/
def to_schar (x : Int) : Int := if x % 256 < 128 then x % 256 else x % 256 - 256

/-- The text behind the last '/' of a string, as `strrchr (s, '/') + 1` gives it;
`none` when the string has no '/' (`strrchr` returns NULL). -/
def after_last_slash : List Char → Option (List Char)
  | [] => none
  | c :: rest =>
    match after_last_slash rest with
    | some t => some t
    | none => if c = '/' then some rest else none

/-- The entries of a registry, each with the pointer that designates it. -/
def reg_ids : List sname → List (Nat × sname)
  | [] => []
  | e :: rest => (rest.length, e) :: reg_ids rest

/-- The C function `register_dev`: the new entry and the registry with this entry at
its head.  `mem` is the content of the block `malloc` returns; the fields the
function does not assign keep it (`oldname` when the argument is NULL, `inq_devtp`,
`rmvbl`, `unsafe`, `shorthostname`). -/
def register_dev (mem : sname) (reglist : List sname) (name : List Char)
    (major minor : Int) (devtp : devtype_t) (hnum hid chan id lun part : Int)
    (hostname oldname : Option (List Char)) (alias_to rel : Option Nat) :
    sname × List sname :=
  let spnt : sname :=
    { mem with
      name := some name
      oldname :=
        match oldname with
        | some o => if memcmp_nz o "/dev/".toList 5 then some o else some (o.drop 5)
        | none => mem.oldname
      partition := to_schar part
      major := major
      minor := minor
      devtp := devtp
      hostnum := hnum
      hostid := hid
      chan := chan
      id := id
      lun := lun
      hostname := hostname
      alias_of := alias_to
      related := rel
      model := none
      manufacturer := none
      serial := none
      rev := none
      wwid := no_wwid
      hsv_os_id := no_hsv_os_id }
  (spnt, spnt :: reglist)

/-- The matching loop of `build_special` over the entries still to visit, `found`
being the local `match`: its final value, and whether the loop was left by `break`
(the test `spnt != NULL` after the loop). -/
def alias_scan (supp_multi : Int) (r : alias_rec) :
    List (Nat × sname) → Option (Nat × sname) → Option (Nat × sname) × Bool
  | [], found => (found, false)
  | x :: rest, found =>
    if alias_match r x.2 then
      match found with
      | some _ =>
        if supp_multi = 0 then (found, true) else alias_scan supp_multi r rest found
      | none => alias_scan supp_multi r rest (some x)
    else alias_scan supp_multi r rest found

/-- The loop of `build_special` that registers one alias per partition of the
matched disk `m`: `todo` are the entries still to visit, `reglist` the registry and
`calls` the entries handed to `create_dev` so far; `rel` is the local `spnt1`. -/
def alias_partitions (heap : Nat → sname) (name : List Char) (m : sname) (rel : Option Nat)
    (devtype_i : devtype_t) :
    List (Nat × sname) → List sname → List sname → List sname × List sname
  | [], reglist, calls => (reglist, calls)
  | x :: todo, reglist, calls =>
    if x.2.alias_of ≠ none then alias_partitions heap name m rel devtype_i todo reglist calls
    else if x.2.partition = -1 then
      alias_partitions heap name m rel devtype_i todo reglist calls
    else if x.2.devtp ≠ devtype_i then
      alias_partitions heap name m rel devtype_i todo reglist calls
    else if x.2.id ≠ m.id then alias_partitions heap name m rel devtype_i todo reglist calls
    else if x.2.lun ≠ m.lun then alias_partitions heap name m rel devtype_i todo reglist calls
    else if x.2.chan ≠ m.chan then alias_partitions heap name m rel devtype_i todo reglist calls
    else if x.2.hostnum ≠ m.hostnum then
      alias_partitions heap name m rel devtype_i todo reglist calls
    else if x.2.hostid ≠ m.hostid then
      alias_partitions heap name m rel devtype_i todo reglist calls
    else
      let scsidev := DEVSCSI ++ "/".toList ++ name ++ "-p".toList ++ fmt_d x.2.partition
      let reg := register_dev (heap reglist.length) reglist scsidev m.major x.2.minor m.devtp
        m.hostnum m.hostid m.chan m.id m.lun x.2.partition m.hostname x.2.name (some x.1) rel
      alias_partitions heap name m rel devtype_i todo reg.2 (calls ++ [reg.1])

/-- The part of the body of `build_special` that follows the tokenizing of a line
with alias name `name`: the matching loop and, on a match, the registrations.  The
result is the registry and the entries handed to `create_dev`, in order.  `heap n`
is the content of the block `malloc` returns for the entry registered as number `n`.
The lines written to `stderr` are not modelled. -/
def build_special_match (supp_multi : Int) (heap : Nat → sname) (reglist : List sname)
    (r : alias_rec) (name : List Char) : Exec (List sname × List sname) :=
  match alias_scan supp_multi r (reg_ids reglist) none with
  | (_, true) => Exec.ret (reglist, [])
  | (none, false) => Exec.ret (reglist, [])
  | (some (mid, m), false) =>
    let reg1 := register_dev (heap reglist.length) reglist (DEVSCSI ++ "/".toList ++ name)
      m.major m.minor m.devtp m.hostnum m.hostid m.chan m.id m.lun 0 m.hostname m.name
      (some mid) none
    if r.devtype_i = devtype_t.ST ∨ r.devtype_i = devtype_t.OSST then
      match m.name with
      | none => Exec.crash
      | some mn =>
        let nm2 := "scsi/n".toList ++ (after_last_slash mn).getD mn
        let reg2 := register_dev (heap reg1.2.length) reg1.2
          (DEVSCSI ++ "/n".toList ++ name) m.major (int_or m.minor 0x80) m.devtp m.hostnum
          m.hostid m.chan m.id m.lun 0 m.hostname (some nm2) (some mid)
          (some reglist.length)
        Exec.ret (reg2.2, [reg1.1, reg2.1])
    else if r.devtype_i = devtype_t.SD ∧ m.partition = -1 then
      Exec.ret (alias_partitions heap name m (some reglist.length) r.devtype_i
        (reg_ids reg1.2) reg1.2 [reg1.1])
    else Exec.ret (reg1.2, [reg1.1])

/-- The first entry `build_special` registers for a line with alias name `name` whose
match is the entry `m` designated by `mid`: the value of its first call of
`register_dev`. -/
def alias_entry (heap : Nat → sname) (reglist : List sname) (name : List Char) (mid : Nat)
    (m : sname) : sname :=
  (register_dev (heap reglist.length) reglist (DEVSCSI ++ "/".toList ++ name)
    m.major m.minor m.devtp m.hostnum m.hostid m.chan m.id m.lun 0 m.hostname m.name
    (some mid) none).1

/-! ## Example registries -/

/-- A whole disk and its first partition, the partition registered last. -/
def disk_with_partition : List sname :=
  [{ name := some "/dev/scsi/sdh0-0c0i0l0p1".toList, devtp := devtype_t.SD, partition := 1,
     major := 8, minor := 1, manufacturer := some "SEAGATE".toList },
   { name := some "/dev/scsi/sdh0-0c0i0l0".toList, devtp := devtype_t.SD, partition := -1,
     major := 8, minor := 0, manufacturer := some "SEAGATE".toList,
     model := some "ST34573N".toList, wwid := 0x0004cf123456789a }]

/-- The record of the line "alias=data, devtype=disk": no field is constrained. -/
def rec_disk_data : alias_rec :=
  { name := some "data".toList, devtype := some "disk".toList, devtype_i := devtype_t.SD }

/-- The registry after two discoveries: a whole disk on channel 0 registered first,
then the same kind of disk on channel 1. -/
def two_path_registry : List sname :=
  (register_dev {} (register_dev {} [] "/dev/scsi/sdh0-0c0i0l0".toList 8 0 devtype_t.SD
      0 0 0 0 0 (-1) none none none none).2
    "/dev/scsi/sdh0-0c1i0l0".toList 8 16 devtype_t.SD 0 0 1 0 0 (-1) none none none none).2

/-- The first entry handed to `create_dev` in a result of `build_special_match`. -/
def first_call (res : Exec (List sname × List sname)) : Option sname :=
  match res with
  | Exec.ret (_, a :: _) => some a
  | _ => none

/-! ## Tokenizing a line of the alias file (`get_string`, `get_number`, `build_special`)

A pointer into `buffer` is the text from the pointer to the end of the part of
`buffer` that `fgets` wrote, the terminating NUL included (two NULs when the newline
was replaced).  Reading past that part reads a byte no one wrote: `none`. -/

/-- The NUL character. -/
def c_nul : Char := Char.ofNat 0
/-- The tab character. -/
def c_tab : Char := Char.ofNat 9
/-- The newline character. -/
def c_newline : Char := Char.ofNat 10
/-- The double quote. -/
def c_dquote : Char := Char.ofNat 34
/-- The single quote. -/
def c_squote : Char := Char.ofNat 39

/-- The loop `while (*pnt == ' ' || *pnt == '\t') pnt++;`. -/
def skip_blank : List Char → Option (List Char)
  | [] => none
  | c :: rest => if c = ' ' ∨ c = c_tab then skip_blank rest else some (c :: rest)

/-- The three statements that end `get_string`, `get_number` and `get_llnumber`:
blanks, one optional comma, blanks. -/
def skip_sep (pnt : List Char) : Option (List Char) :=
  match skip_blank pnt with
  | none => none
  | some [] => none
  | some (c :: rest) => if c = ',' then skip_blank rest else skip_blank (c :: rest)

/-- A loop `while (!stop (*pnt)) pnt++;`: the characters passed over and the text
from the character that stops the loop. -/
def scan_to (stop : Char → Bool) : List Char → Option (List Char × List Char)
  | [] => none
  | c :: rest =>
    if stop c then some ([], c :: rest)
    else
      match scan_to stop rest with
      | none => none
      | some (a, b) => some (c :: a, b)

/-- The C string that starts with the given characters: it ends at their first NUL. -/
def cstr (l : List Char) : List Char := l.takeWhile (fun c => c != c_nul)

/-- The C function `get_string (pnt, &result)`: the string stored in `result` and the
pointer returned. -/
def get_string (pnt : List Char) : Option (List Char × List Char) :=
  match skip_blank pnt with
  | none => none
  | some [] => none
  | some (c :: rest) =>
    if c = c_dquote ∨ c = c_squote then
      match scan_to (fun x => x = c) rest with
      | none => none
      | some (res, q) =>
        match skip_sep q.tail with
        | none => none
        | some p => some (cstr res, p)
    else
      match scan_to (fun x => x = ',' ∨ x = ' ' ∨ x = c_tab ∨ x = c_nul) (c :: rest) with
      | none => none
      | some (res, q) =>
        match skip_sep q.tail with
        | none => none
        | some p => some (res, p)

/-- The value of a hexadecimal digit, as the three tests of the number loops compute
it; `none` for any other character. -/
def hex_digit (c : Char) : Option Nat :=
  if 48 ≤ c.toNat ∧ c.toNat ≤ 57 then some (c.toNat - 48)
  else if 97 ≤ c.toNat ∧ c.toNat ≤ 102 then some (c.toNat - 97 + 10)
  else if 65 ≤ c.toNat ∧ c.toNat ≤ 70 then some (c.toNat - 65 + 10)
  else none

/-- The digit loop of `get_number`, on `int`: the number read and the pointer to the
character that ends it. -/
def get_number_loop (base16 : Bool) : List Char → Int → Option (Int × List Char)
  | [], _ => none
  | c :: rest, num =>
    if base16 then
      match hex_digit c with
      | some d => get_number_loop base16 rest (wrap32 (int_shl num 4 + (d : Int)))
      | none => some (num, c :: rest)
    else if 48 ≤ c.toNat ∧ c.toNat ≤ 57 then
      get_number_loop base16 rest (wrap32 (num * 10 + (c.toNat : Int) - 48))
    else some (num, c :: rest)

/-- The digit loop of `get_llnumber`, on `unsigned long long`. -/
def get_llnumber_loop (base16 : Bool) : List Char → Nat → Option (Nat × List Char)
  | [], _ => none
  | c :: rest, num =>
    if base16 then
      match hex_digit c with
      | some d => get_llnumber_loop base16 rest ((num * 16 + d) % 18446744073709551616)
      | none => some (num, c :: rest)
    else if 48 ≤ c.toNat ∧ c.toNat ≤ 57 then
      get_llnumber_loop base16 rest ((num * 10 + (c.toNat - 48)) % 18446744073709551616)
    else some (num, c :: rest)

/-- The test `pnt[0] == '0' && pnt[1] == 'x'` of the number functions: the pointer
behind the prefix when it holds. -/
def hex_prefix (pnt : List Char) : Option (Option (List Char)) :=
  match pnt with
  | [] => none
  | c :: rest =>
    if c = '0' then
      match rest with
      | [] => none
      | d :: rest2 => if d = 'x' then some (some rest2) else some none
    else some none

/-- The C function `get_number (pnt, &result)`. -/
def get_number (pnt : List Char) : Option (Int × List Char) :=
  match skip_blank pnt with
  | none => none
  | some p =>
    match hex_prefix p with
    | none => none
    | some hp =>
      match get_number_loop hp.isSome (hp.getD p) 0 with
      | none => none
      | some (num, q) =>
        match skip_sep q with
        | none => none
        | some p2 => some (num, p2)

/-- The C function `get_llnumber (pnt, &result)`. -/
def get_llnumber (pnt : List Char) : Option (Nat × List Char) :=
  match skip_blank pnt with
  | none => none
  | some p =>
    match hex_prefix p with
    | none => none
    | some hp =>
      match get_llnumber_loop hp.isSome (hp.getD p) 0 with
      | none => none
      | some (num, q) =>
        match skip_sep q with
        | none => none
        | some p2 => some (num, p2)

/-- The chain of `strncmp`/`strcmp` tests on one specifier `key` with the text `val`
behind its '=': the record with the value stored and the pointer returned by the
`get_` function; `some none` is the `else` branch ("Unrecognized specifier"), `none`
a read past the written part of the buffer. -/
def alias_specifier (key val : List Char) (r : alias_rec) :
    Option (Option (alias_rec × List Char)) :=
  if key.take 4 = "manu".toList then
    (get_string val).map (fun x => some ({ r with manufacturer := some x.1 }, x.2))
  else if key.take 4 = "mode".toList then
    (get_string val).map (fun x => some ({ r with model := some x.1 }, x.2))
  else if key.take 4 = "seri".toList then
    (get_string val).map (fun x => some ({ r with serial_number := some x.1 }, x.2))
  else if key = "wwid".toList then
    (get_llnumber val).map (fun x => some ({ r with wwid := x.1 }, x.2))
  else if key.take 3 = "rev".toList then
    (get_string val).map (fun x => some ({ r with rev := some x.1 }, x.2))
  else if key.take 6 = "hostna".toList then
    (get_string val).map (fun x => some ({ r with host := some x.1 }, x.2))
  else if key = "id".toList then
    (get_number val).map (fun x => some ({ r with id := x.1 }, x.2))
  else if key = "lun".toList then
    (get_number val).map (fun x => some ({ r with lun := x.1 }, x.2))
  else if key.take 4 = "chan".toList then
    (get_number val).map (fun x => some ({ r with chan := x.1 }, x.2))
  else if key.take 4 = "part".toList then
    (get_number val).map (fun x => some ({ r with part := x.1 }, x.2))
  else if key = "hostid".toList then
    (get_number val).map (fun x => some ({ r with hostid := x.1 }, x.2))
  else if key = "hostnum".toList then
    (get_number val).map (fun x => some ({ r with hostnum := x.1 }, x.2))
  else if key.take 4 = "alia".toList then
    (get_string val).map (fun x => some ({ r with name := some x.1 }, x.2))
  else if key.take 4 = "devt".toList then
    (get_string val).map (fun x => some ({ r with devtype := some x.1 }, x.2))
  else if key = "hsvosid".toList then
    (get_number val).map (fun x => some ({ r with hsv_os_id := x.1 }, x.2))
  else some none

/-- The inner `while (1)` loop of `build_special` that picks the specifiers out of a
line: the record at the end of the loop and the specifier reported as unrecognized,
if the loop was left by the `break` of that report.  Every pass consumes an '=', so
`fuel` passes suffice when `fuel` exceeds the length of the text. -/
def alias_tokens : Nat → List Char → alias_rec → Exec (alias_rec × Option (List Char))
  | 0, _, _ => Exec.nofuel
  | fuel + 1, pnt, r =>
    match scan_to (fun x => x = '=' ∨ x = c_nul) pnt with
    | none => Exec.crash
    | some (key, pnt1) =>
      if pnt1.head? = some c_nul then Exec.ret (r, none)
      else
        match alias_specifier key pnt1.tail r with
        | none => Exec.crash
        | some none => Exec.ret (r, some key)
        | some (some (r2, pnt2)) => alias_tokens fuel pnt2 r2

/-- The content of `buffer` once `fgets` has stored the line `line` (its newline
included, if it has one) and the trailing newline has been replaced by NUL. -/
def alias_buffer (line : List Char) : List Char :=
  if line.getLast? = some c_newline then line.dropLast ++ [c_nul, c_nul]
  else line ++ [c_nul]

/-- The chain of `strcmp` tests that turns the `devtype` string into a kind; `none`
is the `else` branch ("invalid devtype specifier"). -/
def alias_devtype (devtype : List Char) : Option devtype_t :=
  if devtype = "disk".toList then some devtype_t.SD
  else if devtype = "cdrom".toList then some devtype_t.SR
  else if devtype = "tape".toList then some devtype_t.ST
  else if devtype = "osst".toList then some devtype_t.OSST
  else if devtype = "generic".toList then some devtype_t.SG
  else if devtype = "changer".toList then some devtype_t.SCH
  else none

/-- One pass of the outer loop of `build_special` on the non-empty line `line` read
by `fgets`: the registry afterwards and the entries handed to `create_dev`. -/
def build_special_line (supp_multi : Int) (heap : Nat → sname) (reglist : List sname)
    (line : List Char) : Exec (List sname × List sname) :=
  match skip_blank (alias_buffer line) with
  | none => Exec.crash
  | some pnt =>
    if pnt.head? = some c_nul then Exec.ret (reglist, [])
    else if pnt.head? = some '#' then Exec.ret (reglist, [])
    else
      match alias_tokens (pnt.length + 1) pnt {} with
      | Exec.crash => Exec.crash
      | Exec.nofuel => Exec.nofuel
      | Exec.ret (r, _) =>
        match r.name with
        | none => Exec.ret (reglist, [])
        | some name =>
          match r.devtype with
          | none => Exec.ret (reglist, [])
          | some devtype =>
            match alias_devtype devtype with
            | none => Exec.ret (reglist, [])
            | some devtype_i =>
              build_special_match supp_multi heap reglist { r with devtype_i := devtype_i } name

/-- The whole disk of `disk_with_partition` alone. -/
def one_disk_registry : List sname :=
  [{ name := some "/dev/scsi/sdh0-0c0i0l0".toList, devtp := devtype_t.SD, partition := -1,
     major := 8, minor := 0, manufacturer := some "SEAGATE".toList, id := 0 }]

/-- A line whose third specifier is not a recognized key. -/
def line_with_unknown_key : List Char := "alias=data, devtype=disk, colour=red\n".toList
/-- The registry in a result of `build_special_match` or `build_special_line`. -/
def registry_of (res : Exec (List sname × List sname)) : Option (List sname) :=
  match res with
  | Exec.ret (reg, _) => some reg
  | _ => none

/-! ## File system

The part of the file system the program works on: the files and symbolic links of
`/dev` and `/dev/scsi`, each looked up by its full path.  Sub-directories are not
modelled, a symbolic link holds the full path of its target, and the process is
privileged: a system call fails only for the reasons its definition gives. -/

/-- The members of `struct stat` the program reads. -/
structure stat_t where
  st_mode : Nat := 0
  st_uid : Nat := 0
  st_gid : Nat := 0
  st_rdev : Nat := 0
  deriving DecidableEq

/-- The constant `S_IFMT` of `sys/stat.h`. -/
def S_IFMT : Nat := 0o170000
/-- The constant `S_IFSOCK` of `sys/stat.h`. -/
def S_IFSOCK : Nat := 0o140000
/-- The constant `S_IFLNK` of `sys/stat.h`. -/
def S_IFLNK : Nat := 0o120000
/-- The constant `S_IFREG` of `sys/stat.h`. -/
def S_IFREG : Nat := 0o100000
/-- The constant `S_IFBLK` of `sys/stat.h`. -/
def S_IFBLK : Nat := 0o060000
/-- The constant `S_IFCHR` of `sys/stat.h`. -/
def S_IFCHR : Nat := 0o020000
/-- The constant `S_IFIFO` of `sys/stat.h`. -/
def S_IFIFO : Nat := 0o010000

/-- The macro `S_ISLNK (m)` of `sys/stat.h`. -/
def S_ISLNK (m : Nat) : Bool := m &&& S_IFMT == S_IFLNK
/-- The macro `S_ISCHR (m)` of `sys/stat.h`. -/
def S_ISCHR (m : Nat) : Bool := m &&& S_IFMT == S_IFCHR
/-- The macro `S_ISBLK (m)` of `sys/stat.h`. -/
def S_ISBLK (m : Nat) : Bool := m &&& S_IFMT == S_IFBLK

/-- The C expression `m & ~S_IFMT` on a `mode_t` (32 bits). -/
def and_not_ifmt (m : Nat) : Nat := m &&& 0xFFFF0FFF

/-- The type of a file that is no symbolic link. -/
inductive ftype where
  | reg | chr | blk | fifo | sock
  deriving DecidableEq

/-- The file-type bits of `st_mode` for a file type. -/
def ftype_bits : ftype → Nat
  | ftype.reg => S_IFREG
  | ftype.chr => S_IFCHR
  | ftype.blk => S_IFBLK
  | ftype.fifo => S_IFIFO
  | ftype.sock => S_IFSOCK

/-- A file that is no symbolic link: its type, its permission bits (the low 12 bits
of `perm`), its owner and group, and the device number of a special file. -/
structure inode where
  kind : ftype
  perm : Nat
  uid : Nat
  gid : Nat
  rdev : Nat
  deriving DecidableEq

/-- What a path names: a file, or a symbolic link with its target. -/
inductive fnode where
  | file (i : inode) : fnode
  | symlink (target : List Char) (uid gid : Nat) : fnode
  deriving DecidableEq

/-- A file system: what each path names, if anything. -/
abbrev filesys := List Char → Option fnode

/-- The file system with the path `p` naming `n` (or nothing). -/
def fs_set (fs : filesys) (p : List Char) (n : Option fnode) : filesys :=
  fun q => if q = p then n else fs q

/-- The file system that holds the listed paths. -/
def fs_of (l : List (List Char × fnode)) : filesys := fun p => l.lookup p

/-- The `struct stat` of a file. -/
def inode_stat (i : inode) : stat_t :=
  { st_mode := ftype_bits i.kind ||| (i.perm &&& 0o7777), st_uid := i.uid, st_gid := i.gid,
    st_rdev := i.rdev }

/-- The system call `lstat (p, &st)`: `none` when it fails. -/
def sys_lstat (fs : filesys) (p : List Char) : Option stat_t :=
  match fs p with
  | none => none
  | some (fnode.file i) => some (inode_stat i)
  | some (fnode.symlink _ u g) => some { st_mode := S_IFLNK ||| 0o777, st_uid := u, st_gid := g }

/-- The file a path leads to through at most `n` symbolic links, with the path that
names it. -/
def fs_resolve (fs : filesys) : Nat → List Char → Option (List Char × inode)
  | 0, _ => none
  | n + 1, p =>
    match fs p with
    | none => none
    | some (fnode.file i) => some (p, i)
    | some (fnode.symlink t _ _) => fs_resolve fs n t

/-- The number of symbolic links the kernel follows before it gives up (`ELOOP`). -/
def MAXSYMLINKS : Nat := 40

/-- The system call `stat (p, &st)`: `none` when it fails. -/
def sys_stat (fs : filesys) (p : List Char) : Option stat_t :=
  (fs_resolve fs (MAXSYMLINKS + 1) p).map (fun x => inode_stat x.2)

/-- A system call that changes the file system, as issued by the program. -/
inductive syscall where
  | unlink (p : List Char) : syscall
  | mknod (p : List Char) (mode dev : Nat) : syscall
  | chown (p : List Char) (uid gid : Nat) : syscall
  | chmod (p : List Char) (mode : Nat) : syscall
  | symlink (target p : List Char) : syscall
  | creat (p : List Char) : syscall
  deriving DecidableEq

/-- The file system together with the changing system calls issued so far, and
whether descriptor 0 of the process is free: the descriptor `open` returns is the
lowest one not in use, so it is 0 exactly then. -/
structure world where
  fs : filesys
  trace : List syscall
  fd0_free : Bool

/-- What the process brings to a system call: its umask and its effective user and
group; `creat_mode` is the third argument `open` finds when `backup_shadow` calls it
with `O_CREAT` and two arguments. -/
structure sys_env where
  umask : Nat := 0o022
  euid : Nat := 0
  egid : Nat := 0
  creat_mode : Nat := 0
  deriving DecidableEq

/-- The system call `unlink (p)`: whether it succeeded, and the world afterwards.  It
removes the name `p`, a symbolic link included, and fails when `p` names nothing. -/
def sys_unlink (w : world) (p : List Char) : Bool × world :=
  match w.fs p with
  | none => (false, { w with trace := w.trace ++ [syscall.unlink p] })
  | some _ => (true, { w with fs := fs_set w.fs p none, trace := w.trace ++ [syscall.unlink p] })

/-- The file type `mknod` creates for the type bits of its mode; `none` for type bits
it rejects (`EINVAL`). -/
def mknod_type (mode : Nat) : Option ftype :=
  if mode &&& S_IFMT = 0 then some ftype.reg
  else if mode &&& S_IFMT = S_IFREG then some ftype.reg
  else if mode &&& S_IFMT = S_IFCHR then some ftype.chr
  else if mode &&& S_IFMT = S_IFBLK then some ftype.blk
  else if mode &&& S_IFMT = S_IFIFO then some ftype.fifo
  else if mode &&& S_IFMT = S_IFSOCK then some ftype.sock
  else none

/-- The system call `mknod (p, mode, dev)`: it fails when `p` names something already
(`EEXIST`) or the type bits are rejected; the new file belongs to the process and its
permission bits are those of `mode` that the umask leaves. -/
def sys_mknod (env : sys_env) (w : world) (p : List Char) (mode dev : Nat) : Bool × world :=
  let w1 : world := { w with trace := w.trace ++ [syscall.mknod p mode dev] }
  match w.fs p, mknod_type mode with
  | none, some k =>
    (true, { w1 with fs := fs_set w.fs p (some (fnode.file
      { kind := k, perm := (mode &&& 0o7777) &&& (0o7777 ^^^ (env.umask &&& 0o7777)),
        uid := env.euid, gid := env.egid,
        rdev := if k = ftype.chr ∨ k = ftype.blk then dev else 0 })) })
  | _, _ => (false, w1)

/-- The system call `chown (p, uid, gid)`, which follows symbolic links. -/
def sys_chown (w : world) (p : List Char) (uid gid : Nat) : world :=
  let w1 : world := { w with trace := w.trace ++ [syscall.chown p uid gid] }
  match fs_resolve w.fs (MAXSYMLINKS + 1) p with
  | none => w1
  | some (q, i) => { w1 with fs := fs_set w.fs q (some (fnode.file { i with uid := uid, gid := gid })) }

/-- The system call `chmod (p, mode)`, which follows symbolic links and keeps the low
12 bits of `mode`. -/
def sys_chmod (w : world) (p : List Char) (mode : Nat) : world :=
  let w1 : world := { w with trace := w.trace ++ [syscall.chmod p mode] }
  match fs_resolve w.fs (MAXSYMLINKS + 1) p with
  | none => w1
  | some (q, i) => { w1 with fs := fs_set w.fs q (some (fnode.file { i with perm := mode &&& 0o7777 })) }

/-- The system call `symlink (target, p)`: it fails when `p` names something already. -/
def sys_symlink (env : sys_env) (w : world) (target p : List Char) : world :=
  let w1 : world := { w with trace := w.trace ++ [syscall.symlink target p] }
  match w.fs p with
  | none => { w1 with fs := fs_set w.fs p (some (fnode.symlink target env.euid env.egid)) }
  | some _ => w1

/-- The call `open (p, O_RDWR | O_CREAT | O_EXCL)` followed by `close`: it creates a
regular file when `p` names nothing and fails otherwise.  The descriptor is closed
again at once, so the descriptors in use are those before the call. -/
def sys_creat_excl (env : sys_env) (w : world) (p : List Char) : world :=
  let w1 : world := { w with trace := w.trace ++ [syscall.creat p] }
  match w.fs p with
  | none =>
    { w1 with fs := fs_set w.fs p (some (fnode.file
      { kind := ftype.reg,
        perm := (env.creat_mode &&& 0o7777) &&& (0o7777 ^^^ (env.umask &&& 0o7777)),
        uid := env.euid, gid := env.egid, rdev := 0 })) }
  | some _ => w1

/-- The call `open (p, O_RDONLY)`: whether it succeeds. -/
def sys_open_rdonly (fs : filesys) (p : List Char) : Bool :=
  (fs_resolve fs (MAXSYMLINKS + 1) p).isSome

/-- The system call `readlink (p, buf, 63)`: the first 63 bytes of the target when `p`
names a symbolic link. -/
def sys_readlink (fs : filesys) (p : List Char) : Option (List Char) :=
  match fs p with
  | some (fnode.symlink t _ _) => some (t.take 63)
  | _ => none

/-! ## Permissions and node reconciliation (`get_perm`, `update_device`, `create_dev`) -/

/-- The macro `SHADOW`, the text ".shadow.". -/
def SHADOW : List Char := ".shadow.".toList

/-- The major `SCSI_CDROM_MAJOR` of the system header `linux/major.h`. -/
def SCSI_CDROM_MAJOR : Int := 11

/-- The C function `isblk (devtp)`. -/
def isblk (devtp : devtype_t) : Bool :=
  match devtp with
  | devtype_t.SD => true
  | devtype_t.SR => true
  | _ => false

/-- The C function `cp_perm (to, from)`: the structure `dst` after the call. -/
def cp_perm (dst src : stat_t) : stat_t :=
  { dst with st_uid := src.st_uid, st_gid := src.st_gid, st_mode := and_not_ifmt src.st_mode }

/-- The C function `apply_perm (nm, st, fmode)`. -/
def apply_perm (w : world) (nm : List Char) (st : stat_t) (fmode : Nat) : world :=
  sys_chmod (sys_chown w nm st.st_uid st.st_gid) nm (st.st_mode ||| fmode)

/-- The C function `cmp_perm (p1, p2)`: whether it returns non-zero. -/
def cmp_perm (p1 p2 : stat_t) : Bool :=
  p1.st_uid != p2.st_uid || p1.st_gid != p2.st_gid ||
    and_not_ifmt p1.st_mode != and_not_ifmt p2.st_mode

/-- The C function `mk_shadow_nm (buf, nm)`: the text left in `buf`.  Without a '/'
in `nm` the pointer is set to `nm` and incremented before the last `strcat`, which
for the empty name reads past its terminator.  The capacity of `buf` is not
modelled. -/
def mk_shadow_nm (nm : List Char) : Exec (List Char) :=
  match after_last_slash nm with
  | some rest => Exec.ret (nm.take (nm.length - rest.length) ++ SHADOW ++ rest)
  | none =>
    match nm with
    | [] => Exec.crash
    | _ :: tl => Exec.ret (SHADOW ++ tl)

/-- The C function `backup_shadow (nm, stbuf)`. -/
def backup_shadow (env : sys_env) (w : world) (nm : List Char) (stbuf : stat_t) : Exec world :=
  match mk_shadow_nm nm with
  | Exec.ret shadow =>
    match sys_stat w.fs shadow with
    | some statbuf =>
      if ¬ cmp_perm statbuf stbuf then Exec.ret w
      else Exec.ret (apply_perm w shadow stbuf 0)
    | none => Exec.ret (apply_perm (sys_creat_excl env w shadow) shadow stbuf 0)
  | Exec.crash => Exec.crash
  | Exec.nofuel => Exec.nofuel

/-- The C function `rm_shadow (nm)`.  The shadow record is closed and unlinked only
`if (fd > 0)`: when `open` succeeds with descriptor 0, nothing is unlinked and the
descriptor stays open. -/
def rm_shadow (w : world) (nm : List Char) : Exec world :=
  match mk_shadow_nm nm with
  | Exec.ret shadow =>
    if sys_open_rdonly w.fs shadow then
      if w.fd0_free then Exec.ret { w with fd0_free := false }
      else Exec.ret (sys_unlink w shadow).2
    else Exec.ret w
  | Exec.crash => Exec.crash
  | Exec.nofuel => Exec.nofuel

/-- The C function `get_perm (nm, linkto, stbuf, cdrom)`, with the global `filemode`
(as a `mode_t`): the structure `stbuf` after the call, of which the function assigns
`st_uid`, `st_gid` and `st_mode` only.  `linkto` may be NULL. -/
def get_perm (filemode : Nat) (fs : filesys) (nm : List Char) (linkto : Option (List Char))
    (stbuf : stat_t) (cdrom : Bool) : Exec stat_t :=
  let shadow_or_later : Exec stat_t :=
    match mk_shadow_nm nm with
    | Exec.ret shadow =>
      match sys_stat fs shadow with
      | some statbuf => Exec.ret (cp_perm stbuf statbuf)
      | none =>
        let deflt : stat_t :=
          { stbuf with st_uid := 0, st_gid := 0,
                       st_mode := if cdrom then filemode &&& 0xFFFFFF6D else filemode }
        match linkto with
        | some l =>
          match sys_stat fs l with
          | some statbuf => Exec.ret (cp_perm stbuf statbuf)
          | none => Exec.ret deflt
        | none => Exec.ret deflt
    | Exec.crash => Exec.crash
    | Exec.nofuel => Exec.nofuel
  match sys_lstat fs nm with
  | some statbuf =>
    if ¬ S_ISLNK statbuf.st_mode then Exec.ret (cp_perm stbuf statbuf) else shadow_or_later
  | none => shadow_or_later

/-- The C function `update_device (linkto, path, fmode, major, minor)`; `makedev` is
the macro of `sys/sysmacros.h`.  The local `statbuf2` starts out as `{}`; only the
three members `get_perm` assigns are read.  A failing `mknod` ends the program by
`exit (1)`. -/
def update_device (env : sys_env) (makedev : Int → Int → Nat) (filemode : Nat) (w : world)
    (linkto : Option (List Char)) (path : List Char) (fmode : Nat) (major minor : Int) :
    Exec world :=
  match get_perm filemode w.fs path linkto {} (major = SCSI_CDROM_MAJOR) with
  | Exec.ret statbuf2 =>
    let newmode := fmode ||| statbuf2.st_mode
    let status := sys_lstat w.fs path
    let recreate : Bool :=
      match status with
      | none => true
      | some statbuf =>
        if S_ISLNK statbuf.st_mode then true
        else if statbuf.st_rdev ≠ makedev major minor then true
        else if statbuf.st_mode &&& S_IFMT ≠ fmode &&& S_IFMT then true
        else false
    if recreate then
      let w1 := if status.isSome then (sys_unlink w path).2 else w
      let made := sys_mknod env w1 path newmode (makedev major minor)
      if ¬ made.1 then Exec.crash
      else rm_shadow (apply_perm made.2 path statbuf2 fmode) path
    else
      match status with
      | some statbuf =>
        if cmp_perm statbuf statbuf2 then rm_shadow (apply_perm w path statbuf2 fmode) path
        else rm_shadow w path
      | none => rm_shadow w path
  | Exec.crash => Exec.crash
  | Exec.nofuel => Exec.nofuel

/-- The C function `create_symlink (linkto, nm, fmode, major, minor)`, with the global
`override_link_perm`.  A legacy node with other device numbers ends the program by
`abort ()`. -/
def create_symlink (env : sys_env) (makedev : Int → Int → Nat) (filemode : Nat)
    (override_link_perm : Int) (w : world) (linkto nm : List Char) (fmode : Nat)
    (major minor : Int) : Exec world :=
  match get_perm filemode w.fs nm (some linkto) {} (major = SCSI_CDROM_MAJOR) with
  | Exec.ret statbuf2 =>
    let status := sys_lstat w.fs nm
    let recreate : Bool :=
      match status with
      | none => true
      | some statbuf =>
        if ¬ S_ISLNK statbuf.st_mode then true
        else
          match sys_readlink w.fs nm with
          | some realnm => linkto != realnm
          | none => true
    let w1 :=
      if recreate then
        sys_symlink env (if status.isSome then (sys_unlink w nm).2 else w) linkto nm
      else w
    match sys_stat w1.fs linkto with
    | none =>
      backup_shadow env
        (apply_perm (sys_mknod env w1 linkto (statbuf2.st_mode ||| fmode)
          (makedev major minor)).2 linkto statbuf2 fmode) nm statbuf2
    | some statbuf =>
      if statbuf.st_rdev ≠ makedev major minor then Exec.crash
      else if cmp_perm statbuf statbuf2 ∧ override_link_perm ≠ 0 then
        backup_shadow env (apply_perm w1 linkto statbuf2 fmode) nm statbuf2
      else backup_shadow env w1 nm statbuf2
  | Exec.crash => Exec.crash
  | Exec.nofuel => Exec.nofuel

/-- The C function `create_dev (spnt, symlink)`, `symlink` being the value of the
`char` parameter; `strcat (linkto, spnt->oldname)` and the calls on `spnt->name` read
through pointers that must not be NULL. -/
def create_dev (env : sys_env) (makedev : Int → Int → Nat) (filemode : Nat)
    (override_link_perm : Int) (w : world) (spnt : sname) (symlink : Int) : Exec world :=
  let devtype := if isblk spnt.devtp then S_IFBLK else S_IFCHR
  match spnt.oldname, spnt.name with
  | some oldname, some name =>
    let linkto := "/dev/".toList ++ oldname
    if symlink ≠ 0 then
      create_symlink env makedev filemode override_link_perm w linkto name devtype
        spnt.major spnt.minor
    else update_device env makedev filemode w (some linkto) name devtype spnt.major spnt.minor
  | _, _ => Exec.crash

/-! ## Example file systems -/

/-- The value of the macro `makedev (major, minor)` of glibc for a major below 4096
and a minor below 256. -/
def makedev_small (major minor : Int) : Nat := (major * 256 + minor).toNat

/-- The canonical node of the first disk. -/
def canon_path : List Char := "/dev/scsi/sdh0-0c0i0l0".toList

/-- The shadow record of `canon_path`. -/
def canon_shadow : List Char := "/dev/scsi/.shadow.sdh0-0c0i0l0".toList

/-- The legacy node of the first disk. -/
def legacy_path : List Char := "/dev/sda".toList

/-- A block node for device 8/0 owned by root and group 6 with mode 0640. -/
def canon_node : fnode :=
  fnode.file { kind := ftype.blk, perm := 0o640, uid := 0, gid := 6, rdev := 2048 }

/-- A shadow record owned by user 1000 and group 100 with mode 0644. -/
def shadow_node : fnode :=
  fnode.file { kind := ftype.reg, perm := 0o644, uid := 1000, gid := 100, rdev := 0 }

/-- A block node for device 8/0 owned by root and group 6 with mode 0660. -/
def legacy_node : fnode :=
  fnode.file { kind := ftype.blk, perm := 0o660, uid := 0, gid := 6, rdev := 2048 }

/-- The file system that holds those of the three example objects that are asked
for. -/
def dev_fs (canon shadow legacy : Bool) : filesys :=
  fs_of ((if canon then [(canon_path, canon_node)] else []) ++
    (if shadow then [(canon_shadow, shadow_node)] else []) ++
    (if legacy then [(legacy_path, legacy_node)] else []))

/-- The registry entry of the first disk: canonical name and legacy name "sda". -/
def sda_entry : sname :=
  { name := some canon_path, oldname := some "sda".toList, devtp := devtype_t.SD,
    partition := -1, major := 8, minor := 0 }

/-- What a path names after a call, when the call returns. -/
def node_after (res : Exec world) (p : List Char) : Option (Option fnode) :=
  match res with
  | Exec.ret w => some (w.fs p)
  | _ => none

/-- The changing system calls issued up to the end of a call, when the call returns. -/
def trace_after (res : Exec world) : Option (List syscall) :=
  match res with
  | Exec.ret w => some w.trace
  | _ => none

/-! ## Values read from the identifier page -/

/-- The value `extract_wwid` returns, the printed lines left out. -/
def wwid_value (r : Exec (Nat × List Msg)) : Exec Nat :=
  match r with
  | Exec.ret (v, _) => Exec.ret v
  | Exec.crash => Exec.crash
  | Exec.nofuel => Exec.nofuel

/-- A page 0x83 with declared length 0 whose bytes behind the header are zero. -/
def empty_page : Nat → Nat := page_of [0x00, 0x83, 0x00, 0x00]

/-- A page 0x83 with declared length 0 that agrees with `empty_page` on the declared
bytes 0..3 and has other bytes behind them. -/
def empty_page_junk : Nat → Nat :=
  page_of [0x00, 0x83, 0x00, 0x00, 0x11, 0x22, 0x33, 0x44, 0x55, 0x66, 0x77, 0x88]

/-- A page 0x83 with declared length 4: the header of one EUI-64 record of length 8,
whose payload lies behind the declared length. -/
def header_only_page : Nat → Nat :=
  page_of [0x00, 0x83, 0x00, 0x04, 0x01, 0x02, 0x00, 0x08]

/-- A page that agrees with `header_only_page` on the declared bytes 0..7 and has
other bytes behind them. -/
def header_only_page_junk : Nat → Nat :=
  page_of [0x00, 0x83, 0x00, 0x04, 0x01, 0x02, 0x00, 0x08,
    0x00, 0x11, 0x22, 0x33, 0x44, 0x55, 0x66, 0x77]

/-- The page `naa5_page` with the NAA nibble 6 in place of 5. -/
def naa6_page : Nat → Nat :=
  page_of [0x00, 0x83, 0x00, 0x0c, 0x01, 0x03, 0x00, 0x08,
    0x60, 0x01, 0x02, 0x03, 0x04, 0x05, 0x06, 0x07]

/-- A page 0x83 as a pre-SPC device answers: the reserved byte of the first record is
not 0, and the declared length is 0. -/
def pre_spc_page : Nat → Nat :=
  page_of [0x00, 0x83, 0x00, 0x00, 0x31, 0x32, 0x33, 0x34, 0x35, 0x36, 0x37, 0x38]

/-! ## `disknum_to_sd_major` -/

/-- The C function `disknum_to_sd_major (diskno)`. -/
def disknum_to_sd_major (diskno : Int) : Int :=
  let mj := int_shr diskno 4
  if mj = 0 then 8
  else if mj ≥ 1 ∧ mj < 8 then 64 + mj
  else if mj ≥ 8 ∧ mj < 16 then 120 + mj
  else if mj ≥ 16 ∧ mj < 127 then 128 + mj
  else if mj ≥ 127 ∧ mj < 183 then mj - 55
  else if mj ≥ 183 ∧ mj < 191 then mj - 47
  else if mj ≥ 191 ∧ mj < 244 then mj - 179
  else -1

/-! ## Devices and global settings

The program learns about a device from the answers the kernel gives on an open
descriptor.  Which descriptor an `open` yields is not derived from the file system:
it is given by the parameter `k_open`. -/

/-- What a device answers on an open descriptor.  `idlun` holds `id[0]` and `id[1]`
of `SCSI_IOCTL_GET_IDLUN`, `probe_host` the text of `SCSI_IOCTL_PROBE_HOST`,
`inq_std` the response to the standard INQUIRY, `inq_vpd lun page` the response to
the INQUIRY for a vital product data page and `hsv` the response to the command
0xa3; `none` stands for a request that fails. -/
structure scsi_dev where
  idlun : Option (Int × Int) := none
  probe_host : Option (List Char) := none
  inq_std : Option (Nat → Nat) := none
  inq_vpd : Int → Nat → Option (Nat → Nat) := fun _ _ => none
  hsv : Option (Nat → Nat) := none

/-- The process and the kernel it runs on: `k_open w p` is the device behind the
descriptor that `open (p, O_RDONLY | O_NONBLOCK)` yields in the state `w`, `none`
when the call fails. -/
structure system where
  env : sys_env := {}
  makedev : Int → Int → Nat
  k_open : world → List Char → Option scsi_dev

/-- The global variables set from the command line, with their initial values. -/
structure globals where
  use_symlink : Int := 0
  use_scd : Int := 0
  filemode : Nat := 0o600
  verbose : Int := 0
  san_del : Int := 0
  full_scan : Int := 32
  nm_cbtu : Int := 0
  supp_rmvbl : Int := 0
  override_link_perm : Int := 1

/-- The macro `TESTDEV`, the text "/dev/scsi/testdev". -/
def TESTDEV : List Char := DEVSCSI ++ "/testdev".toList

/-! ## `comparediskidlun`, `findscsidisk` -/

/-- The C function `comparediskidlun (spnt, no)`: whether it returns 1, the entry
`*spnt` and the state afterwards. -/
def comparediskidlun (S : system) (w : world) (spnt : sname) (no : Int) :
    (Bool × sname) × world :=
  let major := disknum_to_sd_major no
  let minor := int_shl (int_and no 0x0f) 4
  let w1 := (sys_mknod S.env w TESTDEV (0o600 ||| S_IFBLK) (S.makedev major minor)).2
  let fd := S.k_open w1 TESTDEV
  let w2 := (sys_unlink w1 TESTDEV).2
  match fd with
  | none => ((false, spnt), w2)
  | some d =>
    match d.idlun with
    | none => ((false, spnt), w2)
    | some (id0, _) =>
      let host := int_shr id0 24
      let channel := int_and (int_shr id0 16) 0xff
      let lun := int_and (int_shr id0 8) 0xff
      let scsi_id := int_and id0 0xff
      if host = spnt.hostnum ∧ channel = spnt.chan ∧ scsi_id = spnt.id ∧ lun = spnt.lun then
        ((true, { spnt with major := major, minor := minor }), w2)
      else ((false, spnt), w2)

/-- The `for` loop of `findscsidisk` over the distances `i` still to try. -/
def findscsidisk_loop (S : system) (no : Int) : List Int → sname → world → sname × world
  | [], spnt, w => (spnt, w)
  | i :: rest, spnt, w =>
    let down : (Bool × sname) × world :=
      if no - i ≥ 0 then comparediskidlun S w spnt (no - i) else ((false, spnt), w)
    if down.1.1 then (down.1.2, down.2)
    else
      let up := comparediskidlun S down.2 down.1.2 (no + i)
      if up.1.1 then (up.1.2, up.2)
      else findscsidisk_loop S no rest up.1.2 up.2

/-- The C function `findscsidisk (spnt, no)`, with the global `full_scan`: the entry
`*spnt` and the state afterwards. -/
def findscsidisk (full_scan : Int) (S : system) (w : world) (spnt : sname) (no : Int) :
    sname × world :=
  let searchln := if no > full_scan then no else full_scan
  let spnt1 := { spnt with major := disknum_to_sd_major no,
                           minor := int_and (int_shl no 4) (-16) }
  let w1 := (sys_unlink w TESTDEV).2
  let first := comparediskidlun S w1 spnt1 no
  if first.1.1 then (first.1.2, first.2)
  else
    findscsidisk_loop S no ((List.range searchln.toNat).map (fun k => (k : Int) + 1))
      first.1.2 first.2

/-- A kernel without any device: every `open` of a device node fails. -/
def no_devices : system :=
  { makedev := makedev_small, k_open := fun _ _ => none }

/-- The `mknod` calls among the system calls issued. -/
def mknod_calls (w : world) : List syscall :=
  w.trace.filter (fun c => match c with | syscall.mknod _ _ _ => true | _ => false)

/-! ## `sanitize_sdev` -/

/-- The loop of `sanitize_sdev` over the registry: whether it is left by `break`, the
name `d_name` being equal to the text behind the last '/' of an entry's name.
`strrchr (spnt->name, '/') + 1` is no string when the name is NULL or has no '/'. -/
def sanitize_known (d_name : List Char) : List sname → Exec Bool
  | [] => Exec.ret false
  | spnt :: rest =>
    match spnt.name with
    | none => Exec.crash
    | some nm =>
      match after_last_slash nm with
      | none => Exec.crash
      | some base => if d_name = base then Exec.ret true else sanitize_known d_name rest

/-- One pass of the `while (1)` loop of `sanitize_sdev`, for the directory entry with
the name `d_name`. -/
def sanitize_entry (env : sys_env) (san_del : Int) (reglist : List sname) (w : world)
    (d_name : List Char) : Exec world :=
  if d_name.head? = some '.' then Exec.ret w
  else
    match sanitize_known d_name reglist with
    | Exec.ret true => Exec.ret w
    | Exec.ret false =>
      let filename := DEVSCSI ++ "/".toList ++ d_name
      match sys_stat w.fs filename with
      | some statbuf =>
        if S_ISLNK statbuf.st_mode ∨ S_ISCHR statbuf.st_mode ∨ S_ISBLK statbuf.st_mode then
          let w1 := (sys_unlink w filename).2
          if san_del = 0 then backup_shadow env w1 filename statbuf else Exec.ret w1
        else Exec.ret w
      | none => Exec.ret w
    | Exec.crash => Exec.crash
    | Exec.nofuel => Exec.nofuel

/-- The C function `sanitize_sdev ()`, with the global `san_del`; `dir` lists the
names `readdir` returns for the directory `DEVSCSI`, in order.  The capacity of
`filename[64]` is not modelled. -/
def sanitize_sdev (env : sys_env) (san_del : Int) (reglist : List sname) :
    List (List Char) → world → Exec world
  | [], w => Exec.ret w
  | d_name :: rest, w =>
    match sanitize_entry env san_del reglist w d_name with
    | Exec.ret w1 => sanitize_sdev env san_del reglist rest w1
    | Exec.crash => Exec.crash
    | Exec.nofuel => Exec.nofuel

/-- A managed directory with five entries: the node of the first disk, an orphan
block node "sdh9-0c0i0l0" (group 6, mode 0640), a symbolic link "stale" whose target
does not exist, a symbolic link "cdrom" to the block node "/dev/sr0" (user 1000,
mode 0666) and a symbolic link "notes" to a regular file. -/
def managed_fs : filesys :=
  fs_of [(canon_path, canon_node),
    ("/dev/scsi/sdh9-0c0i0l0".toList,
      fnode.file { kind := ftype.blk, perm := 0o640, uid := 0, gid := 6, rdev := 2192 }),
    ("/dev/scsi/stale".toList, fnode.symlink "/dev/gone".toList 0 0),
    ("/dev/scsi/cdrom".toList, fnode.symlink "/dev/sr0".toList 0 0),
    ("/dev/sr0".toList,
      fnode.file { kind := ftype.blk, perm := 0o666, uid := 1000, gid := 0, rdev := 2816 }),
    ("/dev/scsi/notes".toList, fnode.symlink "/dev/scsi.txt".toList 0 0),
    ("/dev/scsi.txt".toList,
      fnode.file { kind := ftype.reg, perm := 0o644, uid := 0, gid := 0, rdev := 0 })]

/-- The names `readdir` returns for the directory of `managed_fs`. -/
def managed_dir : List (List Char) :=
  [".".toList, "..".toList, "sdh0-0c0i0l0".toList, "sdh9-0c0i0l0".toList, "stale".toList,
    "cdrom".toList, "notes".toList]

/-- The owner, group and permission bits that `stat` reports for a path after a call,
when the call returns and the path leads to a file. -/
def perm_after (res : Exec world) (p : List Char) : Option (Nat × Nat × Nat) :=
  match res with
  | Exec.ret w => (sys_stat w.fs p).map (fun st => (st.st_uid, st.st_gid, and_not_ifmt st.st_mode))
  | _ => none

/-! ## Entries of the registry by pointer, `sname_dup`, `sname_cmp` -/

/-- Sequencing of calls: the second runs on the value the first returns. -/
def Exec.bind {α β : Type} (x : Exec α) (f : α → Exec β) : Exec β :=
  match x with
  | Exec.ret a => f a
  | Exec.crash => Exec.crash
  | Exec.nofuel => Exec.nofuel

/-- The entry a pointer designates: the one with that many entries behind it. -/
def reg_get (reglist : List sname) (p : Nat) : Option sname :=
  if p < reglist.length then reglist[reglist.length - 1 - p]? else none

/-- The registry after a store to the entry a pointer designates. -/
def reg_set (reglist : List sname) (p : Nat) (e : sname) : List sname :=
  if p < reglist.length then reglist.set (reglist.length - 1 - p) e else reglist

/-- The C function `sname_dup (spnt)`, `p` being the pointer `spnt`: the copy, which
is not put in the registry. -/
def sname_dup (spnt : sname) (p : Nat) : sname := { spnt with related := some p }

/-- The C function `safe_strcmp (str1, str2)`: whether it returns a value other than
0. -/
def safe_strcmp (str1 str2 : Option (List Char)) : Bool :=
  match str1, str2 with
  | none, none => false
  | none, some _ => true
  | some _, none => true
  | some a, some b => a != b

/-- The C function `sname_cmp (sp1, sp2)`. -/
def sname_cmp (sp1 sp2 : sname) : Int :=
  if sp1.hostid ≠ sp2.hostid ∨ sp1.hostnum ≠ sp2.hostnum then 1
  else if safe_strcmp sp1.hostname sp2.hostname then 1
  else if sp1.chan ≠ sp2.chan then 2
  else if sp1.id ≠ sp2.id then 3
  else if sp1.lun ≠ sp2.lun then 4
  else if sp1.inq_devtp ≠ sp2.inq_devtp ∨ sp1.rmvbl ≠ sp2.rmvbl then 5
  else if safe_strcmp sp1.manufacturer sp2.manufacturer then 6
  else if safe_strcmp sp1.model sp2.model then 7
  else if safe_strcmp sp1.rev sp2.rev then 8
  else if safe_strcmp sp1.serial sp2.serial then 9
  else if sp1.wwid ≠ sp2.wwid then 10
  else if sp1.hsv_os_id ≠ sp2.hsv_os_id then 11
  else 0

/-! ## Asking a device: `getidlun`, `getscsihostname`, `inquiry`, `get_hsv_os_id`,
`getscsiinfo` -/

/-- The C function `getidlun (fd, spnt, setidlun)` on the descriptor of the device
`d`: the value returned and the entry `*spnt` afterwards.  A successful ioctl
returns 0. -/
def getidlun (d : scsi_dev) (spnt : sname) (setidlun : Int) : Int × sname :=
  match d.idlun with
  | none => (-2, spnt)
  | some (id0, id1) =>
    let spnt1 :=
      if setidlun ≠ 0 then
        { spnt with hostnum := int_and (int_shr id0 24) 0xff,
                    chan := int_and (int_shr id0 16) 0xff,
                    lun := int_and (int_shr id0 8) 0xff,
                    id := int_and id0 0xff }
      else spnt
    (0, { spnt1 with hostid := id1 })

/-- The C function `rmv_trail_ws (str)`: the string left in `str`. -/
def rmv_trail_ws (str : List Char) : List Char :=
  (str.reverse.dropWhile (fun c => c = ' ' ∨ c = c_tab ∨ c = c_newline)).reverse

/-- The C function `getscsihostname (fd, spnt)`; the answer of the ioctl is the string
found in the buffer.  A successful ioctl returns a value that is not negative, of
which the callers test the sign only. -/
def getscsihostname (d : scsi_dev) (spnt : sname) : Int × sname :=
  match d.probe_host with
  | none => (-1, { spnt with hostname := none })
  | some hostname => (0, { spnt with hostname := some (rmv_trail_ws hostname) })

/-- The string `char *no_serial = "No serial number"`. -/
def no_serial : List Char := "No serial number".toList

/-- The C string held by the bytes `getstr` copies: it ends before the first NUL. -/
def bytes_str (bs : List Nat) : List Char :=
  (bs.takeWhile (fun b => b != 0)).map Char.ofNat

/-- The call `getstr (pagestart, start, stop)` with its result as a string. -/
def inq_field (page : Nat → Nat) (start stop : Nat) : Exec (Option (List Char)) :=
  (getstr page start stop).bind (fun r => Exec.ret (r.map bytes_str))

/-- The C function `inquiry (infile, spnt)` on the descriptor of the device `d`, with
the global `verbose`: the value returned and the entry `*spnt` afterwards.  The
lines printed are not modelled. -/
def inquiry (verbose : Int) (d : scsi_dev) (spnt : sname) : Exec (Int × sname) :=
  let spnt0 := { spnt with wwid := no_wwid, serial := some no_serial }
  match d.inq_std with
  | none => Exec.ret (-1, spnt0)
  | some pg =>
    (inq_field pg 8 15).bind (fun manufacturer =>
    (inq_field pg 16 31).bind (fun model =>
    (inq_field pg 32 35).bind (fun rev =>
      let spnt1 :=
        { spnt0 with manufacturer := manufacturer, model := model, rev := rev,
                     inq_devtp := ((byte_at pg 0 &&& 0x1f : Nat) : Int),
                     rmvbl := (((byte_at pg 1 &&& 0x80) >>> 7 : Nat) : Int) }
      let ansi := byte_at pg 2 &&& 7
      let lun : Int := if ansi ≥ 3 then 0 else spnt.lun
      match d.inq_vpd lun 0 with
      | none => Exec.ret (0, spnt1)
      | some sup =>
        let ln := byte_at sup 3
        let have_ser_page := (List.range ln).any (fun off => byte_at sup (4 + off) == 0x80)
        let have_wwid_page := (List.range ln).any (fun off => byte_at sup (4 + off) == 0x83)
        let serial : Exec (Option (List Char)) :=
          if have_ser_page then
            match d.inq_vpd lun 0x80 with
            | some p => inq_field p 4 (3 + byte_at p 3)
            | none => Exec.ret spnt1.serial
          else Exec.ret spnt1.serial
        serial.bind (fun ser =>
          let spnt2 := { spnt1 with serial := ser }
          if have_wwid_page then
            match d.inq_vpd lun 0x83 with
            | some p =>
              (wwid_value (extract_wwid verbose p)).bind (fun v =>
                Exec.ret (0, { spnt2 with wwid := v }))
            | none => Exec.ret (0, spnt2)
          else Exec.ret (0, spnt2)))))

/-- The C function `get_hsv_os_id (infile, spnt)`: the entry `*spnt` afterwards. -/
def get_hsv_os_id (d : scsi_dev) (spnt : sname) : sname :=
  let spnt0 := { spnt with hsv_os_id := no_hsv_os_id }
  match spnt.model with
  | none => spnt0
  | some model =>
    if model.take 3 ≠ "HSV".toList then spnt0
    else
      match d.hsv with
      | none => spnt0
      | some pg => { spnt0 with hsv_os_id := ((byte_at pg 4 <<< 8 ||| byte_at pg 5 : Nat) : Int) }

/-- The statements `scsiname (spnt); oldscsiname (spnt);`: the name stored in
`spnt->name` and the entry afterwards. -/
def set_names (G : globals) (spnt : sname) : Exec (List Char × sname) :=
  (scsiname G.nm_cbtu spnt).bind (fun name =>
  (oldscsiname G.use_scd spnt).bind (fun oldname =>
    Exec.ret (name, { spnt with name := some name, oldname := some oldname })))

/-- The C function `getscsiinfo (fd, spnt, setidlun)` on the descriptor of the device
`d`: the value returned and the entry `*spnt` afterwards. -/
def getscsiinfo (G : globals) (d : scsi_dev) (spnt : sname) (setidlun : Int) :
    Exec (Int × sname) :=
  let r1 := getidlun d spnt setidlun
  if r1.1 ≠ 0 then Exec.ret r1
  else
    let r2 := getscsihostname d r1.2
    if r2.1 < 0 then Exec.ret r2
    else
      (inquiry G.verbose d r2.2).bind (fun r3 =>
        let s4 := get_hsv_os_id d r3.2
        (scsiname G.nm_cbtu s4).bind (fun name =>
          let s5 := { s4 with name := some name }
          if setidlun ≠ 0 then
            (oldscsiname G.use_scd s5).bind (fun oldname =>
              Exec.ret (r3.1, { s5 with oldname := some oldname }))
          else Exec.ret (r3.1, s5)))

/-! ## Building the high-level entries: `build_disk`, `build_tape`, `build_os_tape`,
`build_cdrom`, `build_changer`

The argument `spnt` of a build function is the pointer `gp` to the generic entry,
which is in the registry; the new entry `spnt1` is put at the head of the registry
and then designated by the pointer `reglist.length`.  The result of a build function
is the value returned, the registry and the state of the system. -/

/-- The major `SCSI_TAPE_MAJOR` of the system header `linux/major.h`. -/
def SCSI_TAPE_MAJOR : Int := 9
/-- The macro `OSST_MAJOR`. -/
def OSST_MAJOR : Int := 206
/-- The macro `SCSI_CHANGER_MAJOR`. -/
def SCSI_CHANGER_MAJOR : Int := 86

/-- The C operator `%` on `int` operands: the remainder has the sign of the dividend. -/
def int_mod (a b : Int) : Int := Int.tmod a b

/-- The call `create_dev (spnt1, use_symlink)` with the globals it reads. -/
def create_node (G : globals) (S : system) (w : world) (spnt : sname) : Exec world :=
  create_dev S.env S.makedev G.filemode G.override_link_perm w spnt G.use_symlink

/-- The statements that end a build function in failure:
`reglist = spnt1->next; free (spnt1->name); spnt->related = 0; free (spnt1); return 1;`,
`reglist` being the registry before `spnt1` was put in and `g` the entry `*spnt`. -/
def build_give_up (reglist : List sname) (w : world) (gp : Nat) (g : sname) :
    Exec (Int × List sname × world) :=
  Exec.ret (1, reg_set reglist gp { g with related := none }, w)

/-- The statements `spnt1 = sname_dup (spnt1); spnt1->minor |= 0x80; scsiname (spnt1);
oldscsiname (spnt1); spnt1->next = reglist; reglist = spnt1; create_dev (spnt1,
use_symlink); return 0;` that end `build_tape`, and those that end `build_os_tape`,
where `oldscsiname` is not called; `h` is the entry `*spnt1`, at the head of the
registry. -/
def build_norewind (G : globals) (S : system) (with_oldname : Bool) (h : sname)
    (reglist : List sname) (w : world) : Exec (Int × List sname × world) :=
  let spnt1 := { sname_dup h reglist.length with minor := int_or h.minor 0x80 }
  (if with_oldname then (set_names G spnt1).bind (fun r => Exec.ret r.2)
   else (scsiname G.nm_cbtu spnt1).bind (fun name =>
     Exec.ret { spnt1 with name := some name })).bind (fun spnt2 =>
  (create_node G S w spnt2).bind (fun w1 =>
    Exec.ret (0, spnt2 :: h :: reglist, w1)))

/-- The C function `build_tape (spnt, no)`. -/
def build_tape (G : globals) (S : system) (reglist : List sname) (w : world) (gp : Nat)
    (no : Int) : Exec (Int × List sname × world) :=
  match reg_get reglist gp with
  | none => Exec.crash
  | some g =>
    (set_names G { sname_dup g gp with major := SCSI_TAPE_MAJOR, minor := no,
                                       devtp := devtype_t.ST }).bind (fun r =>
    (create_node G S w r.2).bind (fun w1 =>
      match S.k_open w1 r.1 with
      | none => build_give_up reglist w1 gp g
      | some d =>
        (getscsiinfo G d r.2 1).bind (fun info =>
          if sname_cmp g info.2 ≠ 0 then build_give_up reglist w1 gp g
          else build_norewind G S true info.2 reglist w1)))

/-- The C function `build_os_tape (spnt, no)`. -/
def build_os_tape (G : globals) (S : system) (reglist : List sname) (w : world) (gp : Nat)
    (no : Int) : Exec (Int × List sname × world) :=
  match reg_get reglist gp with
  | none => Exec.crash
  | some g =>
    (set_names G { sname_dup g gp with major := OSST_MAJOR, minor := no,
                                       devtp := devtype_t.OSST }).bind (fun r =>
    (create_node G S w r.2).bind (fun w1 =>
      match S.k_open w1 r.1 with
      | none =>
        if G.supp_rmvbl ≠ 0 then
          build_norewind G S false { r.2 with unsafe_flag := 1 } reglist w1
        else build_give_up reglist w1 gp g
      | some d =>
        (getscsiinfo G d r.2 1).bind (fun info =>
          if sname_cmp g info.2 ≠ 0 then build_give_up reglist w1 gp g
          else build_norewind G S false info.2 reglist w1)))

/-- The C function `build_cdrom (spnt, no)`. -/
def build_cdrom (G : globals) (S : system) (reglist : List sname) (w : world) (gp : Nat)
    (no : Int) : Exec (Int × List sname × world) :=
  match reg_get reglist gp with
  | none => Exec.crash
  | some g =>
    (set_names G { sname_dup g gp with major := SCSI_CDROM_MAJOR, minor := no,
                                       devtp := devtype_t.SR }).bind (fun r =>
    (create_node G S w r.2).bind (fun w1 =>
      match S.k_open w1 r.1 with
      | none =>
        if r.2.rmvbl ≠ 0 ∧ G.supp_rmvbl ≠ 0 then
          Exec.ret (0, { r.2 with unsafe_flag := 1 } :: reglist, w1)
        else build_give_up reglist w1 gp g
      | some d =>
        (getscsiinfo G d r.2 1).bind (fun info =>
          if sname_cmp g info.2 ≠ 0 then build_give_up reglist w1 gp g
          else Exec.ret (0, info.2 :: reglist, w1))))

/-- The C function `build_changer (spnt, no)`. -/
def build_changer (G : globals) (S : system) (reglist : List sname) (w : world) (gp : Nat)
    (no : Int) : Exec (Int × List sname × world) :=
  match reg_get reglist gp with
  | none => Exec.crash
  | some g =>
    (set_names G { sname_dup g gp with major := SCSI_CHANGER_MAJOR, minor := no,
                                       devtp := devtype_t.SCH }).bind (fun r =>
    (create_node G S w r.2).bind (fun w1 =>
      match S.k_open w1 r.1 with
      | none =>
        if r.2.rmvbl ≠ 0 ∧ G.supp_rmvbl ≠ 0 then
          Exec.ret (0, { r.2 with unsafe_flag := 1 } :: reglist, w1)
        else build_give_up reglist w1 gp g
      | some d =>
        (getscsiinfo G d r.2 1).bind (fun info =>
          if sname_cmp g info.2 ≠ 0 then build_give_up reglist w1 gp g
          else Exec.ret (0, info.2 :: reglist, w1))))

/-- The partition scan of `build_disk`, entered with the loop variable `minor`; `h` is
the entry of the whole disk, designated by the pointer `hp`, and every entry made is
put at the head of the registry.  At most `fuel` minors are tried. -/
def build_disk_parts (G : globals) (S : system) (h : sname) (hp : Nat) :
    Nat → Int → List sname → world → Exec (List sname × world)
  | 0, minor, reglist, w =>
    if int_mod minor 16 ≠ 0 then Exec.nofuel else Exec.ret (reglist, w)
  | fuel + 1, minor, reglist, w =>
    if ¬ (int_mod minor 16 ≠ 0) then Exec.ret (reglist, w)
    else
      let w1 := if (sys_stat w.fs TESTDEV).isSome then (sys_unlink w TESTDEV).2 else w
      let w2 := (sys_mknod S.env w1 TESTDEV (0o600 ||| S_IFBLK) (S.makedev h.major minor)).2
      let fd := S.k_open w2 TESTDEV
      let w3 := (sys_unlink w2 TESTDEV).2
      match fd with
      | none => build_disk_parts G S h hp fuel (minor + 1) reglist w3
      | some _ =>
        (set_names G { sname_dup h hp with partition := to_schar (int_mod minor 16),
                                           minor := minor }).bind (fun r =>
        (create_node G S w3 r.2).bind (fun w4 =>
          build_disk_parts G S h hp fuel (minor + 1) (r.2 :: reglist) w4))

/-- The C function `build_disk (spnt, no)`.  The partition scan tries at most 15
minors. -/
def build_disk (G : globals) (S : system) (reglist : List sname) (w : world) (gp : Nat)
    (no : Int) : Exec (Int × List sname × world) :=
  match reg_get reglist gp with
  | none => Exec.crash
  | some g =>
    let found := findscsidisk G.full_scan S w (sname_dup g gp) no
    let g1 := { g with partition := -1 }
    (set_names G { found.1 with devtp := devtype_t.SD }).bind (fun r =>
    (create_node G S found.2 r.2).bind (fun w1 =>
      let g2 := { g1 with related := some reglist.length }
      match S.k_open w1 r.1 with
      | none =>
        if r.2.rmvbl ≠ 0 ∧ G.supp_rmvbl ≠ 0 then
          Exec.ret (0, { r.2 with unsafe_flag := 1 } :: reg_set reglist gp g2, w1)
        else build_give_up reglist w1 gp g2
      | some d =>
        (getscsiinfo G d r.2 1).bind (fun info =>
          if sname_cmp g2 info.2 ≠ 0 then build_give_up reglist w1 gp g2
          else
            (build_disk_parts G S info.2 reglist.length 16 (info.2.minor + 1)
              (info.2 :: reg_set reglist gp g2) w1).bind (fun res =>
              Exec.ret (0, res.1, res.2)))))

/-! ## Example devices and registries for the build functions -/

/-- A generic entry as `build_sgdevlist` leaves it before the build function is
called: host 0, channel 0, id 0, lun 0, removable, no `related` link. -/
def sg_entry : sname :=
  { name := some "/dev/scsi/sgh0-0c0i0l0".toList, oldname := some "sg0".toList,
    devtp := devtype_t.SG, major := 21, minor := 0, partition := -1, rmvbl := 1,
    hostname := some "host".toList, serial := some no_serial, hsv_os_id := -1 }

/-- A device that reports host 0, channel 0, id 0, lun 0, the host name "host" and no
INQUIRY data. -/
def dev_lun0 : scsi_dev := { idlun := some (0, 0), probe_host := some "host".toList }

/-- A device that reports lun 1 where `sg_entry` has lun 0. -/
def dev_lun1 : scsi_dev := { idlun := some (0x100, 0), probe_host := some "host".toList }

/-- A kernel on which every `open` yields the device `d`. -/
def one_device (d : scsi_dev) : system :=
  { makedev := makedev_small, k_open := fun _ _ => some d }

/-- A kernel on which the `open` of a node of "/dev/scsi" other than the test node
yields the device `d` and the `open` of the test node succeeds for the minors 1 and 2
of the first disk. -/
def disk_with_two_parts (d : scsi_dev) : system :=
  { makedev := makedev_small,
    k_open := fun w p =>
      if p = TESTDEV then
        match w.fs TESTDEV with
        | some (fnode.file i) => if i.rdev = 2049 ∨ i.rdev = 2050 then some d else none
        | _ => none
      else some d }

/-- The registry in the result of a build function. -/
def built_registry (res : Exec (Int × List sname × world)) : Option (List sname) :=
  match res with
  | Exec.ret (_, reg, _) => some reg
  | _ => none

/-- The value returned by a build function. -/
def built_status (res : Exec (Int × List sname × world)) : Option Int :=
  match res with
  | Exec.ret (rc, _, _) => some rc
  | _ => none

/-- The kind, minor and `related` pointer of every entry of the registry in the result
of a build function, newest entry first. -/
def built_links (res : Exec (Int × List sname × world)) :
    Option (List (devtype_t × Int × Option Nat)) :=
  (built_registry res).map (fun reg => reg.map (fun e => (e.devtp, e.minor, e.related)))

/-! ## Numerals: the number a printed numeral stands for -/

/-- The value of a digit character: 0..9 for '0'..'9', 10..15 for 'a'..'f'. -/
def digit_value (c : Char) : Nat :=
  if c.toNat < 58 then c.toNat - 48 else c.toNat - 87

/-- The value of a numeral in the given base, most significant digit first. -/
def numeral_value (base : Nat) (l : List Char) : Nat :=
  l.foldl (fun acc c => acc * base + digit_value c) 0

/-- The characters of a decimal numeral. -/
def dec_chars : List Char := "0123456789".toList

/-- The characters of a hexadecimal numeral as `%x` prints it. -/
def hex_chars : List Char := "0123456789abcdef".toList

/-- The fifth partition of a disk on host 1 whose adapter id is 0xc, at channel 0,
id 3, lun 0. -/
def part5_entry : sname :=
  { devtp := devtype_t.SD, major := 8, minor := 0x25, partition := 5, hostnum := 1,
    hostid := 0xc, chan := 0, id := 3, lun := 0 }

/-- An entry with the same kind, topology and partition nibble as `part5_entry` and
another major, minor and model. -/
def part5_twin : sname :=
  { devtp := devtype_t.SD, major := 65, minor := 0x15, partition := 5, hostnum := 1,
    hostid := 0xc, chan := 0, id := 3, lun := 0, model := some "twin".toList }

/-! ## Two calls of `update_device` in succession -/

theorem memcmp_nz_eq_false_iff (s lit : List Char) (h0 : Char.ofNat 0 ∉ lit) :
    memcmp_nz s lit lit.length = false ↔ lit <+: s := by
  unfold memcmp_nz
  rw [bne_eq_false_iff_eq, List.take_length]
  constructor
  · intro h
    have hp : lit <+: s ++ [Char.ofNat 0] := by
      rw [← h]; exact List.take_prefix _ _
    rcases List.prefix_concat_iff.mp hp with h1 | h1
    · have hm : Char.ofNat 0 ∈ lit := by
        rw [h1]; exact List.mem_append_right _ (List.mem_singleton_self _)
      exact absurd hm h0
    · exact h1
  · intro h
    have hp : lit <+: s ++ [Char.ofNat 0] := h.trans (List.prefix_append _ _)
    exact (List.prefix_iff_eq_take.mp hp).symm

theorem memcmp_nz_prefix (s lit : List Char) (n : Nat) (hn : lit.length = n)
    (h0 : Char.ofNat 0 ∉ lit) : memcmp_nz s lit n = !decide (lit <+: s) := by
  subst hn
  by_cases h : lit <+: s
  · simp [h, (memcmp_nz_eq_false_iff s lit h0).mpr h]
  · have : memcmp_nz s lit lit.length ≠ false := fun hf =>
      h ((memcmp_nz_eq_false_iff s lit h0).mp hf)
    simp [h, this]

/-- The kind table wherever `OSST_SUPPORTS` reads no NULL pointer: when no entry is
supplied, when the type code is not sequential-access, and on an entry whose
manufacturer is not NULL and whose model is not NULL when the manufacturer begins
with "OnStream", `inq_devtp_to_devtp` returns the kind of the fixed table, which is
never `NONE`. -/
theorem inq_devtp_to_devtp_table (t : Int) :
    inq_devtp_to_devtp t none = Exec.ret (kind_table t false) ∧
    kind_table t false ≠ devtype_t.NONE ∧ kind_table t true ≠ devtype_t.NONE ∧
    ∀ e : sname,
      (t = 0x01 → e.manufacturer ≠ none ∧
        (("OnStream".toList <+: e.manufacturer.getD []) → e.model ≠ none)) →
      inq_devtp_to_devtp t (some e) =
        Exec.ret (kind_table t (osst_known (e.manufacturer.getD []) (e.model.getD []))) := by
  refine ⟨?_, ?_, ?_, ?_⟩
  · simp only [inq_devtp_to_devtp, kind_table, TYPE_DISK, TYPE_MOD, TYPE_TAPE, TYPE_ROM,
      TYPE_WORM, TYPE_MEDIUM_CHANGER]
    split_ifs <;> simp_all
  · unfold kind_table; split_ifs <;> simp
  · unfold kind_table; split_ifs <;> simp
  · intro e hnn
    by_cases ht : t = 1
    · subst ht
      obtain ⟨hmf0, hmd⟩ := hnn rfl
      obtain ⟨mf, hmf⟩ := Option.ne_none_iff_exists'.mp hmf0
      rw [hmf, Option.getD_some] at hmd ⊢
      have hOn : memcmp_nz mf "OnStream".toList 8 = !decide ("OnStream".toList <+: mf) :=
        memcmp_nz_prefix mf _ 8 (by decide) (by decide)
      by_cases hp : "OnStream".toList <+: mf
      · obtain ⟨md, hm⟩ := Option.ne_none_iff_exists'.mp (hmd hp)
        have h1 := memcmp_nz_prefix md "SC-".toList 3 (by decide) (by decide)
        have h2 := memcmp_nz_prefix md "DI-".toList 3 (by decide) (by decide)
        have h3 := memcmp_nz_prefix md "DP-".toList 3 (by decide) (by decide)
        have h4 := memcmp_nz_prefix md "FW-".toList 3 (by decide) (by decide)
        have h5 := memcmp_nz_prefix md "USB".toList 3 (by decide) (by decide)
        have hO : OSST_SUPPORTS e = Exec.ret (osst_known mf md) := by
          have hb : decide ("OnStream".toList <+: mf) = true := decide_eq_true hp
          simp only [OSST_SUPPORTS, hmf, hOn, hm, osst_known, h1, h2, h3, h4, h5, hb]
          generalize decide ("SC-".toList <+: md) = b1
          generalize decide ("DI-".toList <+: md) = b2
          generalize decide ("DP-".toList <+: md) = b3
          generalize decide ("FW-".toList <+: md) = b4
          generalize decide ("USB".toList <+: md) = b5
          cases b1 <;> cases b2 <;> cases b3 <;> cases b4 <;> cases b5 <;> rfl
        have hk : inq_devtp_to_devtp 1 (some e) =
            Exec.ret (if osst_known mf md then devtype_t.OSST else devtype_t.ST) := by
          simp only [inq_devtp_to_devtp, hO]
          cases osst_known mf md <;> decide
        rw [hk, hm]
        simp only [Option.getD_some]
        cases osst_known mf md <;> decide
      · have hO : OSST_SUPPORTS e = Exec.ret false := by
          have hb : decide ("OnStream".toList <+: mf) = false := decide_eq_false hp
          simp only [OSST_SUPPORTS, hmf, hOn, hb]
          rfl
        have hk : osst_known mf (e.model.getD []) = false := by
          have hb : decide ("OnStream".toList <+: mf) = false := decide_eq_false hp
          simp only [osst_known, hb, Bool.false_and]
        rw [hk]
        simp only [inq_devtp_to_devtp, hO]
        decide
    · simp only [inq_devtp_to_devtp, kind_table, TYPE_DISK, TYPE_MOD, TYPE_TAPE, TYPE_ROM,
        TYPE_WORM, TYPE_MEDIUM_CHANGER, if_neg ht]
      split_ifs <;> rfl

/-- C1 (code defect): for the sequential-access type code 0x01 and an entry whose
manufacturer pointer is NULL (an INQUIRY vendor field that `getstr` trimmed to
nothing), `OSST_SUPPORTS` passes the NULL pointer to `memcmp` and the call does not
return, where the kind table gives `ST`. -/
theorem inq_devtp_to_devtp_null_manufacturer :
    inq_devtp_to_devtp 0x01
      (some { manufacturer := none, model := some "Ultrium 3-SCSI".toList, inq_devtp := 0x01 })
      = Exec.crash ∧
    kind_table 0x01 false = devtype_t.ST := by
  decide

/-! ## Canonical names (`scsiname`) -/

/-- C3: for a tape (ST) or OnStream-tape (OSST) entry the non-rewind variant is
selected by the test `minor & 0x80` alone: the basename of the canonical name is
"nst" (resp. "nosst") followed by the topology part when the test is non-zero and
"st" (resp. "osst") followed by it otherwise, and the legacy name is
"nst<m>"/"st<m>" (resp. "nosst<m>"/"osst<m>") with `m = minor & 0x7f`. -/
theorem tape_nonrewind_names (nm_cbtu use_scd : Int) (e : sname) (stem : List Char)
    (hk : (e.devtp = devtype_t.ST ∧ stem = "st".toList) ∨
          (e.devtp = devtype_t.OSST ∧ stem = "osst".toList)) :
    (int_and e.minor 0x80 ≠ 0 →
      scsiname nm_cbtu e =
        Exec.ret ("/dev/scsi/".toList ++ (("n".toList ++ stem) ++ scsiname_genpart nm_cbtu e)) ∧
      oldscsiname use_scd e =
        Exec.ret (("n".toList ++ stem) ++ fmt_d (int_and e.minor 0x7f))) ∧
    (int_and e.minor 0x80 = 0 →
      scsiname nm_cbtu e =
        Exec.ret ("/dev/scsi/".toList ++ (stem ++ scsiname_genpart nm_cbtu e)) ∧
      oldscsiname use_scd e = Exec.ret (stem ++ fmt_d (int_and e.minor 0x7f))) := by
  rcases hk with ⟨hd, rfl⟩ | ⟨hd, rfl⟩
  · constructor
    · intro h
      simp [scsiname, scsiname_dnm, oldscsiname, hd, h, DEVSCSI]
    · intro h
      simp [scsiname, scsiname_dnm, oldscsiname, hd, h, DEVSCSI]
  · constructor
    · intro h
      simp [scsiname, scsiname_dnm, oldscsiname, hd, h, DEVSCSI]
    · intro h
      simp [scsiname, scsiname_dnm, oldscsiname, hd, h, DEVSCSI]

/-- Witness for `tape_nonrewind_names`: the non-rewind node of the second tape. -/
theorem tape_nonrewind_names_witness :
    scsiname 0 { devtp := devtype_t.ST, minor := 0x81, id := 4 } =
      Exec.ret "/dev/scsi/nsth0-0c0i4l0".toList ∧
    oldscsiname 0 { devtp := devtype_t.ST, minor := 0x81, id := 4 } =
      Exec.ret "nst1".toList :=
  (tape_nonrewind_names 0 0 { devtp := devtype_t.ST, minor := 0x81, id := 4 } "st".toList
    (Or.inl ⟨rfl, rfl⟩)).1 (by decide)

/-! ## Legacy disk names (`sd_devname`) -/

theorem bij26_index_letter : ∀ d, d < 26 → bij26_index (bij26_letter d) = d := by
  decide

theorem bij26_letter_range : ∀ d, d < 26 → 'a' ≤ bij26_letter d ∧ bij26_letter d ≤ 'z' := by
  decide

theorem fmt_c_letter (d : Nat) (h : d < 26) : fmt_c (97 + d) = bij26_letter d := by
  unfold fmt_c bij26_letter
  rw [Nat.mod_eq_of_lt (by omega)]

theorem bij26_letters_inj (ds es : List Nat) (hd : ∀ d ∈ ds, d < 26)
    (he : ∀ d ∈ es, d < 26) (h : ds.map bij26_letter = es.map bij26_letter) : ds = es := by
  have key : ∀ l : List Nat, (∀ d ∈ l, d < 26) →
      (l.map bij26_letter).map bij26_index = l := by
    intro l hl
    rw [List.map_map]
    conv_rhs => rw [← List.map_id l]
    exact List.map_congr_left (fun d hdm => bij26_index_letter d (hl d hdm))
  rw [← key ds hd, ← key es he, h]

/-- The digits `sd_devname` writes for a disk number below 18278. -/
theorem sd_devname_digits (n : Nat) (hn : n < 18278) :
    ∃ ds : List Nat, 1 ≤ ds.length ∧ ds.length ≤ 3 ∧ (∀ d ∈ ds, d < 26) ∧
      bij26_value ds = n + 1 ∧ sd_devname n = "sd".toList ++ ds.map bij26_letter := by
  by_cases h1 : n < 26
  · refine ⟨[n], by simp, by simp, by simpa using h1, by simp [bij26_value], ?_⟩
    simp only [sd_devname, if_pos h1, List.map_cons, List.map_nil, fmt_c_letter n h1]
  · by_cases h2 : n < 26 * 27
    · have a1 : n / 26 - 1 < 26 := by omega
      have a2 : n % 26 < 26 := Nat.mod_lt _ (by decide)
      refine ⟨[n / 26 - 1, n % 26], by simp, by simp, ?_, ?_, ?_⟩
      · intro d hd
        simp only [List.mem_cons, List.mem_singleton, List.not_mem_nil, or_false] at hd
        rcases hd with rfl | rfl <;> assumption
      · simp only [bij26_value, List.foldl_cons, List.foldl_nil]; omega
      · simp only [sd_devname, if_neg h1, if_pos h2, List.map_cons, List.map_nil,
          fmt_c_letter _ a1, fmt_c_letter _ a2]
    · have a1 : (n / 26 - 1) / 26 - 1 < 26 := by omega
      have a2 : (n / 26 - 1) % 26 < 26 := Nat.mod_lt _ (by decide)
      have a3 : n % 26 < 26 := Nat.mod_lt _ (by decide)
      refine ⟨[(n / 26 - 1) / 26 - 1, (n / 26 - 1) % 26, n % 26], by simp, by simp, ?_, ?_, ?_⟩
      · intro d hd
        simp only [List.mem_cons, List.mem_singleton, List.not_mem_nil, or_false] at hd
        rcases hd with rfl | rfl | rfl <;> assumption
      · simp only [bij26_value, List.foldl_cons, List.foldl_nil]; omega
      · simp only [sd_devname, if_neg h1, if_neg h2, List.map_cons, List.map_nil,
          fmt_c_letter _ a1, fmt_c_letter _ a2, fmt_c_letter _ a3]

/-- C4: for every disk number below 18278 the legacy name is "sd" followed by the
1-, 2- or 3-letter lowercase bijective base-26 numeral of the number (the letters
'a'..'z' being the digits 1..26 of `disknum + 1`), every character after "sd" lies
in 'a'..'z', distinct numbers below 18278 give distinct names, and 0, 25, 26, 701,
702, 18277 give sda, sdz, sdaa, sdzz, sdaaa, sdzzz. -/
theorem sd_devname_bijective_base26 :
    (∀ n, n < 18278 →
      ∃ ds : List Nat, 1 ≤ ds.length ∧ ds.length ≤ 3 ∧ (∀ d ∈ ds, d < 26) ∧
        bij26_value ds = n + 1 ∧ sd_devname n = "sd".toList ++ ds.map bij26_letter ∧
        ∀ c ∈ (sd_devname n).drop 2, 'a' ≤ c ∧ c ≤ 'z') ∧
    (∀ m n, m < 18278 → n < 18278 → sd_devname m = sd_devname n → m = n) ∧
    sd_devname 0 = "sda".toList ∧ sd_devname 25 = "sdz".toList ∧
    sd_devname 26 = "sdaa".toList ∧ sd_devname 701 = "sdzz".toList ∧
    sd_devname 702 = "sdaaa".toList ∧ sd_devname 18277 = "sdzzz".toList := by
  refine ⟨?_, ?_, by decide, by decide, by decide, by decide, by decide, by decide⟩
  · intro n hn
    obtain ⟨ds, h1, h2, h3, h4, h5⟩ := sd_devname_digits n hn
    refine ⟨ds, h1, h2, h3, h4, h5, ?_⟩
    intro c hc
    rw [h5] at hc
    have hc2 : c ∈ ds.map bij26_letter := by
      simpa using hc
    obtain ⟨d, hd, rfl⟩ := List.mem_map.mp hc2
    exact bij26_letter_range d (h3 d hd)
  · intro m n hm hn h
    obtain ⟨ds, _, _, d3, d4, d5⟩ := sd_devname_digits m hm
    obtain ⟨es, _, _, e3, e4, e5⟩ := sd_devname_digits n hn
    rw [d5, e5] at h
    have hl : ds = es := bij26_letters_inj ds es d3 e3 (List.append_cancel_left h)
    rw [hl, e4] at d4
    omega

/-- Witness for `sd_devname_bijective_base26`: disks 26 and 701 have distinct names,
and the name of disk 26 is the numeral "aa" of 27. -/
theorem sd_devname_bijective_base26_witness :
    (sd_devname 26 = sd_devname 701 → 26 = 701) ∧
    ∃ ds : List Nat, 1 ≤ ds.length ∧ ds.length ≤ 3 ∧ (∀ d ∈ ds, d < 26) ∧
      bij26_value ds = 26 + 1 ∧ sd_devname 26 = "sd".toList ++ ds.map bij26_letter ∧
      ∀ c ∈ (sd_devname 26).drop 2, 'a' ≤ c ∧ c ≤ 'z' :=
  ⟨sd_devname_bijective_base26.2.1 26 701 (by decide) (by decide),
   sd_devname_bijective_base26.1 26 (by decide)⟩

/-! ## Identifier page 0x83 (`get_no`, `extract_wwid`) -/

theorem byte_at_lt (page : Nat → Nat) (i : Nat) : byte_at page i < 256 :=
  Nat.mod_lt _ (by decide)

theorem ntohl_at_lt (page : Nat → Nat) (i : Nat) : ntohl_at page i < 4294967296 := by
  have h0 := byte_at_lt page i
  have h1 := byte_at_lt page (i + 1)
  have h2 := byte_at_lt page (i + 2)
  have h3 := byte_at_lt page (i + 3)
  unfold ntohl_at
  omega

theorem be64_at_eq (page : Nat → Nat) (i : Nat) :
    be64_at page i = ntohl_at page i * 4294967296 + ntohl_at page (i + 4) := by
  simp only [be64_at, ntohl_at, List.range, List.range.loop, List.map_cons, List.map_nil,
    List.foldl_cons, List.foldl_nil, Nat.add_assoc, Nat.add_zero]
  norm_num
  ring

theorem or_eq_add_of_dvd (k m a b : Nat) (hm : m = 2 ^ k) (ha : m ∣ a) (hb : b < m) :
    a ||| b = a + b := by
  subst hm
  obtain ⟨c, rfl⟩ := ha
  exact (Nat.mul_add_lt_is_or hb c).symm

theorem get_no_eq (page : Nat → Nat) (data start stop k : Nat)
    (hk : 0xffffffff >>> start = 2 ^ k - 1) :
    get_no page data start stop = ntohl_at page data % 2 ^ k / 2 ^ (32 - stop) := by
  simp only [get_no]
  rw [hk, Nat.and_pow_two_sub_one_eq_mod, Nat.shiftRight_eq_div_pow]

theorem get_no_0_32 (page : Nat → Nat) (data : Nat) :
    get_no page data 0 32 = ntohl_at page data := by
  rw [get_no_eq page data 0 32 32 (by decide)]
  have := ntohl_at_lt page data
  norm_num
  omega

theorem get_no_0_24 (page : Nat → Nat) (data : Nat) :
    get_no page data 0 24 = ntohl_at page data / 256 := by
  rw [get_no_eq page data 0 24 32 (by decide)]
  have := ntohl_at_lt page data
  norm_num
  omega

theorem get_no_4_12 (page : Nat → Nat) (data : Nat) :
    get_no page data 4 12 = ntohl_at page data % 268435456 / 1048576 := by
  rw [get_no_eq page data 4 12 28 (by decide)]
  norm_num

theorem get_no_4_28 (page : Nat → Nat) (data : Nat) :
    get_no page data 4 28 = ntohl_at page data % 268435456 / 16 := by
  rw [get_no_eq page data 4 28 28 (by decide)]
  norm_num

theorem get_no_4_8 (page : Nat → Nat) (data : Nat) :
    get_no page data 4 8 = ntohl_at page data % 268435456 / 16777216 := by
  rw [get_no_eq page data 4 8 28 (by decide)]
  norm_num

theorem shl64_eq (x n m : Nat) (hm : 2 ^ n = m) (h : x * m < 18446744073709551616) :
    shl64 x n = x * m := by
  subst hm
  unfold shl64
  rw [Nat.shiftLeft_eq, Nat.mod_eq_of_lt h]

/-- The value of the EUI-64 branch and of the pre-SPC answer: two 32-bit halves. -/
theorem wwid_halves (page : Nat → Nat) (i : Nat) :
    shl64 (get_no page i 0 32) 32 ||| get_no page (i + 4) 0 32 = be64_at page i := by
  have h1 := ntohl_at_lt page i
  have h2 := ntohl_at_lt page (i + 4)
  rw [get_no_0_32, get_no_0_32, shl64_eq _ 32 4294967296 (by norm_num) (by omega),
    or_eq_add_of_dvd 32 4294967296 _ _ (by norm_num) (Dvd.intro_left _ rfl) h2, be64_at_eq]

theorem extract_wwid_loop_total (verbose : Int) (page : Nat → Nat) (len : Nat) :
    ∀ (fuel pid : Nat) (out : List Msg), 4 + len ≤ pid + 4 * fuel →
      extract_wwid_loop verbose page len fuel pid out ≠ Exec.nofuel := by
  intro fuel
  induction fuel with
  | zero =>
    intro pid out h
    have hp : ¬ (pid < 4 + len) := by omega
    simp [extract_wwid_loop, hp]
  | succ f ih =>
    intro pid out h
    have hn : ∀ o, extract_wwid_loop verbose page len f
        (pid + 4 + pg83id_idlen page pid) o ≠ Exec.nofuel :=
      fun o => ih _ o (by omega)
    simp only [extract_wwid_loop]
    split_ifs <;> first | exact hn _ | simp

/-- The model of `extract_wwid` never reaches its iteration bound: the call returns
a value or does not return at all. -/
theorem extract_wwid_total (verbose : Int) (page : Nat → Nat) :
    extract_wwid verbose page ≠ Exec.nofuel := by
  unfold extract_wwid
  simp only []
  split_ifs
  · simp
  · simp
  · exact extract_wwid_loop_total verbose page _ _ 4 [] (by omega)

/-- Entering the loop: on a page with code 0x83 whose first record has reserved
byte 0 and whose declared length is not 0, `extract_wwid` runs the loop from the
first record. -/
theorem extract_wwid_enter (verbose : Int) (page : Nat → Nat)
    (hpg : pg83_pgcode page = 0x83) (hres : pg83id_res page 4 = 0)
    (hlen : 0 < pg83_length page) :
    extract_wwid verbose page =
      extract_wwid_loop verbose page (pg83_length page) ((pg83_length page - 1) + 1) 4 [] := by
  have h : pg83_length page - 1 + 1 = pg83_length page := by omega
  simp [extract_wwid, hpg, hres, h]

/-- A record with a non-zero association is passed over. -/
theorem extract_wwid_loop_assoc (verbose : Int) (page : Nat → Nat) (len fuel pid : Nat)
    (out : List Msg) (hin : pid < 4 + len) (ha : pg83id_assoc page pid ≠ 0) :
    extract_wwid_loop verbose page len (fuel + 1) pid out =
      extract_wwid_loop verbose page len fuel (pid + 4 + pg83id_idlen page pid) out := by
  simp [extract_wwid_loop, hin, ha]

/-- An EUI-64 record of the logical unit: the three cases of its length. -/
theorem extract_wwid_loop_eui64 (verbose : Int) (page : Nat → Nat) (len fuel pid : Nat)
    (out : List Msg) (hin : pid < 4 + len) (ha : pg83id_assoc page pid = 0)
    (hd : pg83id_desig page pid = 2) (hc : pg83id_code page pid = 1) :
    ((pg83id_idlen page pid = 8 ∨ pg83id_idlen page pid = 12) →
      extract_wwid_loop verbose page len (fuel + 1) pid out =
        Exec.ret (be64_at page (pid + 4), out)) ∧
    (pg83id_idlen page pid = 16 →
      extract_wwid_loop verbose page len (fuel + 1) pid out =
        Exec.ret (be64_at page (pid + 8), out)) ∧
    (pg83id_idlen page pid ≠ 8 → pg83id_idlen page pid ≠ 12 → pg83id_idlen page pid ≠ 16 →
      extract_wwid_loop verbose page len (fuel + 1) pid out =
        extract_wwid_loop verbose page len fuel (pid + 4 + pg83id_idlen page pid) out) := by
  refine ⟨?_, ?_, ?_⟩
  · intro h
    have hv := wwid_halves page (pid + 4)
    rcases h with h | h <;>
      simp [extract_wwid_loop, hin, ha, hd, hc, h, pg83id_iddata, hv]
  · intro h
    have hv := wwid_halves page (pid + 4 + 4)
    simp only [Nat.add_assoc] at hv
    simp [extract_wwid_loop, hin, ha, hd, hc, h, pg83id_iddata, Nat.add_assoc, hv]
  · intro h8 h12 h16
    simp [extract_wwid_loop, hin, ha, hd, hc, h8, h12, h16]

set_option maxRecDepth 100000 in
theorem byte_bits : ∀ b, b < 256 →
    (b &&& 0xf0) >>> 4 = b / 16 ∧ b &&& 0x0f = b % 16 ∧ b >>> 4 = b / 16 := by
  decide

/-- Arithmetic of the NAA-5/NAA-6 value: 24 + 4 + 32 bits, the NAA nibble dropped. -/
theorem naa_5_or_6_value (page : Nat → Nat) (d : Nat) :
    shl64 (get_no page d 4 28) 36 ||| shl64 (get_no page (d + 3) 4 8) 32 |||
      get_no page (d + 4) 0 32 = be64_at page d % 1152921504606846976 := by
  have h0 := byte_at_lt page d
  have h1 := byte_at_lt page (d + 1)
  have h2 := byte_at_lt page (d + 2)
  have h3 := byte_at_lt page (d + 3)
  have h4 := byte_at_lt page (d + 4)
  have h5 := byte_at_lt page (d + 5)
  have h6 := byte_at_lt page (d + 6)
  have h7 := byte_at_lt page (d + 7)
  rw [get_no_4_28, get_no_4_8, get_no_0_32, be64_at_eq]
  simp only [ntohl_at, Nat.add_assoc]
  norm_num
  generalize byte_at page d = b0 at *
  generalize byte_at page (d + 1) = b1 at *
  generalize byte_at page (d + 2) = b2 at *
  generalize byte_at page (d + 3) = b3 at *
  generalize byte_at page (d + 4) = b4 at *
  generalize byte_at page (d + 5) = b5 at *
  generalize byte_at page (d + 6) = b6 at *
  generalize byte_at page (d + 7) = b7 at *
  rw [shl64_eq _ 36 68719476736 (by norm_num) (by omega),
    shl64_eq _ 32 4294967296 (by norm_num) (by omega),
    or_eq_add_of_dvd 36 68719476736 _ _ (by norm_num) (Dvd.intro_left _ rfl) (by omega),
    or_eq_add_of_dvd 32 4294967296 _ _ (by norm_num) (by omega) (by omega)]
  omega

/-- The value the specification gives for an NAA-2 payload `p0 .. p7`. -/
theorem naa2_value (page : Nat → Nat) (d : Nat) :
    shl64 (get_no page (d + 2) 0 24) 32 ||| shl64 (get_no page d 4 12 &&& 0xff) 24 |||
      get_no page (d + 5) 0 24 =
    ((be24 (byte_at page (d + 2)) (byte_at page (d + 3)) (byte_at page (d + 4)) <<< 32) |||
      ((((byte_at page d &&& 0x0f) <<< 4) ||| (byte_at page (d + 1) >>> 4)) <<< 24) |||
      be24 (byte_at page (d + 5)) (byte_at page (d + 6)) (byte_at page (d + 7))) ∧
    shl64 (get_no page (d + 2) 0 24) 32 ||| shl64 (get_no page d 4 12 &&& 0xff) 24 |||
      get_no page (d + 5) 0 24 < 72057594037927936 := by
  have h0 := byte_at_lt page d
  have h1 := byte_at_lt page (d + 1)
  have h2 := byte_at_lt page (d + 2)
  have h3 := byte_at_lt page (d + 3)
  have h4 := byte_at_lt page (d + 4)
  have h5 := byte_at_lt page (d + 5)
  have h6 := byte_at_lt page (d + 6)
  have h7 := byte_at_lt page (d + 7)
  have h8 := byte_at_lt page (d + 8)
  have e0 := (byte_bits _ h0).2.1
  have e1 := (byte_bits _ h1).2.2
  rw [get_no_0_24, get_no_4_12, get_no_0_24, e0, e1]
  simp only [ntohl_at, Nat.add_assoc, be24, Nat.shiftLeft_eq]
  norm_num
  generalize byte_at page d = b0 at *
  generalize byte_at page (d + 1) = b1 at *
  generalize byte_at page (d + 2) = b2 at *
  generalize byte_at page (d + 3) = b3 at *
  generalize byte_at page (d + 4) = b4 at *
  generalize byte_at page (d + 5) = b5 at *
  generalize byte_at page (d + 6) = b6 at *
  generalize byte_at page (d + 7) = b7 at *
  generalize byte_at page (d + 8) = b8 at *
  have hx : (b0 * 16777216 + (b1 * 65536 + (b2 * 256 + b3))) % 268435456 / 1048576 &&& 255
      = b0 % 16 * 16 + b1 / 16 := by
    have := Nat.and_pow_two_sub_one_eq_mod
      ((b0 * 16777216 + (b1 * 65536 + (b2 * 256 + b3))) % 268435456 / 1048576) 8
    norm_num at this
    rw [this]
    omega
  rw [hx, shl64_eq _ 32 4294967296 (by norm_num) (by omega),
    shl64_eq _ 24 16777216 (by norm_num) (by omega),
    or_eq_add_of_dvd 4 16 (b0 % 16 * 16) (b1 / 16) (by norm_num) (Dvd.intro_left _ rfl)
      (by omega),
    or_eq_add_of_dvd 32 4294967296 _ _ (by norm_num) (Dvd.intro_left _ rfl) (by omega),
    or_eq_add_of_dvd 24 16777216 _ _ (by norm_num) (by omega) (by omega),
    or_eq_add_of_dvd 32 4294967296 _ _ (by norm_num) (Dvd.intro_left _ rfl) (by omega),
    or_eq_add_of_dvd 24 16777216 _ _ (by norm_num) (by omega) (by omega)]
  constructor <;> omega

/-- An NAA record of the logical unit: the cases of its first payload nibble. -/
theorem extract_wwid_loop_naa (verbose : Int) (page : Nat → Nat) (len fuel pid : Nat)
    (out : List Msg) (hin : pid < 4 + len) (ha : pg83id_assoc page pid = 0)
    (hd : pg83id_desig page pid = 3) (hc : pg83id_code page pid = 1) :
    (pg83id_naa page pid = 2 →
      extract_wwid_loop verbose page len (fuel + 1) pid out =
        Exec.ret (shl64 (get_no page (pid + 4 + 2) 0 24) 32 |||
          shl64 (get_no page (pid + 4) 4 12 &&& 0xff) 24 |||
          get_no page (pid + 4 + 5) 0 24, out)) ∧
    ((pg83id_naa page pid = 5 ∨ pg83id_naa page pid = 6) →
      extract_wwid_loop verbose page len (fuel + 1) pid out =
        Exec.ret (be64_at page (pid + 4) % 1152921504606846976, out)) ∧
    (pg83id_naa page pid ≠ 2 → pg83id_naa page pid ≠ 5 → pg83id_naa page pid ≠ 6 →
      extract_wwid_loop verbose page len (fuel + 1) pid out =
        extract_wwid_loop verbose page len fuel (pid + 4 + pg83id_idlen page pid) out) := by
  refine ⟨?_, ?_, ?_⟩
  · intro h
    simp [extract_wwid_loop, hin, ha, hd, hc, h, pg83id_iddata]
  · intro h
    have hv := naa_5_or_6_value page (pid + 4)
    rcases h with h | h <;>
      simp [extract_wwid_loop, hin, ha, hd, hc, h, pg83id_iddata, hv]
  · intro h2 h5 h6
    simp [extract_wwid_loop, hin, ha, hd, hc, h2, h5, h6]

/-- An ASCII/T10 record of the logical unit is passed over when `verbose` is 0, and
also, after its line is printed, when its length is in 8 .. 129. -/
theorem extract_wwid_loop_t10 (verbose : Int) (page : Nat → Nat) (len fuel pid : Nat)
    (out : List Msg) (hin : pid < 4 + len) (ha : pg83id_assoc page pid = 0)
    (hd : pg83id_desig page pid = 1) (hc : pg83id_code page pid = 2)
    (hv : verbose = 0 ∨ (8 ≤ pg83id_idlen page pid ∧ pg83id_idlen page pid < 130)) :
    ∃ out', extract_wwid_loop verbose page len (fuel + 1) pid out =
      extract_wwid_loop verbose page len fuel (pid + 4 + pg83id_idlen page pid) out' := by
  by_cases h0 : verbose = 0
  · exact ⟨out, by simp [extract_wwid_loop, hin, ha, hd, hc, h0]⟩
  · rcases hv with hv | ⟨h8, h130⟩
    · exact absurd hv h0
    · have hn : ¬ (pg83id_idlen page pid < 8 ∨ 130 ≤ pg83id_idlen page pid) := by omega
      exact ⟨out ++ [Msg.t10_id
          ((List.range 8).map (fun k => byte_at page (pg83id_iddata pid + k)))
          ((List.range (pg83id_idlen page pid - 8)).map
            (fun k => byte_at page (pg83id_iddata pid + 8 + k)))],
        by simp [extract_wwid_loop, hin, ha, hd, hc, h0, hn]⟩

/-- Past the declared length the loop ends with `no_wwid`. -/
theorem extract_wwid_loop_end (verbose : Int) (page : Nat → Nat) (len fuel pid : Nat)
    (out : List Msg) (hin : ¬ (pid < 4 + len)) :
    extract_wwid_loop verbose page len fuel pid out = Exec.ret (no_wwid, out) := by
  cases fuel <;> simp [extract_wwid_loop, hin]

/-- When every record from `pid` on has a non-zero association the loop ends with
`no_wwid`. -/
theorem extract_wwid_loop_all_assoc (verbose : Int) (page : Nat → Nat) (len : Nat) :
    ∀ (fuel pid : Nat) (out : List Msg), 4 + len ≤ pid + 4 * fuel →
      (∀ p ∈ pg83_records_from page len fuel pid, pg83id_assoc page p ≠ 0) →
      extract_wwid_loop verbose page len fuel pid out = Exec.ret (no_wwid, out) := by
  intro fuel
  induction fuel with
  | zero =>
    intro pid out h _
    exact extract_wwid_loop_end verbose page len 0 pid out (by omega)
  | succ f ih =>
    intro pid out h hall
    by_cases hin : pid < 4 + len
    · have hrec : pg83_records_from page len (f + 1) pid =
          pid :: pg83_records_from page len f (pid + 4 + pg83id_idlen page pid) := by
        simp [pg83_records_from, hin]
      rw [hrec] at hall
      rw [extract_wwid_loop_assoc verbose page len f pid out hin
        (hall pid (List.mem_cons_self _ _))]
      exact ih _ out (by omega) (fun p hp => hall p (List.mem_cons_of_mem _ hp))
    · exact extract_wwid_loop_end verbose page len (f + 1) pid out hin

/-- The loop never prints the wrong-page line. -/
theorem extract_wwid_loop_msgs (verbose : Int) (page : Nat → Nat) (len : Nat) :
    ∀ (fuel pid : Nat) (out : List Msg) (v : Nat) (out' : List Msg),
      extract_wwid_loop verbose page len fuel pid out = Exec.ret (v, out') →
      Msg.no_wwid_page ∈ out' → Msg.no_wwid_page ∈ out := by
  intro fuel
  induction fuel with
  | zero =>
    intro pid out v out' h hm
    simp only [extract_wwid_loop] at h
    split_ifs at h
    simp only [Exec.ret.injEq, Prod.mk.injEq] at h
    exact h.2 ▸ hm
  | succ f ih =>
    intro pid out v out' h hm
    simp only [extract_wwid_loop] at h
    split_ifs at h <;>
      first
      | (simp only [Exec.ret.injEq, Prod.mk.injEq] at h; exact h.2 ▸ hm)
      | exact ih _ _ _ _ h hm
      | simpa using ih _ _ _ _ h hm

/-- On a page 0x83 whose first record is an NAA record of the logical unit with
first payload nibble 5 or 6, the result is the big-endian value of the 8 payload
bytes with its top 4 bits cleared. -/
theorem extract_wwid_naa_nibble_5_or_6 (verbose : Int) (page : Nat → Nat)
    (hpg : pg83_pgcode page = 0x83) (hres : pg83id_res page 4 = 0)
    (hlen : 0 < pg83_length page) (ha : pg83id_assoc page 4 = 0)
    (hd : pg83id_desig page 4 = 3) (hc : pg83id_code page 4 = 1)
    (hn : pg83id_naa page 4 = 5 ∨ pg83id_naa page 4 = 6) :
    extract_wwid verbose page = Exec.ret (be64_at page 8 % 1152921504606846976, []) := by
  rw [extract_wwid_enter verbose page hpg hres hlen]
  exact (extract_wwid_loop_naa verbose page _ _ 4 [] (by omega) ha hd hc).2.1 hn

/-- The leading nibble of the payload is the leading nibble of its 64-bit value. -/
theorem be64_at_naa (page : Nat → Nat) (pid n : Nat) (hn : pg83id_naa page pid = n) :
    n * 1152921504606846976 ≤ be64_at page (pid + 4) ∧
    be64_at page (pid + 4) < (n + 1) * 1152921504606846976 := by
  have h0 := byte_at_lt page (pid + 4)
  have h1 := byte_at_lt page (pid + 4 + 1)
  have h2 := byte_at_lt page (pid + 4 + 2)
  have h3 := byte_at_lt page (pid + 4 + 3)
  have h4 := ntohl_at_lt page (pid + 4 + 4)
  have hb := (byte_bits _ h0).1
  simp only [pg83id_naa, pg83id_iddata, hb] at hn
  rw [be64_at_eq]
  simp only [ntohl_at] at h4 ⊢
  omega

/-- C5 (counterexample): the page whose single NAA-5 record carries the 64-bit
value 0x5001020304050607 yields 0x0001020304050607, not the value carried. -/
theorem extract_wwid_naa5_counterexample :
    pg83_pgcode naa5_page = 0x83 ∧ pg83_length naa5_page = 12 ∧
    pg83id_assoc naa5_page 4 = 0 ∧ pg83id_desig naa5_page 4 = 3 ∧
    pg83id_code naa5_page 4 = 1 ∧ pg83id_res naa5_page 4 = 0 ∧
    pg83id_idlen naa5_page 4 = 8 ∧ pg83id_naa naa5_page 4 = 5 ∧
    be64_at naa5_page 8 = 0x5001020304050607 ∧
    extract_wwid 0 naa5_page = Exec.ret (0x0001020304050607, []) ∧
    extract_wwid 0 naa5_page ≠ Exec.ret (be64_at naa5_page 8, []) := by
  decide

/-- C5 (amended): for every page with code 0x83 that holds one record of the
logical unit with designator type 3, code set 1, reserved byte 0 and length 8 whose
first payload nibble is 5, `extract_wwid` returns the 64-bit big-endian value of the
8 payload bytes with the NAA nibble cleared: the value carried minus `5 * 2 ^ 60`,
which is that value modulo `2 ^ 60`. -/
theorem extract_wwid_naa5 (verbose : Int) (page : Nat → Nat)
    (hpg : pg83_pgcode page = 0x83) (hres : pg83id_res page 4 = 0)
    (hlen : pg83_length page = 12) (ha : pg83id_assoc page 4 = 0)
    (hd : pg83id_desig page 4 = 3) (hc : pg83id_code page 4 = 1)
    (_hl : pg83id_idlen page 4 = 8) (hn : pg83id_naa page 4 = 5) :
    extract_wwid verbose page = Exec.ret (be64_at page 8 - 5 * 2 ^ 60, []) ∧
    5 * 2 ^ 60 ≤ be64_at page 8 ∧
    be64_at page 8 - 5 * 2 ^ 60 = be64_at page 8 % 2 ^ 60 := by
  have hv := extract_wwid_naa_nibble_5_or_6 verbose page hpg hres (by omega) ha hd hc (Or.inl hn)
  have hb := be64_at_naa page 4 5 hn
  norm_num at hb
  have e1 : (5 * 2 ^ 60 : Nat) = 5764607523034234880 := by norm_num
  have e2 : (2 ^ 60 : Nat) = 1152921504606846976 := by norm_num
  have he : be64_at page 8 % 1152921504606846976 = be64_at page 8 - 5764607523034234880 := by
    omega
  rw [e1, e2, hv, he]
  exact ⟨rfl, hb.1, rfl⟩

/-- Witness for `extract_wwid_naa5`. -/
theorem extract_wwid_naa5_witness :
    extract_wwid 0 naa5_page = Exec.ret (be64_at naa5_page 8 - 5 * 2 ^ 60, []) ∧
    5 * 2 ^ 60 ≤ be64_at naa5_page 8 ∧
    be64_at naa5_page 8 - 5 * 2 ^ 60 = be64_at naa5_page 8 % 2 ^ 60 :=
  extract_wwid_naa5 0 naa5_page (by decide) (by decide) (by decide) (by decide)
    (by decide) (by decide) (by decide) (by decide)

/-- C6: on a page with code 0x83 whose first record belongs to the logical unit and
has designator type 2, code set 1 and reserved byte 0, `extract_wwid` returns the
big-endian 64-bit value of payload bytes 0..7 when the payload length is 8 or 12 and
of payload bytes 4..11 when it is 16; for every other length the record is skipped
(the loop goes on with the next record), so the result is `no_wwid` when it is the
only record. -/
theorem extract_wwid_eui64 (verbose : Int) (page : Nat → Nat)
    (hpg : pg83_pgcode page = 0x83) (hres : pg83id_res page 4 = 0)
    (hlen : 0 < pg83_length page) (ha : pg83id_assoc page 4 = 0)
    (hd : pg83id_desig page 4 = 2) (hc : pg83id_code page 4 = 1) :
    ((pg83id_idlen page 4 = 8 ∨ pg83id_idlen page 4 = 12) →
      extract_wwid verbose page = Exec.ret (be64_at page 8, [])) ∧
    (pg83id_idlen page 4 = 16 →
      extract_wwid verbose page = Exec.ret (be64_at page 12, [])) ∧
    (pg83id_idlen page 4 ≠ 8 → pg83id_idlen page 4 ≠ 12 → pg83id_idlen page 4 ≠ 16 →
      extract_wwid verbose page =
        extract_wwid_loop verbose page (pg83_length page) (pg83_length page - 1)
          (8 + pg83id_idlen page 4) [] ∧
      (pg83_length page = 4 + pg83id_idlen page 4 →
        extract_wwid verbose page = Exec.ret (no_wwid, []))) := by
  have hstep := extract_wwid_loop_eui64 verbose page (pg83_length page)
    (pg83_length page - 1) 4 [] (by omega) ha hd hc
  rw [extract_wwid_enter verbose page hpg hres hlen]
  refine ⟨hstep.1, hstep.2.1, ?_⟩
  intro h8 h12 h16
  have hnext : (4 : Nat) + 4 + pg83id_idlen page 4 = 8 + pg83id_idlen page 4 := by omega
  have hs := hstep.2.2 h8 h12 h16
  rw [hnext] at hs
  refine ⟨hs, ?_⟩
  intro hone
  rw [hs]
  exact extract_wwid_loop_end verbose page _ _ _ [] (by omega)

/-- Witness for `extract_wwid_eui64`. -/
theorem extract_wwid_eui64_witness :
    extract_wwid 0 eui64_page = Exec.ret (be64_at eui64_page 8, []) :=
  (extract_wwid_eui64 0 eui64_page (by decide) (by decide) (by decide) (by decide)
    (by decide) (by decide)).1 (Or.inl (by decide))

/-- C7: on a page with code 0x83 whose first record belongs to the logical unit and
has designator type 3, code set 1 and reserved byte 0, with payload `p`: when the
first payload nibble is 2 the result is
`(B24(p[2],p[3],p[4]) << 32) | (((p[0] & 0x0f) << 4 | p[1] >> 4) << 24) | B24(p[5],p[6],p[7])`,
a value below `2 ^ 56`; when the nibble is none of 2, 5, 6 the record is skipped
(the loop goes on with the next record, and the result is `no_wwid` when it is the
only record). -/
theorem extract_wwid_naa2 (verbose : Int) (page : Nat → Nat)
    (hpg : pg83_pgcode page = 0x83) (hres : pg83id_res page 4 = 0)
    (hlen : 0 < pg83_length page) (ha : pg83id_assoc page 4 = 0)
    (hd : pg83id_desig page 4 = 3) (hc : pg83id_code page 4 = 1) :
    (pg83id_naa page 4 = 2 →
      ∃ v, extract_wwid verbose page = Exec.ret (v, []) ∧ v < 2 ^ 56 ∧
        v = ((be24 (byte_at page 10) (byte_at page 11) (byte_at page 12) <<< 32) |||
          ((((byte_at page 8 &&& 0x0f) <<< 4) ||| (byte_at page 9 >>> 4)) <<< 24) |||
          be24 (byte_at page 13) (byte_at page 14) (byte_at page 15))) ∧
    (pg83id_naa page 4 ≠ 2 → pg83id_naa page 4 ≠ 5 → pg83id_naa page 4 ≠ 6 →
      extract_wwid verbose page =
        extract_wwid_loop verbose page (pg83_length page) (pg83_length page - 1)
          (8 + pg83id_idlen page 4) [] ∧
      (pg83_length page = 4 + pg83id_idlen page 4 →
        extract_wwid verbose page = Exec.ret (no_wwid, []))) := by
  have hstep := extract_wwid_loop_naa verbose page (pg83_length page)
    (pg83_length page - 1) 4 [] (by omega) ha hd hc
  rw [extract_wwid_enter verbose page hpg hres hlen]
  constructor
  · intro h2
    have hv := naa2_value page 8
    refine ⟨_, hstep.1 h2, ?_, ?_⟩
    · have e : (2 ^ 56 : Nat) = 72057594037927936 := by norm_num
      rw [e]
      exact hv.2
    · exact hv.1
  · intro h2 h5 h6
    have hnext : (4 : Nat) + 4 + pg83id_idlen page 4 = 8 + pg83id_idlen page 4 := by omega
    have hs := hstep.2.2 h2 h5 h6
    rw [hnext] at hs
    refine ⟨hs, ?_⟩
    intro hone
    rw [hs]
    exact extract_wwid_loop_end verbose page _ _ _ [] (by omega)

/-- Witness for `extract_wwid_naa2`. -/
theorem extract_wwid_naa2_witness :
    ∃ v, extract_wwid 0 naa2_page = Exec.ret (v, []) ∧ v < 2 ^ 56 ∧
      v = ((be24 (byte_at naa2_page 10) (byte_at naa2_page 11) (byte_at naa2_page 12) <<< 32) |||
        ((((byte_at naa2_page 8 &&& 0x0f) <<< 4) ||| (byte_at naa2_page 9 >>> 4)) <<< 24) |||
        be24 (byte_at naa2_page 13) (byte_at naa2_page 14) (byte_at naa2_page 15)) :=
  (extract_wwid_naa2 0 naa2_page (by decide) (by decide) (by decide) (by decide)
    (by decide) (by decide)).1 (by decide)

/-- A page 0x83 whose only record is an ASCII/T10 record of
the logical unit yields `no_wwid` when `verbose` is 0, and also when the record's
length is in 8 .. 129. -/
theorem extract_wwid_t10_absent (verbose : Int) (page : Nat → Nat)
    (hpg : pg83_pgcode page = 0x83) (hres : pg83id_res page 4 = 0)
    (hone : pg83_length page = 4 + pg83id_idlen page 4) (ha : pg83id_assoc page 4 = 0)
    (hd : pg83id_desig page 4 = 1) (hc : pg83id_code page 4 = 2)
    (hv : verbose = 0 ∨ (8 ≤ pg83id_idlen page 4 ∧ pg83id_idlen page 4 < 130)) :
    ∃ out, extract_wwid verbose page = Exec.ret (no_wwid, out) := by
  rw [extract_wwid_enter verbose page hpg hres (by omega)]
  obtain ⟨out', ho⟩ := extract_wwid_loop_t10 verbose page (pg83_length page)
    (pg83_length page - 1) 4 [] (by omega) ha hd hc hv
  rw [ho]
  exact ⟨out', extract_wwid_loop_end verbose page _ _ _ out' (by omega)⟩

/-- C8 (code defect): with `verbose` set, a page 0x83 whose only record is an
ASCII/T10 record of the logical unit with a 4-byte payload makes `extract_wwid` call
`memcpy (dev_id, pid->iddata+8, pid->idlen-8)` with the length `4 - 8`; the call does
not return `no_wwid`.  The same page yields `no_wwid` when `verbose` is 0. -/
theorem extract_wwid_t10_short_verbose :
    pg83_pgcode t10_short_page = 0x83 ∧ pg83id_res t10_short_page 4 = 0 ∧
    pg83id_assoc t10_short_page 4 = 0 ∧ pg83id_desig t10_short_page 4 = 1 ∧
    pg83id_code t10_short_page 4 = 2 ∧ pg83id_idlen t10_short_page 4 = 4 ∧
    extract_wwid 1 t10_short_page = Exec.crash ∧
    extract_wwid 0 t10_short_page = Exec.ret (no_wwid, []) := by
  decide

/-- C9: on a page with code 0x83 whose first record has reserved byte 0 and lies
within the declared length, a record with a non-zero association is skipped
whatever its type and payload (at every offset the loop goes on with the next
record, and so does the call when it is the first record); if the record after the
first lies within the declared length and is an EUI-64 record of the logical unit
of length 8, the result is the id of that second record; and if every record of the
page has a non-zero association the result is `no_wwid`. -/
theorem extract_wwid_assoc_skip (verbose : Int) (page : Nat → Nat)
    (hpg : pg83_pgcode page = 0x83) (hres : pg83id_res page 4 = 0)
    (hlen : 0 < pg83_length page) :
    (∀ (fuel pid : Nat) (out : List Msg), pid < 4 + pg83_length page →
      pg83id_assoc page pid ≠ 0 →
      extract_wwid_loop verbose page (pg83_length page) (fuel + 1) pid out =
        extract_wwid_loop verbose page (pg83_length page) fuel
          (pid + 4 + pg83id_idlen page pid) out) ∧
    (pg83id_assoc page 4 ≠ 0 →
      extract_wwid verbose page =
        extract_wwid_loop verbose page (pg83_length page) (pg83_length page - 1)
          (8 + pg83id_idlen page 4) [] ∧
      (8 + pg83id_idlen page 4 < 4 + pg83_length page →
        pg83id_assoc page (8 + pg83id_idlen page 4) = 0 →
        pg83id_desig page (8 + pg83id_idlen page 4) = 2 →
        pg83id_code page (8 + pg83id_idlen page 4) = 1 →
        pg83id_idlen page (8 + pg83id_idlen page 4) = 8 →
        extract_wwid verbose page =
          Exec.ret (be64_at page (8 + pg83id_idlen page 4 + 4), []))) ∧
    ((∀ p ∈ pg83_records page, pg83id_assoc page p ≠ 0) →
      extract_wwid verbose page = Exec.ret (no_wwid, [])) := by
  rw [extract_wwid_enter verbose page hpg hres hlen]
  refine ⟨fun fuel pid out hin hne =>
    extract_wwid_loop_assoc verbose page _ fuel pid out hin hne, ?_, ?_⟩
  · intro hskip
    have hnext : (4 : Nat) + 4 + pg83id_idlen page 4 = 8 + pg83id_idlen page 4 := by omega
    have hs := extract_wwid_loop_assoc verbose page (pg83_length page)
      (pg83_length page - 1) 4 [] (by omega) hskip
    rw [hnext] at hs
    refine ⟨hs, ?_⟩
    intro hin ha hd hc hl
    rw [hs]
    have hf : pg83_length page - 1 = (pg83_length page - 2) + 1 := by omega
    rw [hf]
    exact (extract_wwid_loop_eui64 verbose page (pg83_length page) (pg83_length page - 2)
      (8 + pg83id_idlen page 4) [] hin ha hd hc).1 (Or.inl hl)
  · intro hall
    have hf : pg83_length page - 1 + 1 = pg83_length page := by omega
    rw [hf]
    exact extract_wwid_loop_all_assoc verbose page (pg83_length page) (pg83_length page) 4 []
      (by omega) hall

/-- Witness for `extract_wwid_assoc_skip`: a target-port record followed by an
EUI-64 record of the logical unit. -/
theorem extract_wwid_assoc_skip_witness :
    extract_wwid 0 port_then_eui64_page = Exec.ret (0x0011223344556677, []) :=
  ((extract_wwid_assoc_skip 0 port_then_eui64_page (by decide) (by decide)
    (by decide)).2.1 (by decide)).2 (by decide) (by decide) (by decide) (by decide) (by decide)

/-- C10: for every page whose page-code byte is not 0x83, `extract_wwid` reports the
error: it prints "Page does not contain any WWID" (and returns `no_wwid`); its
outcome differs from the outcome of every call on a page with code 0x83, at any
verbosity, because that line is never printed there.  The two outcomes are thereby
told apart, although both return values are `no_wwid` when the page with code 0x83
holds no usable record. -/
theorem extract_wwid_wrong_page (verbose : Int) (page : Nat → Nat)
    (hpg : pg83_pgcode page ≠ 0x83) :
    extract_wwid verbose page = Exec.ret (no_wwid, [Msg.no_wwid_page]) ∧
    ∀ (verbose' : Int) (page' : Nat → Nat), pg83_pgcode page' = 0x83 →
      extract_wwid verbose' page' ≠ extract_wwid verbose page ∧
      ∀ v out, extract_wwid verbose' page' = Exec.ret (v, out) → Msg.no_wwid_page ∉ out := by
  have hw : extract_wwid verbose page = Exec.ret (no_wwid, [Msg.no_wwid_page]) := by
    simp [extract_wwid, hpg]
  refine ⟨hw, ?_⟩
  intro verbose' page' h
  have key : ∀ v out, extract_wwid verbose' page' = Exec.ret (v, out) →
      Msg.no_wwid_page ∉ out := by
    intro v out hr hm
    by_cases hres : pg83id_res page' 4 = 0
    · have he : extract_wwid verbose' page' =
          extract_wwid_loop verbose' page' (pg83_length page') (pg83_length page') 4 [] := by
        simp [extract_wwid, h, hres]
      rw [he] at hr
      exact absurd (extract_wwid_loop_msgs verbose' page' _ _ 4 [] v out hr hm)
        (List.not_mem_nil _)
    · have he : extract_wwid verbose' page' =
          Exec.ret (shl64 (get_no page' 4 0 32) 32 ||| get_no page' (4 + 4) 0 32, []) := by
        simp [extract_wwid, h, hres]
      rw [he] at hr
      simp only [Exec.ret.injEq, Prod.mk.injEq] at hr
      rw [← hr.2] at hm
      exact absurd hm (List.not_mem_nil _)
  refine ⟨?_, key⟩
  intro heq
  rw [hw] at heq
  exact key no_wwid [Msg.no_wwid_page] heq (List.mem_singleton_self _)

/-- Witness for `extract_wwid_wrong_page`: a serial-number page is reported, and its
outcome differs from that of a page 0x83 without a usable record. -/
theorem extract_wwid_wrong_page_witness :
    extract_wwid 0 serial_page = Exec.ret (no_wwid, [Msg.no_wwid_page]) ∧
    extract_wwid 0 t10_short_page ≠ extract_wwid 0 serial_page :=
  ⟨(extract_wwid_wrong_page 0 serial_page (by decide)).1,
   ((extract_wwid_wrong_page 0 serial_page (by decide)).2 0 t10_short_page (by decide)).1⟩

/-! ## Text fields (`getstr`) -/

/-- On leaving the first loop of `getstr` its condition is false: the bound on the
number of passes is never what ends it. -/
theorem getstr_lead_exit (page : Nat → Nat) (stop : Nat) :
    ∀ fuel start, stop - start ≤ fuel →
      ¬ (byte_at page (getstr_lead page stop fuel start) = 32 ∧
         getstr_lead page stop fuel start < stop) := by
  intro fuel
  induction fuel with
  | zero =>
    intro start h
    simp only [getstr_lead]
    omega
  | succ f ih =>
    intro start h
    simp only [getstr_lead]
    split_ifs with hc
    · exact ih (start + 1) (by omega)
    · exact hc

/-- On leaving the second loop of `getstr` its condition is false. -/
theorem getstr_trail_exit (page : Nat → Nat) (start : Nat) :
    ∀ fuel stop, stop - start ≤ fuel →
      ¬ (byte_at page (getstr_trail page start fuel stop) = 32 ∧
         getstr_trail page start fuel stop > start) := by
  intro fuel
  induction fuel with
  | zero =>
    intro stop h
    simp only [getstr_trail]
    omega
  | succ f ih =>
    intro stop h
    simp only [getstr_trail]
    split_ifs with hc
    · exact ih (stop - 1) (by omega)
    · exact hc

theorem getstr_lead_range (page : Nat → Nat) (stop : Nat) :
    ∀ fuel start, start ≤ stop →
      start ≤ getstr_lead page stop fuel start ∧ getstr_lead page stop fuel start ≤ stop ∧
      ∀ k, start ≤ k → k < getstr_lead page stop fuel start → byte_at page k = 32 := by
  intro fuel
  induction fuel with
  | zero =>
    intro start h
    simp only [getstr_lead]
    exact ⟨le_refl _, h, fun k h1 h2 => by omega⟩
  | succ f ih =>
    intro start h
    simp only [getstr_lead]
    split_ifs with hc
    · obtain ⟨h1, h2, h3⟩ := ih (start + 1) (by omega)
      refine ⟨by omega, h2, ?_⟩
      intro k hk1 hk2
      by_cases hk : k = start
      · rw [hk]
        exact hc.1
      · exact h3 k (by omega) hk2
    · exact ⟨le_refl _, h, fun k h1 h2 => by omega⟩

theorem getstr_trail_range (page : Nat → Nat) (start : Nat) :
    ∀ fuel stop, start ≤ stop →
      start ≤ getstr_trail page start fuel stop ∧ getstr_trail page start fuel stop ≤ stop ∧
      ∀ k, getstr_trail page start fuel stop < k → k ≤ stop → byte_at page k = 32 := by
  intro fuel
  induction fuel with
  | zero =>
    intro stop h
    simp only [getstr_trail]
    exact ⟨h, le_refl _, fun k h1 h2 => by omega⟩
  | succ f ih =>
    intro stop h
    simp only [getstr_trail]
    split_ifs with hc
    · obtain ⟨h1, h2, h3⟩ := ih (stop - 1) (by omega)
      refine ⟨h1, by omega, ?_⟩
      intro k hk1 hk2
      by_cases hk : k = stop
      · rw [hk]
        exact hc.1
      · exact h3 k hk1 (by omega)
    · exact ⟨h, le_refl _, fun k h1 h2 => by omega⟩

/-- What `getstr` returns on a range that is not empty (`start ≤ stop`): there are
offsets `s ≤ e` inside the range such that every byte before `s` and every byte behind
`e` is a space; when `s < e` the bytes at `s` and at `e` are no spaces and the result
is the string of the bytes `s..e`, which is the trimmed text; when `s = e` the result
is the NULL pointer, whether the one byte left is a space or not. -/
theorem getstr_trimmed (page : Nat → Nat) (start stop : Nat) (h : start ≤ stop) :
    ∃ s e, start ≤ s ∧ s ≤ e ∧ e ≤ stop ∧
      (∀ k, start ≤ k → k < s → byte_at page k = 32) ∧
      (∀ k, e < k → k ≤ stop → byte_at page k = 32) ∧
      (s < e → byte_at page s ≠ 32 ∧ byte_at page e ≠ 32) ∧
      getstr page start stop =
        Exec.ret (if e = s then none
          else some ((List.range (e + 1 - s)).map (fun k => byte_at page (s + k)))) := by
  obtain ⟨h1, h2, h3⟩ := getstr_lead_range page stop (stop - start) start h
  have hx1 := getstr_lead_exit page stop (stop - start) start (le_refl _)
  obtain ⟨h4, h5, h6⟩ := getstr_trail_range page (getstr_lead page stop (stop - start) start)
    (stop - getstr_lead page stop (stop - start) start) stop h2
  have hx2 := getstr_trail_exit page (getstr_lead page stop (stop - start) start)
    (stop - getstr_lead page stop (stop - start) start) stop (le_refl _)
  refine ⟨getstr_lead page stop (stop - start) start,
    getstr_trail page (getstr_lead page stop (stop - start) start)
      (stop - getstr_lead page stop (stop - start) start) stop, h1, h4, h5, h3, h6, ?_, ?_⟩
  · intro hlt
    exact ⟨fun hb => hx1 ⟨hb, by omega⟩, fun hb => hx2 ⟨hb, hlt⟩⟩
  · simp only [getstr]
    split_ifs with c1 c2
    · rfl
    · omega
    · rfl

/-- C11 (code defect): a vendor field holding the single character "A" padded with
spaces (bytes 8..15) makes `getstr` return the NULL pointer, not the string "A",
because the test for the empty text is `stop == start`; and a zero-length body
(`start = 4`, `stop = 3`, an empty page-0x80 serial) makes it return the empty
string, not the NULL pointer. -/
theorem getstr_single_char_null :
    (List.range 8).map (fun k => byte_at inq_vendor_A_page (8 + k)) =
      [0x41, 0x20, 0x20, 0x20, 0x20, 0x20, 0x20, 0x20] ∧
    getstr inq_vendor_A_page 8 15 = Exec.ret none ∧
    getstr serial_empty_page 4 (3 + byte_at serial_empty_page 3) = Exec.ret (some []) := by
  decide

/-! ## Alias matching (`build_special`) -/

theorem str_differs_any (want field : Option (List Char)) :
    ¬ ((want.any (fun s => str_differs field s)) = true) ↔
      ∀ s, want = some s → field = some s := by
  cases want with
  | none => simp
  | some w =>
    cases field with
    | none => simp [str_differs]
    | some f => simp [str_differs]

theorem host_differs_false (field : Option (List Char)) (h : List Char) :
    host_differs field h = false ↔ ∃ n, field = some n ∧ h <+: n := by
  cases field with
  | none => simp [host_differs]
  | some f =>
    simp only [host_differs, bne_eq_false_iff_eq, Option.some.injEq, exists_eq_left']
    rw [List.prefix_iff_eq_take]
    exact eq_comm

theorem host_differs_any (want a b : Option (List Char)) :
    ¬ ((want.any (fun h => host_differs a h && host_differs b h)) = true) ↔
      ∀ h, want = some h →
        (∃ n, a = some n ∧ h <+: n) ∨ (∃ n, b = some n ∧ h <+: n) := by
  cases want with
  | none => simp
  | some w =>
    simp only [Option.any_some, Bool.not_eq_true, Bool.and_eq_false_iff, Option.some.injEq,
      forall_eq', host_differs_false]

theorem int_field_iff (a b : Int) : ¬ (a ≠ -1 ∧ a ≠ b) ↔ (a ≠ -1 → b = a) := by
  constructor <;> intro h <;> omega

theorem ite_false_eq_true (p : Prop) [Decidable p] (b : Bool) :
    (if p then false else b) = true ↔ ¬ p ∧ b = true := by
  by_cases h : p <;> simp [h]

/-- The match test of `build_special` as a conjunction of its conditions. -/
theorem alias_match_eq_true_iff (r : alias_rec) (e : sname) :
    alias_match r e = true ↔ alias_match_fields r e ∧ e.partition = r.part := by
  unfold alias_match
  simp only [ite_false_eq_true]
  unfold alias_match_fields
  rw [int_field_iff, int_field_iff, int_field_iff, int_field_iff, int_field_iff, int_field_iff,
    str_differs_any, str_differs_any, str_differs_any, str_differs_any, host_differs_any]
  constructor
  · rintro ⟨h1, h2, h3, h4, h5, h6, h7, h8, h9, h10, h11, h12, h13, h14, h15, h16, _⟩
    refine ⟨⟨not_not.mp h1, h10, not_not.mp h8, h2, h4, h3, h5, h6, h7, ?_, h12, h13, h14,
      h15, h16⟩, (not_not.mp h9).symm⟩
    intro hw
    by_contra hne
    exact h11 ⟨hw, fun h => hne h.symm⟩
  · rintro ⟨⟨h1, h10, h8, h2, h4, h3, h5, h6, h7, h11, h12, h13, h14, h15, h16⟩, h9⟩
    refine ⟨not_not.mpr h1, h2, h3, h4, h5, h6, h7, not_not.mpr h8, not_not.mpr h9.symm, h10,
      ?_, h12, h13, h14, h15, h16, trivial⟩
    rintro ⟨hw, hne⟩
    exact hne (h11 hw).symm

theorem reg_ids_snd (l : List sname) : (reg_ids l).map Prod.snd = l := by
  induction l with
  | nil => rfl
  | cons e rest ih => simp [reg_ids, ih]

theorem reg_ids_mem (l : List sname) (i : Nat) (e : sname) (h : (i, e) ∈ reg_ids l) :
    e ∈ l ∧ i < l.length := by
  induction l with
  | nil => simp [reg_ids] at h
  | cons a rest ih =>
    simp only [reg_ids, List.mem_cons, Prod.mk.injEq] at h
    rcases h with ⟨h1, h2⟩ | h
    · subst h1 h2
      simp
    · have := ih h
      exact ⟨List.mem_cons_of_mem _ this.1, by simp only [List.length_cons]; omega⟩

theorem reg_ids_append (pre post : List sname) :
    reg_ids (pre ++ post) =
      (reg_ids pre).map (fun x => (x.1 + post.length, x.2)) ++ reg_ids post := by
  induction pre with
  | nil => simp [reg_ids]
  | cons a rest ih =>
    have hl : (rest ++ post).length = rest.length + post.length := List.length_append _ _
    show ((rest ++ post).length, a) :: reg_ids (rest ++ post) =
      (rest.length + post.length, a) ::
        ((reg_ids rest).map (fun x => (x.1 + post.length, x.2)) ++ reg_ids post)
    rw [ih, hl]

theorem reg_ids_filter_length (p : sname → Bool) (l : List sname) :
    ((reg_ids l).filter (fun x => p x.2)).length = (l.filter p).length := by
  induction l with
  | nil => rfl
  | cons a rest ih =>
    simp only [reg_ids, List.filter_cons]
    split_ifs <;> simp [ih]

theorem alias_scan_some (supp_multi : Int) (r : alias_rec) :
    ∀ (l : List (Nat × sname)) (x : Nat × sname),
      alias_scan supp_multi r l (some x) =
        (some x, decide (supp_multi = 0) && l.any (fun y => alias_match r y.2)) := by
  intro l
  induction l with
  | nil => intro x; simp [alias_scan]
  | cons a rest ih =>
    intro x
    simp only [alias_scan, List.any_cons]
    by_cases hm : alias_match r a.2 = true
    · by_cases hs : supp_multi = 0
      · simp [hm, hs]
      · simp [hm, hs, ih]
    · simp [hm, ih]

theorem alias_scan_none (supp_multi : Int) (r : alias_rec) :
    ∀ (l : List (Nat × sname)),
      alias_scan supp_multi r l none =
        (l.find? (fun y => alias_match r y.2),
         decide (supp_multi = 0) &&
           decide (2 ≤ (l.filter (fun y => alias_match r y.2)).length)) := by
  intro l
  induction l with
  | nil => simp [alias_scan]
  | cons a rest ih =>
    simp only [alias_scan, List.find?_cons, List.filter_cons]
    by_cases hm : alias_match r a.2 = true
    · simp only [hm, if_true, alias_scan_some, List.length_cons]
      congr 1
      congr 1
      rw [Bool.eq_iff_iff]
      simp only [List.any_eq_true, decide_eq_true_eq]
      constructor
      · rintro ⟨y, hy, hp⟩
        have : 0 < (List.filter (fun y => alias_match r y.2) rest).length :=
          List.length_pos_of_mem (List.mem_filter.mpr ⟨hy, hp⟩)
        omega
      · intro h
        have hpos : 0 < (List.filter (fun y => alias_match r y.2) rest).length := by omega
        obtain ⟨y, hy⟩ := List.exists_mem_of_length_pos hpos
        exact ⟨y, (List.mem_filter.mp hy).1, (List.mem_filter.mp hy).2⟩
    · simp [hm, ih]

theorem alias_partitions_grow (heap : Nat → sname) (name : List Char) (m : sname)
    (rel : Option Nat) (devtype_i : devtype_t) :
    ∀ (todo : List (Nat × sname)) (reglist calls : List sname),
      reglist <:+ (alias_partitions heap name m rel devtype_i todo reglist calls).1 ∧
      calls <+: (alias_partitions heap name m rel devtype_i todo reglist calls).2 := by
  intro todo
  induction todo with
  | nil => intro reglist calls; simp [alias_partitions]
  | cons x todo ih =>
    intro reglist calls
    simp only [alias_partitions]
    split_ifs
    any_goals exact ih reglist calls
    have h := ih (register_dev (heap reglist.length) reglist
      (DEVSCSI ++ "/".toList ++ name ++ "-p".toList ++ fmt_d x.2.partition) m.major x.2.minor
      m.devtp m.hostnum m.hostid m.chan m.id m.lun x.2.partition m.hostname x.2.name
      (some x.1) rel).2 (calls ++ [(register_dev (heap reglist.length) reglist
      (DEVSCSI ++ "/".toList ++ name ++ "-p".toList ++ fmt_d x.2.partition) m.major x.2.minor
      m.devtp m.hostnum m.hostid m.chan m.id m.lun x.2.partition m.hostname x.2.name
      (some x.1) rel).1])
    exact ⟨(List.suffix_cons _ reglist).trans h.1, (List.prefix_append calls _).trans h.2⟩

/-- What `build_special` does once its matching loop ends with the match `m`: the
alias entry is registered first and handed to `create_dev` first, and the registry
keeps, behind the new entries, the alias entry and all earlier entries. -/
theorem build_special_match_found (supp_multi : Int) (heap : Nat → sname)
    (reglist : List sname) (r : alias_rec) (name : List Char) (mid : Nat) (m : sname)
    (hs : alias_scan supp_multi r (reg_ids reglist) none = (some (mid, m), false))
    (hn : (r.devtype_i = devtype_t.ST ∨ r.devtype_i = devtype_t.OSST) → m.name ≠ none) :
    ∃ reg1 calls1, build_special_match supp_multi heap reglist r name =
        Exec.ret (reg1, alias_entry heap reglist name mid m :: calls1) ∧
      (alias_entry heap reglist name mid m :: reglist) <:+ reg1 := by
  unfold build_special_match
  rw [hs]
  simp only []
  by_cases ht : r.devtype_i = devtype_t.ST ∨ r.devtype_i = devtype_t.OSST
  · obtain ⟨mn, hmn⟩ := Option.ne_none_iff_exists'.mp (hn ht)
    simp only [ht, if_true, hmn, alias_entry]
    exact ⟨_, _, rfl, ⟨[_], rfl⟩⟩
  · simp only [ht, if_false]
    by_cases hd : r.devtype_i = devtype_t.SD ∧ m.partition = -1
    · simp only [hd, and_self, if_true]
      have h := alias_partitions_grow heap name m (some reglist.length) devtype_t.SD
        (reg_ids (alias_entry heap reglist name mid m :: reglist))
        (alias_entry heap reglist name mid m :: reglist) [alias_entry heap reglist name mid m]
      obtain ⟨t, ht2⟩ := h.2
      have ht3 : alias_entry heap reglist name mid m :: t =
          (alias_partitions heap name m (some reglist.length) devtype_t.SD
            (reg_ids (alias_entry heap reglist name mid m :: reglist))
            (alias_entry heap reglist name mid m :: reglist)
            [alias_entry heap reglist name mid m]).2 := ht2
      refine ⟨_, t, ?_, h.1⟩
      rw [ht3]
      rfl
    · simp only [hd, if_false]
      exact ⟨_, [], rfl, List.suffix_refl _⟩

/-- C12 (counterexample): the record of the line "alias=data, devtype=disk"
constrains no field, the partition included, and the first partition of a disk
meets every condition of the predicate as stated; the matching loop rejects it,
because the unset partition -1 is compared with the partition 1 of the entry. -/
theorem alias_match_partition_counterexample :
    rec_disk_data.part = -1 ∧
    alias_match_spec rec_disk_data
      { name := some "/dev/scsi/sdh0-0c0i0l0p1".toList, devtp := devtype_t.SD, partition := 1,
        major := 8, minor := 1 } ∧
    alias_match rec_disk_data
      { name := some "/dev/scsi/sdh0-0c0i0l0p1".toList, devtp := devtype_t.SD, partition := 1,
        major := 8, minor := 1 } = false := by
  refine ⟨rfl, ⟨?_, ?_⟩, by decide⟩
  · simp [alias_match_fields, rec_disk_data, no_wwid]
  · simp [rec_disk_data]

/-- C12 (amended): an entry is accepted as a match if and only if it is not marked
as an alias, is not a tape or OnStream-tape entry with minor bit 0x80 set, has the
kind of the record, equals the record on every field the record constrains among
id, lun, channel, hostid, hostnum, hsvosid, wwid, manufacturer, model, serial and
rev, has a long or short host name that begins with a constrained host name, and
has the partition of the record; the partition is compared always, so a record that
does not set it (value -1) accepts whole-device entries only. -/
theorem alias_match_predicate (r : alias_rec) (e : sname) :
    (alias_match r e = true ↔ alias_match_fields r e ∧ e.partition = r.part) ∧
    (r.part = -1 → alias_match r e = true → e.partition = -1) := by
  refine ⟨alias_match_eq_true_iff r e, ?_⟩
  intro hp hm
  rw [← hp]
  exact ((alias_match_eq_true_iff r e).mp hm).2

/-- Witness for `alias_match_predicate`: the whole disk is accepted by the record of
"alias=data, devtype=disk". -/
theorem alias_match_predicate_witness :
    ({ name := some "/dev/scsi/sdh0-0c0i0l0".toList, devtp := devtype_t.SD, partition := -1,
       major := 8, minor := 0 } : sname).partition = -1 :=
  (alias_match_predicate rec_disk_data
    { name := some "/dev/scsi/sdh0-0c0i0l0".toList, devtp := devtype_t.SD, partition := -1,
      major := 8, minor := 0 }).2 rfl (by decide)

/-- C13: with multipath disabled (`supp_multi = 0`), `build_special` registers an
alias for a record and hands it to `create_dev` if and only if exactly one registry
entry matches the record: with exactly one match the alias entry, named
"/dev/scsi/<alias>" and linked to the match, is put in the registry in front of the
earlier entries; with no match or with two or more matches the registry is returned
as it was and nothing is handed to `create_dev`.  (For a tape record the registry
entries are taken to have a name, as every entry named by `scsiname` has.) -/
theorem build_special_unique (heap : Nat → sname) (reglist : List sname) (r : alias_rec)
    (name : List Char)
    (hn : (r.devtype_i = devtype_t.ST ∨ r.devtype_i = devtype_t.OSST) →
      ∀ e ∈ reglist, e.name ≠ none) :
    ((reglist.filter (fun e => alias_match r e)).length = 1 →
      ∃ mid m reg1 calls1, (mid, m) ∈ reg_ids reglist ∧ alias_match r m = true ∧
        build_special_match 0 heap reglist r name =
          Exec.ret (reg1, alias_entry heap reglist name mid m :: calls1) ∧
        (alias_entry heap reglist name mid m :: reglist) <:+ reg1 ∧
        (alias_entry heap reglist name mid m).name = some ("/dev/scsi/".toList ++ name) ∧
        (alias_entry heap reglist name mid m).alias_of = some mid) ∧
    ((reglist.filter (fun e => alias_match r e)).length ≠ 1 →
      build_special_match 0 heap reglist r name = Exec.ret (reglist, [])) := by
  have hscan := alias_scan_none 0 r (reg_ids reglist)
  have hcount := reg_ids_filter_length (fun e => alias_match r e) reglist
  constructor
  · intro h1
    have hflag : (decide ((0 : Int) = 0) &&
        decide (2 ≤ ((reg_ids reglist).filter (fun y => alias_match r y.2)).length)) = false := by
      rw [hcount, h1]; decide
    rw [hflag] at hscan
    have hsome : ((reg_ids reglist).find? (fun y => alias_match r y.2)).isSome = true := by
      rw [List.find?_isSome]
      have hpos : 0 < ((reg_ids reglist).filter (fun y => alias_match r y.2)).length := by
        rw [hcount, h1]; decide
      obtain ⟨y, hy⟩ := List.exists_mem_of_length_pos hpos
      exact ⟨y, (List.mem_filter.mp hy).1, (List.mem_filter.mp hy).2⟩
    obtain ⟨⟨mid, m⟩, hfind⟩ := Option.isSome_iff_exists.mp hsome
    rw [hfind] at hscan
    have hmem : (mid, m) ∈ reg_ids reglist := List.mem_of_find?_eq_some hfind
    have hmatch : alias_match r m = true :=
      @List.find?_some (Nat × sname) (fun y => alias_match r y.2) (mid, m) (reg_ids reglist) hfind
    obtain ⟨reg1, calls1, hres, hsuf⟩ := build_special_match_found 0 heap reglist r name mid m
      hscan (fun ht => hn ht m (reg_ids_mem reglist mid m hmem).1)
    exact ⟨mid, m, reg1, calls1, hmem, hmatch, hres, hsuf, rfl, rfl⟩
  · intro hne
    unfold build_special_match
    rw [hscan]
    by_cases h0 : (reglist.filter (fun e => alias_match r e)).length = 0
    · have hnone : (reg_ids reglist).find? (fun y => alias_match r y.2) = none := by
        rw [List.find?_eq_none]
        intro y hy hp
        have hpos : 0 < ((reg_ids reglist).filter (fun y => alias_match r y.2)).length :=
          List.length_pos_of_mem (List.mem_filter.mpr ⟨hy, hp⟩)
        rw [hcount] at hpos
        omega
      have hflag : (decide ((0 : Int) = 0) &&
          decide (2 ≤ ((reg_ids reglist).filter (fun y => alias_match r y.2)).length)) = false := by
        rw [hcount, h0]; decide
      rw [hnone, hflag]
    · have hflag : (decide ((0 : Int) = 0) &&
          decide (2 ≤ ((reg_ids reglist).filter (fun y => alias_match r y.2)).length)) = true := by
        rw [hcount]
        simp only [decide_True, Bool.true_and, decide_eq_true_eq]
        omega
      rw [hflag]
      generalize List.find? (fun y => alias_match r y.2) (reg_ids reglist) = f
      cases f <;> rfl

/-- Witness for `build_special_unique`: of a whole disk and its partition, the record
of "alias=data, devtype=disk" matches the whole disk alone, and the alias is
registered. -/
theorem build_special_unique_witness :
    ∃ mid m reg1 calls1, (mid, m) ∈ reg_ids disk_with_partition ∧
      alias_match rec_disk_data m = true ∧
      build_special_match 0 (fun _ => {}) disk_with_partition rec_disk_data "data".toList =
        Exec.ret (reg1, alias_entry (fun _ => {}) disk_with_partition "data".toList mid m ::
          calls1) ∧
      (alias_entry (fun _ => {}) disk_with_partition "data".toList mid m ::
        disk_with_partition) <:+ reg1 ∧
      (alias_entry (fun _ => {}) disk_with_partition "data".toList mid m).name =
        some ("/dev/scsi/".toList ++ "data".toList) ∧
      (alias_entry (fun _ => {}) disk_with_partition "data".toList mid m).alias_of = some mid :=
  (build_special_unique (fun _ => {}) disk_with_partition rec_disk_data "data".toList
    (by decide)).1 (by decide)

/-- C14 (counterexample): a disk on channel 0 is registered first and a disk on
channel 1 second; the record of "alias=data, devtype=disk" matches both; with
multipath enabled the alias is linked to the entry registered second (pointer 1,
channel 1), not to the one registered first. -/
theorem multipath_binds_latest_counterexample :
    (reg_ids two_path_registry).map (fun x => (x.1, x.2.chan)) = [(1, 1), (0, 0)] ∧
    (two_path_registry.map (fun e => alias_match rec_disk_data e)) = [true, true] ∧
    (first_call (build_special_match 1 (fun _ => {}) two_path_registry rec_disk_data
      "data".toList)).map (fun a => (a.alias_of, a.chan)) = some (some 1, 1) := by
  decide

/-- C14 (amended): with multipath enabled, when two or more registry entries match
a record, the alias is bound to the first match found by the scan of the registry,
and that entry is the matching entry registered last: the registry is scanned from
its head, where every registration puts the newest entry, so every other matching
entry lies behind it and was registered earlier. -/
theorem multipath_binds_first_found (supp_multi : Int) (hsm : supp_multi ≠ 0)
    (heap : Nat → sname) (pre post : List sname) (e : sname) (r : alias_rec)
    (name : List Char) (hm : alias_match r e = true)
    (hpre : ∀ x ∈ pre, alias_match r x = false)
    (hn : (r.devtype_i = devtype_t.ST ∨ r.devtype_i = devtype_t.OSST) → e.name ≠ none) :
    (post.length, e) ∈ reg_ids (pre ++ e :: post) ∧
    (∃ reg1 calls1, build_special_match supp_multi heap (pre ++ e :: post) r name =
      Exec.ret (reg1, alias_entry heap (pre ++ e :: post) name post.length e :: calls1)) ∧
    (alias_entry heap (pre ++ e :: post) name post.length e).alias_of = some post.length ∧
    (∀ i x, (i, x) ∈ reg_ids (pre ++ e :: post) → alias_match r x = true →
      i ≤ post.length) := by
  have hids := reg_ids_append pre (e :: post)
  have hcons : reg_ids (e :: post) = (post.length, e) :: reg_ids post := rfl
  rw [hcons] at hids
  have hfind : (reg_ids (pre ++ e :: post)).find? (fun y => alias_match r y.2) =
      some (post.length, e) := by
    rw [hids, List.find?_append]
    have hnone : ((reg_ids pre).map (fun x => (x.1 + (e :: post).length, x.2))).find?
        (fun y => alias_match r y.2) = none := by
      rw [List.find?_eq_none]
      intro y hy
      obtain ⟨z, hz, rfl⟩ := List.mem_map.mp hy
      have := hpre z.2 (reg_ids_mem pre z.1 z.2 hz).1
      simp [this]
    rw [hnone]
    simp [List.find?_cons, hm]
  have hscan := alias_scan_none supp_multi r (reg_ids (pre ++ e :: post))
  have hflag : decide (supp_multi = 0) = false := decide_eq_false hsm
  rw [hfind, hflag, Bool.false_and] at hscan
  obtain ⟨reg1, calls1, hres, _⟩ := build_special_match_found supp_multi heap
    (pre ++ e :: post) r name post.length e hscan hn
  refine ⟨?_, ⟨reg1, calls1, hres⟩, rfl, ?_⟩
  · rw [hids]
    exact List.mem_append_right _ (List.mem_cons_self _ _)
  · intro i x hmem hx
    rw [hids] at hmem
    rcases List.mem_append.mp hmem with h | h
    · obtain ⟨z, hz, hzeq⟩ := List.mem_map.mp h
      have hz2 := hpre z.2 (reg_ids_mem pre z.1 z.2 hz).1
      have hx2 : x = z.2 := (congrArg Prod.snd hzeq).symm
      rw [hx2, hz2] at hx
      exact absurd hx (by decide)
    · rcases List.mem_cons.mp h with h | h
      · exact le_of_eq (congrArg Prod.fst h)
      · exact le_of_lt (reg_ids_mem post i x h).2

/-- Witness for `multipath_binds_first_found`: of the two disks the one on channel
1, at the head of the registry, gets the alias. -/
theorem multipath_binds_first_found_witness :
    (alias_entry (fun _ => {}) two_path_registry "data".toList 1
      (register_dev {} [] "/dev/scsi/sdh0-0c1i0l0".toList 8 16 devtype_t.SD 0 0 1 0 0 (-1)
        none none none none).1).alias_of = some 1 :=
  (multipath_binds_first_found 1 (by decide) (fun _ => {}) []
    [(register_dev {} [] "/dev/scsi/sdh0-0c0i0l0".toList 8 0 devtype_t.SD 0 0 0 0 0 (-1)
      none none none none).1]
    (register_dev {} [] "/dev/scsi/sdh0-0c1i0l0".toList 8 16 devtype_t.SD 0 0 1 0 0 (-1)
      none none none none).1
    rec_disk_data "data".toList (by decide) (by simp) (by decide)).2.2.1

/-- C15 (counterexample): the alias entry registered for the whole disk of
`disk_with_partition` has no manufacturer, no model, no wwid and the partition 0,
whereas its target has the manufacturer "SEAGATE", the model "ST34573N", a wwid and
the partition -1. -/
theorem alias_entry_identity_counterexample :
    (first_call (build_special_match 0 (fun _ => {}) disk_with_partition rec_disk_data
      "data".toList)).map (fun a => a.alias_of) = some (some 0) ∧
    (first_call (build_special_match 0 (fun _ => {}) disk_with_partition rec_disk_data
      "data".toList)).map (fun a => a.manufacturer) = some none ∧
    (first_call (build_special_match 0 (fun _ => {}) disk_with_partition rec_disk_data
      "data".toList)).map (fun a => a.model) = some none ∧
    (first_call (build_special_match 0 (fun _ => {}) disk_with_partition rec_disk_data
      "data".toList)).map (fun a => a.wwid) = some no_wwid ∧
    (first_call (build_special_match 0 (fun _ => {}) disk_with_partition rec_disk_data
      "data".toList)).map (fun a => a.partition) = some 0 ∧
    (reg_ids disk_with_partition).map (fun x => x.1) = [1, 0] ∧
    disk_with_partition.map (fun e => e.manufacturer) =
      [some "SEAGATE".toList, some "SEAGATE".toList] ∧
    disk_with_partition.map (fun e => e.partition) = [1, -1] ∧
    disk_with_partition.map (fun e => e.wwid) = [0, 0x0004cf123456789a] ∧
    disk_with_partition.map (fun e => alias_match rec_disk_data e) = [false, true] := by
  decide

/-- C15 (amended): for every resolved target `t` and alias name `n`, the entry
`build_special` registers first and hands to `create_dev` first has the name
"/dev/scsi/" + n, its alias link set to `t`, and the kind, major, minor, host number,
host adapter id, channel, id, lun and host name of `t`; its partition is 0 and its
identity fields are blank: manufacturer, model, revision and serial are NULL, the
wwid is `no_wwid` and the OS-unit-id is `no_hsv_os_id`. -/
theorem alias_entry_fields (supp_multi : Int) (heap : Nat → sname) (reglist : List sname)
    (r : alias_rec) (name : List Char) (mid : Nat) (t : sname)
    (hs : alias_scan supp_multi r (reg_ids reglist) none = (some (mid, t), false))
    (hn : (r.devtype_i = devtype_t.ST ∨ r.devtype_i = devtype_t.OSST) → t.name ≠ none) :
    ∃ reg1 calls1 a, build_special_match supp_multi heap reglist r name =
        Exec.ret (reg1, a :: calls1) ∧ a ∈ reg1 ∧
      a.name = some ("/dev/scsi/".toList ++ name) ∧ a.alias_of = some mid ∧
      a.devtp = t.devtp ∧ a.major = t.major ∧ a.minor = t.minor ∧
      a.hostnum = t.hostnum ∧ a.hostid = t.hostid ∧ a.chan = t.chan ∧ a.id = t.id ∧
      a.lun = t.lun ∧ a.hostname = t.hostname ∧ a.partition = 0 ∧
      a.manufacturer = none ∧ a.model = none ∧ a.rev = none ∧ a.serial = none ∧
      a.wwid = no_wwid ∧ a.hsv_os_id = no_hsv_os_id := by
  obtain ⟨reg1, calls1, hres, hsuf⟩ := build_special_match_found supp_multi heap reglist r
    name mid t hs hn
  refine ⟨reg1, calls1, alias_entry heap reglist name mid t, hres,
    hsuf.subset (List.mem_cons_self _ _), rfl, rfl, rfl, rfl, rfl, rfl, rfl, rfl, rfl, rfl,
    rfl, rfl, rfl, rfl, rfl, rfl, rfl, rfl⟩

/-- Witness for `alias_entry_fields`: the alias of the whole disk of
`disk_with_partition`. -/
theorem alias_entry_fields_witness :
    ∃ reg1 calls1 a, build_special_match 0 (fun _ => {}) disk_with_partition rec_disk_data
        "data".toList = Exec.ret (reg1, a :: calls1) ∧ a ∈ reg1 ∧
      a.name = some ("/dev/scsi/".toList ++ "data".toList) ∧ a.alias_of = some 0 ∧
      a.devtp = devtype_t.SD ∧ a.major = 8 ∧ a.minor = 0 ∧
      a.hostnum = 0 ∧ a.hostid = 0 ∧ a.chan = 0 ∧ a.id = 0 ∧
      a.lun = 0 ∧ a.hostname = none ∧ a.partition = 0 ∧
      a.manufacturer = none ∧ a.model = none ∧ a.rev = none ∧ a.serial = none ∧
      a.wwid = no_wwid ∧ a.hsv_os_id = no_hsv_os_id :=
  alias_entry_fields 0 (fun _ => {}) disk_with_partition rec_disk_data "data".toList 0
    { name := some "/dev/scsi/sdh0-0c0i0l0".toList, devtp := devtype_t.SD, partition := -1,
      major := 8, minor := 0, manufacturer := some "SEAGATE".toList,
      model := some "ST34573N".toList, wwid := 0x0004cf123456789a }
    (by decide) (by decide)

/-! ## The tokenizer of the alias file ends -/

theorem skip_blank_length : ∀ (pnt p : List Char), skip_blank pnt = some p →
    p.length ≤ pnt.length := by
  intro pnt
  induction pnt with
  | nil => intro p h; simp [skip_blank] at h
  | cons c rest ih =>
    intro p h
    simp only [skip_blank] at h
    split_ifs at h
    · have := ih p h
      simp only [List.length_cons]
      omega
    · simp only [Option.some.injEq] at h
      rw [← h]

theorem skip_sep_length (pnt p : List Char) (h : skip_sep pnt = some p) :
    p.length ≤ pnt.length := by
  unfold skip_sep at h
  cases hb : skip_blank pnt with
  | none => simp [hb] at h
  | some q =>
    have hq := skip_blank_length pnt q hb
    cases q with
    | nil => simp [hb] at h
    | cons c rest =>
      simp only [hb] at h
      split_ifs at h
      · have := skip_blank_length rest p h
        simp only [List.length_cons] at hq
        omega
      · have := skip_blank_length (c :: rest) p h
        omega

theorem scan_to_length (stop : Char → Bool) : ∀ (pnt a b : List Char),
    scan_to stop pnt = some (a, b) → b ≠ [] ∧ b.length ≤ pnt.length := by
  intro pnt
  induction pnt with
  | nil => intro a b h; simp [scan_to] at h
  | cons c rest ih =>
    intro a b h
    simp only [scan_to] at h
    split_ifs at h
    · simp only [Option.some.injEq, Prod.mk.injEq] at h
      rw [← h.2]
      exact ⟨List.cons_ne_nil _ _, le_refl _⟩
    · cases hr : scan_to stop rest with
      | none => simp [hr] at h
      | some x =>
        obtain ⟨a1, b1⟩ := x
        simp only [hr, Option.some.injEq, Prod.mk.injEq] at h
        have := ih a1 b1 hr
        rw [← h.2]
        simp only [List.length_cons]
        exact ⟨this.1, by omega⟩

theorem tail_length_lt (l : List Char) (h : l ≠ []) : l.tail.length < l.length := by
  cases l with
  | nil => exact absurd rfl h
  | cons c rest => simp

theorem get_string_length (pnt res p : List Char) (h : get_string pnt = some (res, p)) :
    p.length ≤ pnt.length := by
  unfold get_string at h
  cases hb : skip_blank pnt with
  | none => simp [hb] at h
  | some q =>
    have hq := skip_blank_length pnt q hb
    cases q with
    | nil => simp [hb] at h
    | cons c rest =>
      simp only [hb] at h
      split_ifs at h
      · cases hs : scan_to (fun x => decide (x = c)) rest with
        | none => simp [hs] at h
        | some x =>
          obtain ⟨a, b⟩ := x
          have hl := scan_to_length _ rest a b hs
          simp only [hs] at h
          cases hp : skip_sep b.tail with
          | none => simp [hp] at h
          | some p2 =>
            simp only [hp, Option.some.injEq, Prod.mk.injEq] at h
            have h2 := skip_sep_length b.tail p2 hp
            have h3 := tail_length_lt b hl.1
            rw [← h.2]
            simp only [List.length_cons] at hq
            omega
      · split at h
        · cases h
        · next a b hs =>
          have hl := scan_to_length _ _ a b hs
          split at h
          · cases h
          · next p2 hp =>
            simp only [Option.some.injEq, Prod.mk.injEq] at h
            have h2 := skip_sep_length b.tail p2 hp
            have h3 := tail_length_lt b hl.1
            rw [← h.2]
            omega

theorem get_number_loop_length (base16 : Bool) : ∀ (pnt : List Char) (num n : Int)
    (q : List Char), get_number_loop base16 pnt num = some (n, q) → q.length ≤ pnt.length := by
  intro pnt
  induction pnt with
  | nil => intro num n q h; simp [get_number_loop] at h
  | cons c rest ih =>
    intro num n q h
    simp only [get_number_loop] at h
    split_ifs at h
    · cases hd : hex_digit c with
      | none =>
        simp only [hd, Option.some.injEq, Prod.mk.injEq] at h
        rw [← h.2]
      | some d =>
        simp only [hd] at h
        have := ih _ n q h
        simp only [List.length_cons]
        omega
    · have := ih _ n q h
      simp only [List.length_cons]
      omega
    · simp only [Option.some.injEq, Prod.mk.injEq] at h
      rw [← h.2]

theorem get_llnumber_loop_length (base16 : Bool) : ∀ (pnt : List Char) (num n : Nat)
    (q : List Char), get_llnumber_loop base16 pnt num = some (n, q) →
    q.length ≤ pnt.length := by
  intro pnt
  induction pnt with
  | nil => intro num n q h; simp [get_llnumber_loop] at h
  | cons c rest ih =>
    intro num n q h
    simp only [get_llnumber_loop] at h
    split_ifs at h
    · cases hd : hex_digit c with
      | none =>
        simp only [hd, Option.some.injEq, Prod.mk.injEq] at h
        rw [← h.2]
      | some d =>
        simp only [hd] at h
        have := ih _ n q h
        simp only [List.length_cons]
        omega
    · have := ih _ n q h
      simp only [List.length_cons]
      omega
    · simp only [Option.some.injEq, Prod.mk.injEq] at h
      rw [← h.2]

theorem hex_prefix_length (p : List Char) (hp : Option (List Char))
    (h : hex_prefix p = some hp) : (hp.getD p).length ≤ p.length := by
  unfold hex_prefix at h
  cases p with
  | nil => simp at h
  | cons c rest =>
    simp only at h
    split_ifs at h
    · cases rest with
      | nil => simp at h
      | cons d rest2 =>
        simp only at h
        split_ifs at h
        · simp only [Option.some.injEq] at h
          rw [← h]
          simp only [Option.getD_some, List.length_cons]
          omega
        · simp only [Option.some.injEq] at h
          rw [← h]
          simp
    · simp only [Option.some.injEq] at h
      rw [← h]
      simp

theorem get_number_length (pnt : List Char) (n : Int) (p : List Char)
    (h : get_number pnt = some (n, p)) : p.length ≤ pnt.length := by
  unfold get_number at h
  cases hb : skip_blank pnt with
  | none => simp [hb] at h
  | some q =>
    have hq := skip_blank_length pnt q hb
    simp only [hb] at h
    cases hx : hex_prefix q with
    | none => simp [hx] at h
    | some hp =>
      have hpl := hex_prefix_length q hp hx
      simp only [hx] at h
      cases hl : get_number_loop hp.isSome (hp.getD q) 0 with
      | none => simp [hl] at h
      | some x =>
        obtain ⟨num, q2⟩ := x
        have h2 := get_number_loop_length _ _ _ _ _ hl
        simp only [hl] at h
        cases hs : skip_sep q2 with
        | none => simp [hs] at h
        | some p2 =>
          simp only [hs, Option.some.injEq, Prod.mk.injEq] at h
          have h3 := skip_sep_length q2 p2 hs
          rw [← h.2]
          omega

theorem get_llnumber_length (pnt : List Char) (n : Nat) (p : List Char)
    (h : get_llnumber pnt = some (n, p)) : p.length ≤ pnt.length := by
  unfold get_llnumber at h
  cases hb : skip_blank pnt with
  | none => simp [hb] at h
  | some q =>
    have hq := skip_blank_length pnt q hb
    simp only [hb] at h
    cases hx : hex_prefix q with
    | none => simp [hx] at h
    | some hp =>
      have hpl := hex_prefix_length q hp hx
      simp only [hx] at h
      cases hl : get_llnumber_loop hp.isSome (hp.getD q) 0 with
      | none => simp [hl] at h
      | some x =>
        obtain ⟨num, q2⟩ := x
        have h2 := get_llnumber_loop_length _ _ _ _ _ hl
        simp only [hl] at h
        cases hs : skip_sep q2 with
        | none => simp [hs] at h
        | some p2 =>
          simp only [hs, Option.some.injEq, Prod.mk.injEq] at h
          have h3 := skip_sep_length q2 p2 hs
          rw [← h.2]
          omega

theorem ite_ind {α : Type} (P : α → Prop) (c : Prop) [Decidable c] (a b : α) (ha : P a)
    (hb : P b) : P (if c then a else b) := by
  split_ifs <;> assumption

theorem alias_specifier_length (key val : List Char) (r r2 : alias_rec) (pnt2 : List Char)
    (h : alias_specifier key val r = some (some (r2, pnt2))) :
    pnt2.length ≤ val.length := by
  have hs : ∀ (f : List Char × List Char → Option (alias_rec × List Char)),
      (∀ x, ∃ r3, f x = some (r3, x.2)) →
      (get_string val).map f = some (some (r2, pnt2)) → pnt2.length ≤ val.length := by
    intro f hf h
    cases hg : get_string val with
    | none => simp [hg] at h
    | some x =>
      obtain ⟨r3, h3⟩ := hf x
      simp only [hg, Option.map_some', Option.some.injEq, h3, Prod.mk.injEq] at h
      rw [← h.2]
      exact get_string_length val x.1 x.2 hg
  have hn : ∀ (f : Int × List Char → Option (alias_rec × List Char)),
      (∀ x, ∃ r3, f x = some (r3, x.2)) →
      (get_number val).map f = some (some (r2, pnt2)) → pnt2.length ≤ val.length := by
    intro f hf h
    cases hg : get_number val with
    | none => simp [hg] at h
    | some x =>
      obtain ⟨r3, h3⟩ := hf x
      simp only [hg, Option.map_some', Option.some.injEq, h3, Prod.mk.injEq] at h
      rw [← h.2]
      exact get_number_length val x.1 x.2 hg
  have hl : ∀ (f : Nat × List Char → Option (alias_rec × List Char)),
      (∀ x, ∃ r3, f x = some (r3, x.2)) →
      (get_llnumber val).map f = some (some (r2, pnt2)) → pnt2.length ≤ val.length := by
    intro f hf h
    cases hg : get_llnumber val with
    | none => simp [hg] at h
    | some x =>
      obtain ⟨r3, h3⟩ := hf x
      simp only [hg, Option.map_some', Option.some.injEq, h3, Prod.mk.injEq] at h
      rw [← h.2]
      exact get_llnumber_length val x.1 x.2 hg
  revert h
  unfold alias_specifier
  iterate 15
    (refine ite_ind (fun o => o = some (some (r2, pnt2)) → pnt2.length ≤ val.length) _ _ _
       ?_ ?_
     · first
       | exact hs _ (fun x => ⟨_, rfl⟩)
       | exact hn _ (fun x => ⟨_, rfl⟩)
       | exact hl _ (fun x => ⟨_, rfl⟩))
  intro h
  cases h

/-- The loop over the specifiers of a line ends: with more passes allowed than the
text has characters, the iteration bound is not reached. -/
theorem alias_tokens_total : ∀ (fuel : Nat) (pnt : List Char) (r : alias_rec),
    pnt.length < fuel → alias_tokens fuel pnt r ≠ Exec.nofuel := by
  intro fuel
  induction fuel with
  | zero => intro pnt r h; omega
  | succ n ih =>
    intro pnt r h
    simp only [alias_tokens]
    cases hs : scan_to (fun x => decide (x = '=' ∨ x = c_nul)) pnt with
    | none => simp
    | some x =>
      obtain ⟨key, pnt1⟩ := x
      have hl := scan_to_length _ pnt key pnt1 hs
      simp only
      split_ifs
      · simp
      · cases ha : alias_specifier key pnt1.tail r with
        | none => simp
        | some y =>
          cases y with
          | none => simp
          | some z =>
            obtain ⟨r2, pnt2⟩ := z
            have h2 := alias_specifier_length key pnt1.tail r r2 pnt2 ha
            have h3 := tail_length_lt pnt1 hl.1
            exact ih pnt2 r2 (by omega)

theorem build_special_match_total (supp_multi : Int) (heap : Nat → sname)
    (reglist : List sname) (r : alias_rec) (name : List Char) :
    build_special_match supp_multi heap reglist r name ≠ Exec.nofuel := by
  unfold build_special_match
  split
  · intro hx; cases hx
  · intro hx; cases hx
  · simp only
    split_ifs
    · split
      · intro hx; cases hx
      · intro hx; cases hx
    · intro hx; cases hx
    · intro hx; cases hx

/-- One line of the alias file is always worked off within the iteration bound of the
model. -/
theorem build_special_line_total (supp_multi : Int) (heap : Nat → sname)
    (reglist : List sname) (line : List Char) :
    build_special_line supp_multi heap reglist line ≠ Exec.nofuel := by
  unfold build_special_line
  split
  · intro hx; cases hx
  · next pnt _ =>
    split_ifs
    · intro hx; cases hx
    · intro hx; cases hx
    · have ht := alias_tokens_total (pnt.length + 1) pnt {} (by omega)
      split
      · intro hx; cases hx
      · next hnf => exact absurd hnf ht
      · next r _ _ =>
        split
        · intro hx; cases hx
        · split
          · intro hx; cases hx
          · split
            · intro hx; cases hx
            · exact build_special_match_total _ _ _ _ _

/-! ## Lines of the alias file -/

/-- C16 (code defect): on the line "alias=data, devtype=disk, colour=red" the
specifier "colour" is reported as unrecognized, but the `break` of that report only
leaves the loop over the specifiers: the alias name and the kind read before it are
kept, the whole disk of the registry is matched, and the alias entry
"/dev/scsi/data" is registered and handed to `create_dev`. -/
theorem unknown_key_line_still_processed :
    alias_tokens 40 (alias_buffer line_with_unknown_key) {} =
      Exec.ret ({ name := some "data".toList, devtype := some "disk".toList },
        some "colour".toList) ∧
    (first_call (build_special_line 0 (fun _ => {}) one_disk_registry
      line_with_unknown_key)).map (fun a => (a.name, a.alias_of)) =
        some (some "/dev/scsi/data".toList, some 0) ∧
    (registry_of (build_special_line 0 (fun _ => {}) one_disk_registry
      line_with_unknown_key)).map (fun reg => reg.map (fun e => e.name)) =
        some [some "/dev/scsi/data".toList, some "/dev/scsi/sdh0-0c0i0l0".toList] := by
  decide

/-! ## Permissions and node reconciliation -/

theorem land_land_const (a k m r : Nat) (h : k &&& m = r) : (a &&& k) &&& m = a &&& r := by
  rw [Nat.land_assoc, h]

theorem and_not_ifmt_type (m : Nat) : and_not_ifmt m &&& S_IFMT = 0 := by
  unfold and_not_ifmt S_IFMT
  rw [land_land_const m _ _ 0 (by decide)]
  exact Nat.and_zero m

theorem ftype_bits_type (k : ftype) : ftype_bits k &&& S_IFMT = ftype_bits k := by
  cases k <;> decide

theorem ftype_bits_perm (k : ftype) : and_not_ifmt (ftype_bits k) = 0 := by
  cases k <;> decide

theorem ftype_bits_ne_lnk (k : ftype) : ftype_bits k ≠ S_IFLNK := by
  cases k <;> decide

theorem inode_stat_type (i : inode) : (inode_stat i).st_mode &&& S_IFMT = ftype_bits i.kind := by
  simp only [inode_stat]
  rw [Nat.and_distrib_right, ftype_bits_type]
  have h : (i.perm &&& 0o7777) &&& S_IFMT = 0 := by
    unfold S_IFMT
    rw [land_land_const i.perm _ _ 0 (by decide)]
    exact Nat.and_zero _
  rw [h, Nat.or_zero]

theorem inode_stat_perm (i : inode) : and_not_ifmt (inode_stat i).st_mode = i.perm &&& 0o7777 := by
  have h1 := ftype_bits_perm i.kind
  simp only [inode_stat]
  unfold and_not_ifmt at h1 ⊢
  rw [Nat.and_distrib_right, h1, Nat.zero_or]
  exact land_land_const i.perm _ _ _ (by decide)

theorem inode_stat_not_lnk (i : inode) : S_ISLNK (inode_stat i).st_mode = false := by
  unfold S_ISLNK
  rw [inode_stat_type]
  exact beq_false_of_ne (ftype_bits_ne_lnk i.kind)

theorem after_last_slash_length : ∀ (s rest : List Char),
    after_last_slash s = some rest → rest.length < s.length := by
  intro s
  induction s with
  | nil => intro rest h; simp [after_last_slash] at h
  | cons c tl ih =>
    intro rest h
    simp only [after_last_slash] at h
    cases hr : after_last_slash tl with
    | some t =>
      rw [hr] at h
      simp only [Option.some.injEq] at h
      subst h
      have := ih t hr
      simp only [List.length_cons]
      omega
    | none =>
      rw [hr] at h
      simp only at h
      split_ifs at h
      simp only [Option.some.injEq] at h
      subst h
      simp

theorem mk_shadow_nm_length (nm shadow : List Char) (h : mk_shadow_nm nm = Exec.ret shadow) :
    nm.length < shadow.length := by
  unfold mk_shadow_nm at h
  cases hr : after_last_slash nm with
  | some rest =>
    rw [hr] at h
    simp only [Exec.ret.injEq] at h
    have hl := after_last_slash_length nm rest hr
    rw [← h]
    simp only [List.length_append, List.length_take, SHADOW]
    have h8 : ".shadow.".toList.length = 8 := by decide
    rw [h8]
    omega
  | none =>
    rw [hr] at h
    cases nm with
    | nil => simp at h
    | cons c tl =>
      simp only [Exec.ret.injEq] at h
      rw [← h]
      simp only [List.length_append, List.length_cons, SHADOW]
      have h8 : ".shadow.".toList.length = 8 := by decide
      rw [h8]
      omega

theorem mk_shadow_nm_ne (nm shadow : List Char) (h : mk_shadow_nm nm = Exec.ret shadow) :
    nm ≠ shadow := by
  intro he
  have := mk_shadow_nm_length nm shadow h
  rw [he] at this
  omega

theorem mk_shadow_nm_ret (nm : List Char) (h : nm ≠ []) :
    ∃ shadow, mk_shadow_nm nm = Exec.ret shadow := by
  unfold mk_shadow_nm
  cases after_last_slash nm with
  | some rest => exact ⟨_, rfl⟩
  | none =>
    cases nm with
    | nil => exact absurd rfl h
    | cons c tl => exact ⟨_, rfl⟩

theorem cp_perm_mode_type (dst st : stat_t) : (cp_perm dst st).st_mode &&& S_IFMT = 0 :=
  and_not_ifmt_type st.st_mode

theorem get_perm_own (filemode : Nat) (fs : filesys) (nm : List Char)
    (linkto : Option (List Char)) (stbuf : stat_t) (cdrom : Bool) (st : stat_t)
    (h : sys_lstat fs nm = some st) (hl : S_ISLNK st.st_mode = false) :
    get_perm filemode fs nm linkto stbuf cdrom = Exec.ret (cp_perm stbuf st) := by
  simp only [get_perm, h, hl]
  simp

/-- What `get_perm` does once the node itself gives no permissions. -/
theorem get_perm_later (filemode : Nat) (fs : filesys) (nm : List Char)
    (linkto : Option (List Char)) (stbuf : stat_t) (cdrom : Bool) (shadow : List Char)
    (h : sys_lstat fs nm = none ∨ ∃ st, sys_lstat fs nm = some st ∧ S_ISLNK st.st_mode = true)
    (hs : mk_shadow_nm nm = Exec.ret shadow) :
    get_perm filemode fs nm linkto stbuf cdrom =
      match sys_stat fs shadow with
      | some st => Exec.ret (cp_perm stbuf st)
      | none =>
        match linkto.bind (sys_stat fs) with
        | some st => Exec.ret (cp_perm stbuf st)
        | none =>
          Exec.ret { stbuf with st_uid := 0, st_gid := 0,
                                st_mode := if cdrom then filemode &&& 0xFFFFFF6D else filemode } := by
  have key : get_perm filemode fs nm linkto stbuf cdrom =
      (match sys_stat fs shadow with
      | some statbuf => Exec.ret (cp_perm stbuf statbuf)
      | none =>
        match linkto with
        | some l =>
          match sys_stat fs l with
          | some statbuf => Exec.ret (cp_perm stbuf statbuf)
          | none =>
            Exec.ret { stbuf with st_uid := 0, st_gid := 0,
                                  st_mode := if cdrom then filemode &&& 0xFFFFFF6D else filemode }
        | none =>
          Exec.ret { stbuf with st_uid := 0, st_gid := 0,
                                st_mode := if cdrom then filemode &&& 0xFFFFFF6D else filemode }) := by
    rcases h with h | ⟨st, h, hl⟩
    · simp only [get_perm, h, hs]
    · simp only [get_perm, h, hl, hs]
      simp
  rw [key]
  cases sys_stat fs shadow with
  | some st => rfl
  | none =>
    cases linkto with
    | none => rfl
    | some l => rfl

/-- C17: `get_perm` resolves the permissions in strict priority order, whatever the
file system holds: (a) a node that exists and is no symbolic link gives its own
owner, group and mode; otherwise, for a path with a shadow name, (b) an existing
shadow file gives its owner, group and mode; otherwise (c) a supplied link target
that exists gives its owner, group and mode; otherwise (d) the result is owner 0,
group 0 and the configured file mode, with the write bits 0222 cleared for an
optical device.  In (a) to (c) the mode is copied with the file-type bits stripped. -/
theorem get_perm_priority (filemode : Nat) (fs : filesys) (nm : List Char)
    (linkto : Option (List Char)) (stbuf : stat_t) (cdrom : Bool) :
    (∀ st, sys_lstat fs nm = some st → S_ISLNK st.st_mode = false →
      get_perm filemode fs nm linkto stbuf cdrom = Exec.ret (cp_perm stbuf st)) ∧
    (∀ shadow, mk_shadow_nm nm = Exec.ret shadow →
      (sys_lstat fs nm = none ∨
        ∃ st, sys_lstat fs nm = some st ∧ S_ISLNK st.st_mode = true) →
      (∀ st, sys_stat fs shadow = some st →
        get_perm filemode fs nm linkto stbuf cdrom = Exec.ret (cp_perm stbuf st)) ∧
      (sys_stat fs shadow = none →
        (∀ l st, linkto = some l → sys_stat fs l = some st →
          get_perm filemode fs nm linkto stbuf cdrom = Exec.ret (cp_perm stbuf st)) ∧
        ((linkto = none ∨ ∃ l, linkto = some l ∧ sys_stat fs l = none) →
          get_perm filemode fs nm linkto stbuf cdrom =
            Exec.ret { stbuf with st_uid := 0, st_gid := 0,
                                  st_mode := if cdrom then filemode &&& 0xFFFFFF6D else filemode }))) ∧
    (∀ st, (cp_perm stbuf st).st_uid = st.st_uid ∧ (cp_perm stbuf st).st_gid = st.st_gid ∧
      (cp_perm stbuf st).st_mode = and_not_ifmt st.st_mode ∧
      (cp_perm stbuf st).st_mode &&& S_IFMT = 0 ∧
      (cp_perm stbuf st).st_rdev = stbuf.st_rdev) ∧
    (filemode &&& 0xFFFFFF6D) &&& 0o222 = 0 := by
  refine ⟨fun st h hl => get_perm_own filemode fs nm linkto stbuf cdrom st h hl, ?_, ?_, ?_⟩
  · intro shadow hs h
    have key := get_perm_later filemode fs nm linkto stbuf cdrom shadow h hs
    refine ⟨?_, ?_⟩
    · intro st hst
      rw [key, hst]
    · intro hnone
      refine ⟨?_, ?_⟩
      · intro l st hl hst
        rw [key, hnone, hl]
        simp only [Option.bind, hst]
      · intro hd
        rw [key, hnone]
        rcases hd with hd | ⟨l, hd, hl⟩
        · rw [hd]
          rfl
        · rw [hd]
          simp only [Option.bind, hl]
  · intro st
    exact ⟨rfl, rfl, rfl, cp_perm_mode_type stbuf st, rfl⟩
  · rw [land_land_const filemode _ _ 0 (by decide)]
    exact Nat.and_zero _

/-- Witness for C17 on the example file systems: with all three objects present the
node's own owner, group and mode are taken; without the node the shadow record's;
without node and shadow the link target's; with none of the three the default, which
for an optical device loses its write bits. -/
theorem get_perm_priority_witness :
    get_perm 0o600 (dev_fs true true true) canon_path (some legacy_path) {} false =
      Exec.ret { st_mode := 0o640, st_uid := 0, st_gid := 6 } ∧
    get_perm 0o600 (dev_fs false true true) canon_path (some legacy_path) {} false =
      Exec.ret { st_mode := 0o644, st_uid := 1000, st_gid := 100 } ∧
    get_perm 0o600 (dev_fs false false true) canon_path (some legacy_path) {} false =
      Exec.ret { st_mode := 0o660, st_uid := 0, st_gid := 6 } ∧
    get_perm 0o600 (dev_fs false false false) canon_path (some legacy_path) {} true =
      Exec.ret { st_mode := 0o400, st_uid := 0, st_gid := 0 } :=
  ⟨(get_perm_priority 0o600 (dev_fs true true true) canon_path (some legacy_path) {}
      false).1 (inode_stat ⟨ftype.blk, 0o640, 0, 6, 2048⟩) (by decide) (by decide),
   ((get_perm_priority 0o600 (dev_fs false true true) canon_path (some legacy_path) {}
      false).2.1 canon_shadow (by decide) (Or.inl (by decide))).1
      (inode_stat ⟨ftype.reg, 0o644, 1000, 100, 0⟩) (by decide),
   (((get_perm_priority 0o600 (dev_fs false false true) canon_path (some legacy_path) {}
      false).2.1 canon_shadow (by decide) (Or.inl (by decide))).2 (by decide)).1
      legacy_path (inode_stat ⟨ftype.blk, 0o660, 0, 6, 2048⟩) rfl (by decide),
   (((get_perm_priority 0o600 (dev_fs false false false) canon_path (some legacy_path) {}
      true).2.1 canon_shadow (by decide) (Or.inl (by decide))).2 (by decide)).2
      (Or.inr ⟨legacy_path, rfl, by decide⟩)⟩

theorem get_perm_mode_clean (filemode : Nat) (fs : filesys) (nm : List Char)
    (linkto : Option (List Char)) (stbuf : stat_t) (cdrom : Bool) (st2 : stat_t)
    (hfm : filemode &&& S_IFMT = 0)
    (h : get_perm filemode fs nm linkto stbuf cdrom = Exec.ret st2) :
    st2.st_mode &&& S_IFMT = 0 := by
  have hdef : (if cdrom then filemode &&& 0xFFFFFF6D else filemode) &&& S_IFMT = 0 := by
    cases cdrom
    · exact hfm
    · simp only [if_true]
      unfold S_IFMT at hfm ⊢
      rw [land_land_const filemode _ _ 0o170000 (by decide)]
      exact hfm
  have hcase : (∃ st, sys_lstat fs nm = some st ∧ S_ISLNK st.st_mode = false) ∨
      (sys_lstat fs nm = none ∨ ∃ st, sys_lstat fs nm = some st ∧ S_ISLNK st.st_mode = true) := by
    cases hl : sys_lstat fs nm with
    | none => exact Or.inr (Or.inl rfl)
    | some st =>
      cases hb : S_ISLNK st.st_mode
      · exact Or.inl ⟨st, rfl, hb⟩
      · exact Or.inr (Or.inr ⟨st, rfl, hb⟩)
  rcases hcase with ⟨st, hl, hb⟩ | hlater
  · rw [get_perm_own filemode fs nm linkto stbuf cdrom st hl hb] at h
    simp only [Exec.ret.injEq] at h
    rw [← h]
    exact cp_perm_mode_type stbuf st
  · cases hm : mk_shadow_nm nm with
    | ret shadow =>
      rw [get_perm_later filemode fs nm linkto stbuf cdrom shadow hlater hm] at h
      cases hs : sys_stat fs shadow with
      | some st =>
        rw [hs] at h
        simp only [Exec.ret.injEq] at h
        rw [← h]
        exact cp_perm_mode_type stbuf st
      | none =>
        rw [hs] at h
        cases hb : linkto.bind (sys_stat fs) with
        | some st =>
          rw [hb] at h
          simp only [Exec.ret.injEq] at h
          rw [← h]
          exact cp_perm_mode_type stbuf st
        | none =>
          rw [hb] at h
          simp only [Exec.ret.injEq] at h
          rw [← h]
          exact hdef
    | crash =>
      exfalso
      rcases hlater with hl | ⟨st, hl, hb⟩
      · simp [get_perm, hl, hm] at h
      · simp [get_perm, hl, hb, hm] at h
    | nofuel =>
      exfalso
      rcases hlater with hl | ⟨st, hl, hb⟩
      · simp [get_perm, hl, hm] at h
      · simp [get_perm, hl, hb, hm] at h

theorem mknod_type_dev (fmode m : Nat) (hf : fmode = S_IFBLK ∨ fmode = S_IFCHR)
    (hm : m &&& S_IFMT = 0) :
    mknod_type (fmode ||| m) = some (if fmode = S_IFBLK then ftype.blk else ftype.chr) := by
  have h : (fmode ||| m) &&& S_IFMT = fmode := by
    rw [Nat.and_distrib_right, hm, Nat.or_zero]
    rcases hf with rfl | rfl <;> decide
  simp only [mknod_type, h]
  rcases hf with rfl | rfl <;> decide

theorem fs_resolve_file (fs : filesys) (n : Nat) (p : List Char) (i : inode)
    (h : fs p = some (fnode.file i)) : fs_resolve fs (n + 1) p = some (p, i) := by
  simp only [fs_resolve, h]

theorem fs_set_same (fs : filesys) (p : List Char) (n : Option fnode) :
    fs_set fs p n p = n := by
  simp [fs_set]

theorem fs_set_other (fs : filesys) (p q : List Char) (n : Option fnode) (h : q ≠ p) :
    fs_set fs p n q = fs q := by
  simp [fs_set, h]

theorem fs_set_set (fs : filesys) (p : List Char) (n m : Option fnode) :
    fs_set (fs_set fs p n) p m = fs_set fs p m := by
  funext q
  by_cases h : q = p <;> simp [fs_set, h]

/-- The file system after `apply_perm` on a path that names a file. -/
theorem apply_perm_file (w : world) (path : List Char) (st : stat_t) (fmode : Nat) (i : inode)
    (h : w.fs path = some (fnode.file i)) :
    (apply_perm w path st fmode).fs =
      fs_set w.fs path (some (fnode.file
        { i with uid := st.st_uid, gid := st.st_gid, perm := (st.st_mode ||| fmode) &&& 0o7777 })) := by
  have h1 : (sys_chown w path st.st_uid st.st_gid).fs =
      fs_set w.fs path (some (fnode.file { i with uid := st.st_uid, gid := st.st_gid })) := by
    simp only [sys_chown, fs_resolve_file w.fs MAXSYMLINKS path i h]
  have h2 : (sys_chown w path st.st_uid st.st_gid).fs path =
      some (fnode.file { i with uid := st.st_uid, gid := st.st_gid }) := by
    rw [h1, fs_set_same]
  simp only [apply_perm, sys_chmod, fs_resolve_file _ MAXSYMLINKS path _ h2]
  rw [h1, fs_set_set]

theorem sys_unlink_fd0 (w : world) (p : List Char) :
    (sys_unlink w p).2.fd0_free = w.fd0_free := by
  unfold sys_unlink
  split <;> rfl

theorem sys_mknod_fd0 (env : sys_env) (w : world) (p : List Char) (mode dev : Nat) :
    (sys_mknod env w p mode dev).2.fd0_free = w.fd0_free := by
  unfold sys_mknod
  dsimp only
  split <;> rfl

theorem apply_perm_fd0 (w : world) (nm : List Char) (st : stat_t) (fmode : Nat) :
    (apply_perm w nm st fmode).fd0_free = w.fd0_free := by
  have h1 : ∀ (w : world) (p : List Char) (m : Nat),
      (sys_chmod w p m).fd0_free = w.fd0_free := by
    intro w p m
    unfold sys_chmod
    dsimp only
    split <;> rfl
  have h2 : ∀ (w : world) (p : List Char) (u g : Nat),
      (sys_chown w p u g).fd0_free = w.fd0_free := by
    intro w p u g
    unfold sys_chown
    dsimp only
    split <;> rfl
  unfold apply_perm
  rw [h1, h2]

/-- The call of `rm_shadow` leaves the node itself as it is. -/
theorem rm_shadow_path (w w1 : world) (path : List Char) (h : rm_shadow w path = Exec.ret w1) :
    ∃ shadow, mk_shadow_nm path = Exec.ret shadow ∧ w1.fs path = w.fs path := by
  cases hm : mk_shadow_nm path with
  | crash => simp [rm_shadow, hm] at h
  | nofuel => simp [rm_shadow, hm] at h
  | ret shadow =>
    refine ⟨shadow, rfl, ?_⟩
    have hne := mk_shadow_nm_ne path shadow hm
    simp only [rm_shadow, hm] at h
    by_cases ho : sys_open_rdonly w.fs shadow = true
    · rw [if_pos ho] at h
      by_cases hfd : w.fd0_free = true
      · rw [if_pos hfd] at h
        cases h
        rfl
      · rw [if_neg hfd] at h
        simp only [Exec.ret.injEq] at h
        rw [← h]
        unfold sys_unlink
        split
        · rfl
        · exact fs_set_other _ _ _ _ hne
    · rw [if_neg ho] at h
      cases h
      rfl

theorem rm_shadow_ret (w : world) (path : List Char) (hp : path ≠ []) :
    ∃ w1, rm_shadow w path = Exec.ret w1 := by
  obtain ⟨shadow, hs⟩ := mk_shadow_nm_ret path hp
  simp only [rm_shadow, hs]
  split
  · split
    · exact ⟨_, rfl⟩
    · exact ⟨_, rfl⟩
  · exact ⟨_, rfl⟩

/-- The file type `update_device` asks `mknod` for. -/
theorem dev_kind_cases (fmode : Nat) (hf : fmode = S_IFBLK ∨ fmode = S_IFCHR) :
    ((if fmode = S_IFBLK then ftype.blk else ftype.chr) = ftype.chr ∨
      (if fmode = S_IFBLK then ftype.blk else ftype.chr) = ftype.blk) ∧
    ftype_bits (if fmode = S_IFBLK then ftype.blk else ftype.chr) = fmode ∧
    fmode &&& S_IFMT = fmode ∧ fmode &&& 0o7777 = 0 := by
  rcases hf with rfl | rfl <;> decide

/-- The file that `mknod` followed by `apply_perm` leaves at a free path. -/
theorem mknod_apply_perm (env : sys_env) (w : world) (path : List Char) (fmode : Nat)
    (st2 : stat_t) (dev : Nat) (hn : w.fs path = none)
    (hf : fmode = S_IFBLK ∨ fmode = S_IFCHR) (hm : st2.st_mode &&& S_IFMT = 0) :
    (sys_mknod env w path (fmode ||| st2.st_mode) dev).1 = true ∧
    (apply_perm (sys_mknod env w path (fmode ||| st2.st_mode) dev).2 path st2 fmode).fs =
      fs_set w.fs path (some (fnode.file
        ⟨if fmode = S_IFBLK then ftype.blk else ftype.chr, (st2.st_mode ||| fmode) &&& 0o7777,
          st2.st_uid, st2.st_gid, dev⟩)) := by
  have hk := mknod_type_dev fmode st2.st_mode hf hm
  have hkk := (dev_kind_cases fmode hf).1
  generalize (if fmode = S_IFBLK then ftype.blk else ftype.chr) = k at hk hkk ⊢
  have hmk : sys_mknod env w path (fmode ||| st2.st_mode) dev =
      (true, ⟨fs_set w.fs path (some (fnode.file
        ⟨k, ((fmode ||| st2.st_mode) &&& 0o7777) &&& (0o7777 ^^^ (env.umask &&& 0o7777)),
          env.euid, env.egid, dev⟩)),
        w.trace ++ [syscall.mknod path (fmode ||| st2.st_mode) dev], w.fd0_free⟩) := by
    simp only [sys_mknod, hn, hk, hkk, if_true]
  rw [hmk]
  refine ⟨rfl, ?_⟩
  rw [apply_perm_file _ path st2 fmode _ (fs_set_same _ _ _)]
  simp only [fs_set_set]

/-- The recreating branch of `update_device`: the node is removed if it exists, made
anew with the wanted type and device number, and given the resolved owner, group and
mode; the shadow record is removed last. -/
theorem update_device_recreate (env : sys_env) (makedev : Int → Int → Nat) (filemode : Nat)
    (w : world) (linkto : Option (List Char)) (path : List Char) (fmode : Nat)
    (major minor : Int) (st2 : stat_t)
    (hg : get_perm filemode w.fs path linkto {} (major = SCSI_CDROM_MAJOR) = Exec.ret st2)
    (hm : st2.st_mode &&& S_IFMT = 0) (hf : fmode = S_IFBLK ∨ fmode = S_IFCHR)
    (hrec : ∀ i, w.fs path = some (fnode.file i) →
      i.rdev ≠ makedev major minor ∨ ftype_bits i.kind ≠ fmode &&& S_IFMT) :
    ∃ w2, update_device env makedev filemode w linkto path fmode major minor =
        rm_shadow w2 path ∧
      w2.fs = fs_set w.fs path (some (fnode.file
        ⟨if fmode = S_IFBLK then ftype.blk else ftype.chr, (st2.st_mode ||| fmode) &&& 0o7777,
          st2.st_uid, st2.st_gid, makedev major minor⟩)) ∧
      w2.fd0_free = w.fd0_free := by
  cases hn : w.fs path with
  | none =>
    have hl : sys_lstat w.fs path = none := by simp only [sys_lstat, hn]
    obtain ⟨h1, h2⟩ := mknod_apply_perm env w path fmode st2 (makedev major minor) hn hf hm
    refine ⟨_, ?_, h2, by rw [apply_perm_fd0, sys_mknod_fd0]⟩
    simp only [update_device, hg, hl, Option.isSome, h1]
    simp [h1]
  | some n =>
    have hu : (sys_unlink w path).2.fs = fs_set w.fs path none := by
      simp only [sys_unlink, hn]
    have hun : (sys_unlink w path).2.fs path = none := by rw [hu, fs_set_same]
    obtain ⟨h1, h2⟩ := mknod_apply_perm env (sys_unlink w path).2 path fmode st2
      (makedev major minor) hun hf hm
    rw [hu, fs_set_set] at h2
    refine ⟨_, ?_, h2, by rw [apply_perm_fd0, sys_mknod_fd0, sys_unlink_fd0]⟩
    cases n with
    | symlink t u g =>
      have hl : sys_lstat w.fs path = some { st_mode := S_IFLNK ||| 0o777, st_uid := u, st_gid := g } := by
        simp only [sys_lstat, hn]
      have hlnk : S_ISLNK (S_IFLNK ||| 0o777) = true := by decide
      simp only [update_device, hg, hl, hlnk, Option.isSome, h1]
      simp [h1]
    | file i =>
      have hl : sys_lstat w.fs path = some (inode_stat i) := by simp only [sys_lstat, hn]
      have hrd : (inode_stat i).st_rdev = i.rdev := rfl
      have hd := hrec i hn
      rw [← inode_stat_type] at hd
      simp only [update_device, hg, hl, inode_stat_not_lnk, hrd, Option.isSome, h1]
      rcases hd with hd | hd
      · simp [hd, h1]
      · simp [hd, h1]

/-- C20: permission preservation across recreation.  When the path names a file that
is no symbolic link, with owner `i.uid`, group `i.gid` and permission bits
`i.perm &&& 0o7777`, and the wanted device number or block/character type differs from
the file's, `update_device` returns and the path then names a file of the wanted type
and device number with that same owner, group and permission bits, whatever the
configured file mode, the shadow record and the legacy node are. -/
theorem update_device_preserves_perm (env : sys_env) (makedev : Int → Int → Nat)
    (filemode : Nat) (w : world) (linkto : Option (List Char)) (path : List Char)
    (fmode : Nat) (major minor : Int) (i : inode)
    (hn : w.fs path = some (fnode.file i)) (hp : path ≠ [])
    (hf : fmode = S_IFBLK ∨ fmode = S_IFCHR)
    (hd : i.rdev ≠ makedev major minor ∨ ftype_bits i.kind ≠ fmode) :
    ∃ w1, update_device env makedev filemode w linkto path fmode major minor = Exec.ret w1 ∧
      w1.fs path = some (fnode.file
        ⟨if fmode = S_IFBLK then ftype.blk else ftype.chr, i.perm &&& 0o7777, i.uid, i.gid,
          makedev major minor⟩) := by
  have hl : sys_lstat w.fs path = some (inode_stat i) := by simp only [sys_lstat, hn]
  have hg := get_perm_own filemode w.fs path linkto {} (major = SCSI_CDROM_MAJOR)
    (inode_stat i) hl (inode_stat_not_lnk i)
  have hk := dev_kind_cases fmode hf
  have hrec : ∀ j, w.fs path = some (fnode.file j) →
      j.rdev ≠ makedev major minor ∨ ftype_bits j.kind ≠ fmode &&& S_IFMT := by
    intro j hj
    rw [hn] at hj
    simp only [Option.some.injEq, fnode.file.injEq] at hj
    subst hj
    rw [hk.2.2.1]
    exact hd
  obtain ⟨w2, e, hfs, _⟩ := update_device_recreate env makedev filemode w linkto path fmode
    major minor _ hg (cp_perm_mode_type _ _) hf hrec
  obtain ⟨w1, hw1⟩ := rm_shadow_ret w2 path hp
  obtain ⟨shadow, _, hpath⟩ := rm_shadow_path w2 w1 path hw1
  refine ⟨w1, e.trans hw1, ?_⟩
  rw [hpath, hfs, fs_set_same]
  have hperm : ((cp_perm {} (inode_stat i)).st_mode ||| fmode) &&& 0o7777 =
      i.perm &&& 0o7777 := by
    have h1 : (cp_perm {} (inode_stat i)).st_mode = i.perm &&& 0o7777 := inode_stat_perm i
    rw [h1, Nat.and_distrib_right, hk.2.2.2, Nat.or_zero, Nat.land_assoc]
    rfl
  rw [hperm]
  rfl

/-- Witness for C20: the example node for device 8/0 with group 6 and mode 0640 is
replaced by a node for device 8/16 with group 6 and mode 0640, although the configured
mode is 0600 and both a shadow record and a legacy node with other permissions
exist. -/
theorem update_device_preserves_perm_witness :
    (∃ w1, update_device {} makedev_small 0o600 ⟨dev_fs true true true, [], false⟩
        (some legacy_path) canon_path S_IFBLK 8 16 = Exec.ret w1 ∧
      w1.fs canon_path = some (fnode.file
        ⟨if S_IFBLK = S_IFBLK then ftype.blk else ftype.chr, 0o640 &&& 0o7777, 0, 6,
          makedev_small 8 16⟩)) ∧
    node_after (update_device {} makedev_small 0o600 ⟨dev_fs true true true, [], false⟩
        (some legacy_path) canon_path S_IFBLK 8 16) canon_path =
      some (some (fnode.file ⟨ftype.blk, 0o640, 0, 6, 2064⟩)) :=
  ⟨update_device_preserves_perm {} makedev_small 0o600 ⟨dev_fs true true true, [], false⟩
      (some legacy_path) canon_path S_IFBLK 8 16 ⟨ftype.blk, 0o640, 0, 6, 2048⟩
      (by decide) (by decide) (Or.inl rfl) (Or.inl (by decide)),
    by decide⟩

/-- C18 (counterexample): with symlink mode off, no canonical node and no shadow
record, `create_dev` resolves the permissions of the existing legacy node "/dev/sda"
(group 6, mode 0660), not the configured default (group 0, mode 0600), and the
canonical node it makes carries them; without the legacy node the same call makes the
node with the default. -/
theorem create_dev_default_perm_counterexample :
    sys_lstat (dev_fs false false true) canon_path = none ∧
    sys_stat (dev_fs false false true) canon_shadow = none ∧
    mk_shadow_nm canon_path = Exec.ret canon_shadow ∧
    get_perm 0o600 (dev_fs false false true) canon_path (some legacy_path) {} false =
      Exec.ret { st_mode := 0o660, st_uid := 0, st_gid := 6 } ∧
    trace_after (create_dev {} makedev_small 0o600 0 ⟨dev_fs false false true, [], false⟩
        sda_entry 0) =
      some [syscall.mknod canon_path 0o60660 2048, syscall.chown canon_path 0 6,
        syscall.chmod canon_path 0o60660] ∧
    node_after (create_dev {} makedev_small 0o600 0 ⟨dev_fs false false true, [], false⟩
        sda_entry 0) canon_path =
      some (some (fnode.file ⟨ftype.blk, 0o660, 0, 6, 2048⟩)) ∧
    node_after (create_dev {} makedev_small 0o600 0 ⟨dev_fs false false false, [], false⟩
        sda_entry 0) canon_path =
      some (some (fnode.file ⟨ftype.blk, 0o600, 0, 0, 2048⟩)) := by
  decide

/-- C18 (amended): with symlink mode off `create_dev` is `update_device` with the
legacy path "/dev/<legacy name>" as link target.  When the canonical node does not
exist (or is a symbolic link) and no shadow record exists, the resolved permissions
are those of the legacy node if `stat` finds it, and the configured default (owner 0,
group 0, configured mode, without the write bits for major 11) only otherwise; and
when the legacy node exists or the configured mode carries no file-type bits, the
call returns and leaves a canonical node of the entry's type and device number with
the resolved owner, group and permission bits. -/
theorem create_dev_legacy_perm (env : sys_env) (makedev : Int → Int → Nat) (filemode : Nat)
    (override_link_perm : Int) (w : world) (spnt : sname) (oldname name shadow : List Char)
    (ho : spnt.oldname = some oldname) (hnm : spnt.name = some name)
    (hc : sys_lstat w.fs name = none ∨
      ∃ st, sys_lstat w.fs name = some st ∧ S_ISLNK st.st_mode = true)
    (hs : mk_shadow_nm name = Exec.ret shadow) (hsh : sys_stat w.fs shadow = none) :
    create_dev env makedev filemode override_link_perm w spnt 0 =
      update_device env makedev filemode w (some ("/dev/".toList ++ oldname)) name
        (if isblk spnt.devtp then S_IFBLK else S_IFCHR) spnt.major spnt.minor ∧
    ∃ st2, get_perm filemode w.fs name (some ("/dev/".toList ++ oldname)) {}
        (spnt.major = SCSI_CDROM_MAJOR) = Exec.ret st2 ∧
      st2 = (match sys_stat w.fs ("/dev/".toList ++ oldname) with
        | some st => cp_perm {} st
        | none => { st_uid := 0, st_gid := 0,
                    st_mode := if spnt.major = SCSI_CDROM_MAJOR then filemode &&& 0xFFFFFF6D
                               else filemode }) ∧
      (sys_stat w.fs ("/dev/".toList ++ oldname) ≠ none ∨ filemode &&& S_IFMT = 0 →
        ∃ w1, create_dev env makedev filemode override_link_perm w spnt 0 = Exec.ret w1 ∧
          w1.fs name = some (fnode.file
            ⟨if isblk spnt.devtp then ftype.blk else ftype.chr, st2.st_mode &&& 0o7777,
              st2.st_uid, st2.st_gid, makedev spnt.major spnt.minor⟩)) := by
  have hcd : create_dev env makedev filemode override_link_perm w spnt 0 =
      update_device env makedev filemode w (some ("/dev/".toList ++ oldname)) name
        (if isblk spnt.devtp then S_IFBLK else S_IFCHR) spnt.major spnt.minor := by
    simp only [create_dev, ho, hnm]
    simp
  have hgl := get_perm_later filemode w.fs name (some ("/dev/".toList ++ oldname)) {}
    (spnt.major = SCSI_CDROM_MAJOR) shadow hc hs
  rw [hsh] at hgl
  simp only [Option.bind] at hgl
  have hf : (if isblk spnt.devtp then S_IFBLK else S_IFCHR) = S_IFBLK ∨
      (if isblk spnt.devtp then S_IFBLK else S_IFCHR) = S_IFCHR := by
    cases isblk spnt.devtp
    · exact Or.inr rfl
    · exact Or.inl rfl
  have hkind : (if (if isblk spnt.devtp then S_IFBLK else S_IFCHR) = S_IFBLK then ftype.blk
      else ftype.chr) = (if isblk spnt.devtp then ftype.blk else ftype.chr) := by
    cases isblk spnt.devtp <;> decide
  have hrec : ∀ i, w.fs name = some (fnode.file i) →
      i.rdev ≠ makedev spnt.major spnt.minor ∨
        ftype_bits i.kind ≠ (if isblk spnt.devtp then S_IFBLK else S_IFCHR) &&& S_IFMT := by
    intro i hi
    exfalso
    have hl : sys_lstat w.fs name = some (inode_stat i) := by simp only [sys_lstat, hi]
    rcases hc with hc | ⟨st, hc, hlnk⟩
    · rw [hl] at hc
      cases hc
    · rw [hl] at hc
      simp only [Option.some.injEq] at hc
      subst hc
      rw [inode_stat_not_lnk] at hlnk
      cases hlnk
  refine ⟨hcd, ?_⟩
  have main : ∀ st2, get_perm filemode w.fs name (some ("/dev/".toList ++ oldname)) {}
      (spnt.major = SCSI_CDROM_MAJOR) = Exec.ret st2 → st2.st_mode &&& S_IFMT = 0 →
      ∃ w1, create_dev env makedev filemode override_link_perm w spnt 0 = Exec.ret w1 ∧
        w1.fs name = some (fnode.file
          ⟨if isblk spnt.devtp then ftype.blk else ftype.chr, st2.st_mode &&& 0o7777,
            st2.st_uid, st2.st_gid, makedev spnt.major spnt.minor⟩) := by
    intro st2 hg hm
    obtain ⟨w2, e, hfs, _⟩ := update_device_recreate env makedev filemode w _ name _
      spnt.major spnt.minor st2 hg hm hf hrec
    have hp : name ≠ [] := by
      intro hnil
      rw [hnil] at hs
      simp [mk_shadow_nm, after_last_slash] at hs
    obtain ⟨w1, hw1⟩ := rm_shadow_ret w2 name hp
    obtain ⟨_, _, hpath⟩ := rm_shadow_path w2 w1 name hw1
    refine ⟨w1, hcd.trans (e.trans hw1), ?_⟩
    rw [hpath, hfs, fs_set_same, hkind]
    have hperm : (st2.st_mode ||| (if isblk spnt.devtp then S_IFBLK else S_IFCHR)) &&& 0o7777 =
        st2.st_mode &&& 0o7777 := by
      rw [Nat.and_distrib_right, (dev_kind_cases _ hf).2.2.2, Nat.or_zero]
    rw [hperm]
  cases hst : sys_stat w.fs ("/dev/".toList ++ oldname) with
  | some st =>
    rw [hst] at hgl
    exact ⟨_, hgl, rfl, fun _ => main _ hgl (cp_perm_mode_type _ _)⟩
  | none =>
    rw [hst] at hgl
    refine ⟨_, hgl, by simp, fun hcond => main _ hgl ?_⟩
    rcases hcond with hcond | hfm
    · exact absurd rfl hcond
    · exact get_perm_mode_clean filemode w.fs name _ {} _ _ hfm hgl

/-- Witness for C18 (amended): on the example file system with the legacy node only,
the permissions resolved for the canonical node are the legacy node's; here the
configured mode 0100600 carries file-type bits. -/
theorem create_dev_legacy_perm_witness :
    create_dev {} makedev_small 0o100600 0 ⟨dev_fs false false true, [], false⟩ sda_entry 0 =
      update_device {} makedev_small 0o100600 ⟨dev_fs false false true, [], false⟩
        (some legacy_path) canon_path S_IFBLK 8 0 ∧
    ∃ st2, get_perm 0o100600 (dev_fs false false true) canon_path (some legacy_path) {} false =
        Exec.ret st2 ∧
      st2 = cp_perm {} (inode_stat ⟨ftype.blk, 0o660, 0, 6, 2048⟩) ∧
      (sys_stat (dev_fs false false true) legacy_path ≠ none ∨ 0o100600 &&& S_IFMT = 0 →
        ∃ w1, create_dev {} makedev_small 0o100600 0 ⟨dev_fs false false true, [], false⟩
            sda_entry 0 = Exec.ret w1 ∧
          w1.fs canon_path = some (fnode.file
            ⟨ftype.blk, st2.st_mode &&& 0o7777, st2.st_uid, st2.st_gid, makedev_small 8 0⟩)) :=
  create_dev_legacy_perm {} makedev_small 0o100600 0 ⟨dev_fs false false true, [], false⟩
    sda_entry "sda".toList canon_path canon_shadow rfl rfl (Or.inl (by decide)) (by decide)
    (by decide)

/-- With file-type bits in the configured mode (`-m 0100600`) and neither canonical
node, shadow record nor legacy node, the mode given to `mknod` carries the bits of two
types; `mknod` fails and the program ends by `exit (1)`. -/
theorem create_dev_mode_type_bits :
    node_after (create_dev {} makedev_small 0o100600 0
      ⟨dev_fs false false false, [], false⟩ sda_entry 0) canon_path = none ∧
    mknod_type (S_IFBLK ||| 0o100600) = none := by
  decide

/-! ## Shadow names (`mk_shadow_nm`) -/

theorem after_last_slash_none : ∀ (s : List Char), '/' ∉ s → after_last_slash s = none := by
  intro s
  induction s with
  | nil => intro _; rfl
  | cons c rest ih =>
    intro h
    have h1 : '/' ∉ rest := fun hm => h (List.mem_cons_of_mem _ hm)
    have h2 : c ≠ '/' := fun he => h (he ▸ List.mem_cons_self _ _)
    simp [after_last_slash, ih h1, h2]

/-- The branch `else ptr = nm`, for a name without '/': the pointer is incremented
there as well, so the text behind the first character of the name is appended.  No
call in the program passes such a name. -/
theorem mk_shadow_nm_no_slash (c : Char) (tl : List Char) (h : '/' ∉ c :: tl) :
    mk_shadow_nm (c :: tl) = Exec.ret (SHADOW ++ tl) := by
  simp only [mk_shadow_nm, after_last_slash_none _ h]

/-! ## Identifier page 0x83: which bytes are read -/

theorem ntohl_at_congr (p q : Nat → Nat) (d : Nat)
    (h : ∀ j, j < 4 → byte_at p (d + j) = byte_at q (d + j)) : ntohl_at p d = ntohl_at q d := by
  have h0 := h 0 (by decide)
  have h1 := h 1 (by decide)
  have h2 := h 2 (by decide)
  have h3 := h 3 (by decide)
  simp only [Nat.add_zero] at h0
  simp only [ntohl_at, h0, h1, h2, h3]

theorem get_no_congr (p q : Nat → Nat) (d start stop : Nat)
    (h : ∀ j, j < 4 → byte_at p (d + j) = byte_at q (d + j)) :
    get_no p d start stop = get_no q d start stop := by
  simp only [get_no, ntohl_at_congr p q d h]

theorem be64_at_congr (p q : Nat → Nat) (d : Nat)
    (h : ∀ j, j < 8 → byte_at p (d + j) = byte_at q (d + j)) : be64_at p d = be64_at q d := by
  rw [be64_at_eq, be64_at_eq, ntohl_at_congr p q d (fun j hj => h j (by omega)),
    ntohl_at_congr p q (d + 4) (fun j hj => by
      have := h (4 + j) (by omega)
      simpa only [Nat.add_assoc] using this)]

theorem page_of_beyond (bs : List Nat) (i : Nat) (h : bs.length ≤ i) :
    byte_at (page_of bs) i = 0 := by
  simp [byte_at, page_of, List.getD, List.getElem?_eq_none h]

/-- The value computed by the loop of `extract_wwid` depends on the bytes below
offset `len + 19` only: a record starts below `4 + len` and at most 16 of its bytes
are read for the value. -/
theorem extract_wwid_loop_congr (verbose : Int) (p q : Nat → Nat) (len : Nat)
    (h : ∀ i, i < len + 19 → byte_at p i = byte_at q i) :
    ∀ (fuel pid : Nat) (out1 out2 : List Msg),
      wwid_value (extract_wwid_loop verbose p len fuel pid out1) =
        wwid_value (extract_wwid_loop verbose q len fuel pid out2) := by
  intro fuel
  induction fuel with
  | zero =>
    intro pid out1 out2
    simp only [extract_wwid_loop]
    split_ifs <;> rfl
  | succ f ih =>
    intro pid out1 out2
    by_cases hin : pid < 4 + len
    · have hb : ∀ k, k < 16 → byte_at p (pid + k) = byte_at q (pid + k) :=
        fun k hk => h _ (by omega)
      have ha : pg83id_assoc p pid = pg83id_assoc q pid := by
        simp only [pg83id_assoc, pg83id_idtype, hb 1 (by decide)]
      have hc : pg83id_code p pid = pg83id_code q pid := by
        have := hb 0 (by decide)
        simp only [Nat.add_zero] at this
        simp only [pg83id_code, pg83id_pident, this]
      have hd : pg83id_desig p pid = pg83id_desig q pid := by
        simp only [pg83id_desig, pg83id_idtype, hb 1 (by decide)]
      have hl : pg83id_idlen p pid = pg83id_idlen q pid := by
        simp only [pg83id_idlen, hb 3 (by decide)]
      have hn : pg83id_naa p pid = pg83id_naa q pid := by
        simp only [pg83id_naa, pg83id_iddata, hb 4 (by decide)]
      have hg : ∀ k s t, k ≤ 8 → get_no p (pid + 4 + k) s t = get_no q (pid + 4 + k) s t := by
        intro k s t hk
        apply get_no_congr
        intro j hj
        have := hb (4 + k + j) (by omega)
        simpa only [Nat.add_assoc] using this
      have hg0 : ∀ s t, get_no p (pid + 4) s t = get_no q (pid + 4) s t :=
        fun s t => hg 0 s t (by decide)
      have hg2 := fun s t => hg 2 s t (by decide)
      have hg3 := fun s t => hg 3 s t (by decide)
      have hg4 := fun s t => hg 4 s t (by decide)
      have hg5 := fun s t => hg 5 s t (by decide)
      have hg8 := fun s t => hg 8 s t (by decide)
      rw [extract_wwid_loop, extract_wwid_loop]
      simp only [pg83id_iddata, ha, hc, hd, hl, hn, hg0, hg2, hg3, hg4, hg5, hg8]
      split_ifs <;> first | rfl | exact ih _ _ _
    · rw [extract_wwid_loop_end verbose p len (f + 1) pid out1 hin,
        extract_wwid_loop_end verbose q len (f + 1) pid out2 hin]
      rfl

/-- C26: every NAA record of the logical unit (designator type 3, code set 1) whose
first payload nibble is 5 or 6 makes the loop of `extract_wwid` return the
big-endian 64-bit value of payload bytes 0..7 modulo `2 ^ 60`, wherever the record
stands, and so does `extract_wwid` when it is the first record of a page 0x83 with
reserved byte 0; the result is below `2 ^ 60`; and a page that differs from such a
page in the NAA nibble only, 6 in place of 5, yields the same id. -/
theorem extract_wwid_naa_5_6 (verbose : Int) (page : Nat → Nat) :
    (∀ len fuel pid out, pid < 4 + len → pg83id_assoc page pid = 0 →
      pg83id_desig page pid = 3 → pg83id_code page pid = 1 →
      (pg83id_naa page pid = 5 ∨ pg83id_naa page pid = 6) →
      extract_wwid_loop verbose page len (fuel + 1) pid out =
        Exec.ret (be64_at page (pid + 4) % 2 ^ 60, out)) ∧
    (pg83_pgcode page = 0x83 → pg83id_res page 4 = 0 → 0 < pg83_length page →
      pg83id_assoc page 4 = 0 → pg83id_desig page 4 = 3 → pg83id_code page 4 = 1 →
      (pg83id_naa page 4 = 5 ∨ pg83id_naa page 4 = 6) →
      extract_wwid verbose page = Exec.ret (be64_at page 8 % 2 ^ 60, []) ∧
      be64_at page 8 % 2 ^ 60 < 2 ^ 60 ∧
      ∀ q : Nat → Nat, (∀ i, i ≠ 8 → byte_at q i = byte_at page i) →
        pg83id_naa page 4 = 5 → byte_at q 8 = byte_at page 8 + 16 →
        pg83id_naa q 4 = 6 ∧ extract_wwid verbose q = extract_wwid verbose page) := by
  have e60 : (2 ^ 60 : Nat) = 1152921504606846976 := by norm_num
  rw [e60]
  refine ⟨?_, ?_⟩
  · intro len fuel pid out hin ha hd hc hn
    exact (extract_wwid_loop_naa verbose page len fuel pid out hin ha hd hc).2.1 hn
  · intro hpg hres hlen ha hd hc hn
    have hv := extract_wwid_naa_nibble_5_or_6 verbose page hpg hres hlen ha hd hc hn
    refine ⟨hv, Nat.mod_lt _ (by norm_num), ?_⟩
    intro q hq h5 h8
    have b8 := byte_at_lt page 8
    have hb := (byte_bits _ b8).1
    have hq8 := byte_at_lt q 8
    have hbq := (byte_bits _ hq8).1
    have hnq : pg83id_naa q 4 = 6 := by
      simp only [pg83id_naa, pg83id_iddata, hb] at h5
      simp only [pg83id_naa, pg83id_iddata, hbq]
      omega
    refine ⟨hnq, ?_⟩
    have hpgq : pg83_pgcode q = 0x83 := by
      simp only [pg83_pgcode, hq 1 (by decide)]
      exact hpg
    have hresq : pg83id_res q 4 = 0 := by
      simp only [pg83id_res, hq (4 + 2) (by decide)]
      exact hres
    have hlenq : 0 < pg83_length q := by
      simp only [pg83_length, hq 2 (by decide), hq 3 (by decide)]
      exact hlen
    have haq : pg83id_assoc q 4 = 0 := by
      simp only [pg83id_assoc, pg83id_idtype, hq (4 + 1) (by decide)]
      exact ha
    have hdq : pg83id_desig q 4 = 3 := by
      simp only [pg83id_desig, pg83id_idtype, hq (4 + 1) (by decide)]
      exact hd
    have hcq : pg83id_code q 4 = 1 := by
      simp only [pg83id_code, pg83id_pident, hq 4 (by decide)]
      exact hc
    rw [hv, extract_wwid_naa_nibble_5_or_6 verbose q hpgq hresq hlenq haq hdq hcq (Or.inr hnq)]
    have hval : be64_at q 8 % 1152921504606846976 = be64_at page 8 % 1152921504606846976 := by
      have h1 := byte_at_lt page (8 + 1)
      have h2 := byte_at_lt page (8 + 2)
      have h3 := byte_at_lt page (8 + 3)
      have h4 := ntohl_at_lt page (8 + 4)
      have e4 : ntohl_at q (8 + 4) = ntohl_at page (8 + 4) :=
        ntohl_at_congr q page (8 + 4) (fun j _ => hq _ (by omega))
      rw [be64_at_eq, be64_at_eq, e4]
      simp only [ntohl_at, hq (8 + 1) (by decide), hq (8 + 2) (by decide),
        hq (8 + 3) (by decide), h8] at h4 ⊢
      simp only [pg83id_naa, pg83id_iddata, hb] at h5
      omega
    rw [hval]

/-- Witness for C26: the pages `naa5_page` and `naa6_page` differ in the NAA nibble
only and yield the same id. -/
theorem extract_wwid_naa_5_6_witness :
    pg83id_naa naa6_page 4 = 6 ∧ extract_wwid 0 naa6_page = extract_wwid 0 naa5_page :=
  ((extract_wwid_naa_5_6 0 naa5_page).2 (by decide) (by decide) (by decide) (by decide)
    (by decide) (by decide) (Or.inl (by decide))).2.2 naa6_page
    (by
      intro i hi
      have h : ∀ j, j < 16 → j ≠ 8 → byte_at naa6_page j = byte_at naa5_page j := by decide
      by_cases hlt : i < 16
      · exact h i hlt hi
      · have hge : 16 ≤ i := Nat.le_of_not_lt hlt
        exact (page_of_beyond [0x00, 0x83, 0x00, 0x0c, 0x01, 0x03, 0x00, 0x08,
          0x60, 0x01, 0x02, 0x03, 0x04, 0x05, 0x06, 0x07] i hge).trans
          (page_of_beyond [0x00, 0x83, 0x00, 0x0c, 0x01, 0x03, 0x00, 0x08,
          0x50, 0x01, 0x02, 0x03, 0x04, 0x05, 0x06, 0x07] i hge).symm)
    (by decide) (by decide)

/-- C27: on every page with code 0x83 whose byte 6, the reserved byte of the first
record, is not 0, `extract_wwid` returns the big-endian 64-bit value of the page
bytes 4..11 and prints nothing, whatever the declared length, the other header bytes
of the first record and the rest of the page are. -/
theorem extract_wwid_pre_spc (verbose : Int) (page : Nat → Nat)
    (hpg : byte_at page 1 = 0x83) (hres : byte_at page 6 ≠ 0) :
    extract_wwid verbose page = Exec.ret (be64_at page 4, []) := by
  have h1 : pg83_pgcode page = 0x83 := hpg
  have h2 : pg83id_res page 4 ≠ 0 := hres
  simp only [extract_wwid, h1, h2, ne_eq, not_true_eq_false, not_false_eq_true, if_false,
    if_true, wwid_halves]

/-- Witness for C27: a page with declared length 0 and reserved byte 0x33. -/
theorem extract_wwid_pre_spc_witness :
    extract_wwid 0 pre_spc_page = Exec.ret (be64_at pre_spc_page 4, []) ∧
    pg83_length pre_spc_page = 0 ∧ be64_at pre_spc_page 4 = 0x3132333435363738 :=
  ⟨extract_wwid_pre_spc 0 pre_spc_page (by decide) (by decide), by decide, by decide⟩

/-- C28 (counterexample): two pages with declared length 0 that agree on the declared
bytes 0..3 yield different values, because the reserved byte at offset 6 and the
bytes 4..11 are read before the length is looked at; and two pages with declared
length 4 that agree on bytes 0..7 yield different values, because the payload of the
record whose header lies inside the declared length is read behind it. -/
theorem extract_wwid_reads_past_length_counterexample :
    pg83_length empty_page = 0 ∧
    (∀ i, i < 4 → byte_at empty_page i = byte_at empty_page_junk i) ∧
    extract_wwid 0 empty_page = Exec.ret (no_wwid, []) ∧
    extract_wwid 0 empty_page_junk = Exec.ret (0x1122334455667788, []) ∧
    pg83_length header_only_page = 4 ∧
    (∀ i, i < 8 → byte_at header_only_page i = byte_at header_only_page_junk i) ∧
    extract_wwid 0 header_only_page = Exec.ret (0, []) ∧
    extract_wwid 0 header_only_page_junk = Exec.ret (0x0011223344556677, []) := by
  decide

/-- C28 (amended): the value `extract_wwid` returns depends on the bytes 0..11 and on
the bytes up to offset `len + 18` only, `len` being the declared length: two pages
that agree on these bytes yield the same value (or both calls do not return). -/
theorem extract_wwid_depends_on (verbose : Int) (p q : Nat → Nat)
    (h12 : ∀ i, i < 12 → byte_at p i = byte_at q i)
    (hlen : ∀ i, i < pg83_length p + 19 → byte_at p i = byte_at q i) :
    wwid_value (extract_wwid verbose p) = wwid_value (extract_wwid verbose q) := by
  have hl : pg83_length p = pg83_length q := by
    simp only [pg83_length, h12 2 (by decide), h12 3 (by decide)]
  have hpg : pg83_pgcode p = pg83_pgcode q := by
    simp only [pg83_pgcode, h12 1 (by decide)]
  have hres : pg83id_res p 4 = pg83id_res q 4 := by
    simp only [pg83id_res, h12 (4 + 2) (by decide)]
  have hv : be64_at p 4 = be64_at q 4 :=
    be64_at_congr p q 4 (fun j hj => h12 _ (by omega))
  have hloop := extract_wwid_loop_congr verbose p q (pg83_length p) hlen (pg83_length p) 4 [] []
  simp only [extract_wwid, wwid_halves, hv]
  rw [← hl, ← hpg, ← hres]
  split_ifs
  · rfl
  · rfl
  · exact hloop

/-- Witness for C28 (amended): two pages that agree on their first 31 bytes. -/
theorem extract_wwid_depends_on_witness :
    wwid_value (extract_wwid 0 naa5_page) =
      wwid_value (extract_wwid 0 (fun i => if i < 31 then naa5_page i else 255)) :=
  extract_wwid_depends_on 0 naa5_page (fun i => if i < 31 then naa5_page i else 255)
    (fun i hi => by
      have : i < 31 := by omega
      simp [byte_at, this])
    (fun i hi => by
      have hl : pg83_length naa5_page = 12 := by decide
      rw [hl] at hi
      simp [byte_at, hi])

/-! ## Disk numbers and majors (`sd_major_to_disknum`, `disknum_to_sd_major`) -/

theorem wrap32_id (x : Int) (h0 : -2147483648 ≤ x) (h1 : x < 2147483648) : wrap32 x = x := by
  unfold wrap32 of_u32 to_u32
  split_ifs <;> omega

theorem int_and_low (n : Int) (k m : Nat) (hm : m + 1 = 2 ^ k) (hk : m < 2147483648)
    (h0 : 0 ≤ n) (h1 : n < 4294967296) : int_and n (m : Int) = n % ((m : Int) + 1) := by
  have e1 : to_u32 n = n.toNat := by
    unfold to_u32
    rw [Int.emod_eq_of_lt h0 h1]
  have e2 : to_u32 (m : Int) = m := by
    unfold to_u32
    rw [Int.emod_eq_of_lt (by omega) (by omega)]
    rfl
  have e3 : m = 2 ^ k - 1 := by omega
  have e4 : n.toNat &&& m = n.toNat % (m + 1) := by
    rw [e3, Nat.and_pow_two_sub_one_eq_mod]
    congr 1
    omega
  have hlt : n.toNat % (m + 1) < m + 1 := Nat.mod_lt _ (by omega)
  unfold int_and of_u32
  rw [e1, e2, e4, if_pos (by omega), Int.natCast_mod, Int.toNat_of_nonneg h0]
  push_cast
  rfl

theorem int_and_15 (n : Int) (h0 : 0 ≤ n) (h1 : n < 4294967296) : int_and n 0x0f = n % 16 :=
  int_and_low n 4 15 (by decide) (by decide) h0 h1

/-- The minor `comparediskidlun` probes: `(no & 0x0f) << 4`. -/
theorem probe_minor_eq (n : Int) (h0 : 0 ≤ n) (h1 : n < 2147483648) :
    int_shl (int_and n 0x0f) 4 = n % 16 * 16 := by
  rw [int_and_15 n h0 (by omega)]
  unfold int_shl
  rw [wrap32_id _ (by omega) (by omega)]
  norm_num

/-- The value of `sd_major_to_disknum` where no intermediate result leaves the range
of `int`. -/
theorem sd_major_to_disknum_small (M minor : Int) (hM0 : 0 ≤ M) (hM1 : M ≤ 254)
    (hm0 : 0 ≤ minor) (hm1 : minor < 4096) :
    sd_major_to_disknum M minor =
      if M = 8 then minor / 16
      else if M ≥ 65 ∧ M ≤ 71 then minor / 16 + (M - 64) * 16
      else if M ≥ 128 ∧ M ≤ 135 then minor / 16 + (M - 120) * 16
      else if M ≥ 144 then minor / 16 + (M - 128) * 16
      else if M ≥ 72 ∧ M < 128 then minor / 16 + (M + 55) * 16
      else if M ≥ 136 ∧ M < 144 then minor / 16 + (M + 47) * 16
      else if M ≥ 12 ∧ M ≤ 64 then minor / 16 + (M + 179) * 16
      else -1 := by
  have hw : ∀ x : Int, -300 ≤ x → x ≤ 500 →
      wrap32 (minor / 16 + wrap32 (x * 16)) = minor / 16 + x * 16 := by
    intro x h0 h1
    rw [wrap32_id (x * 16) (by omega) (by omega), wrap32_id _ (by omega) (by omega)]
  have e16 : ((2 : Int) ^ 4) = 16 := by norm_num
  simp only [sd_major_to_disknum, int_shr, int_shl, SCSI_DISK0_MAJOR, SCSI_DISK1_MAJOR,
    SCSI_DISK7_MAJOR, e16, hw (M - 64) (by omega) (by omega),
    hw (M - 120) (by omega) (by omega), hw (M - 128) (by omega) (by omega),
    hw (M + 55) (by omega) (by omega), hw (M + 47) (by omega) (by omega),
    hw (M + 179) (by omega) (by omega)]

/-- The value of `disknum_to_sd_major` in terms of `mj = diskno >> 4`. -/
theorem disknum_to_sd_major_cases (n q : Int) (hq : n / 16 = q) :
    (q = 0 → disknum_to_sd_major n = 8) ∧
    (1 ≤ q → q < 8 → disknum_to_sd_major n = 64 + q) ∧
    (8 ≤ q → q < 16 → disknum_to_sd_major n = 120 + q) ∧
    (16 ≤ q → q < 127 → disknum_to_sd_major n = 128 + q) ∧
    (127 ≤ q → q < 183 → disknum_to_sd_major n = q - 55) ∧
    (183 ≤ q → q < 191 → disknum_to_sd_major n = q - 47) ∧
    (191 ≤ q → q < 244 → disknum_to_sd_major n = q - 179) ∧
    ((q < 0 ∨ 244 ≤ q) → disknum_to_sd_major n = -1) := by
  have e : int_shr n 4 = q := by
    rw [← hq]
    simp only [int_shr]
    norm_num
  simp only [disknum_to_sd_major, e]
  refine ⟨?_, ?_, ?_, ?_, ?_, ?_, ?_, ?_⟩
  · intro h
    rw [if_pos h]
  · intro ha hb
    rw [if_neg (by omega), if_pos ⟨ha, hb⟩]
  · intro ha hb
    rw [if_neg (by omega), if_neg (by omega), if_pos ⟨ha, hb⟩]
  · intro ha hb
    rw [if_neg (by omega), if_neg (by omega), if_neg (by omega), if_pos ⟨ha, hb⟩]
  · intro ha hb
    rw [if_neg (by omega), if_neg (by omega), if_neg (by omega), if_neg (by omega),
      if_pos ⟨ha, hb⟩]
  · intro ha hb
    rw [if_neg (by omega), if_neg (by omega), if_neg (by omega), if_neg (by omega),
      if_neg (by omega), if_pos ⟨ha, hb⟩]
  · intro ha hb
    rw [if_neg (by omega), if_neg (by omega), if_neg (by omega), if_neg (by omega),
      if_neg (by omega), if_neg (by omega), if_pos ⟨ha, hb⟩]
  · intro ha
    rw [if_neg (by omega), if_neg (by omega), if_neg (by omega), if_neg (by omega),
      if_neg (by omega), if_neg (by omega), if_neg (by omega)]

/-- From the major of disk number `n` and the minor of its whole disk,
`sd_major_to_disknum` gives `n` back. -/
theorem sd_major_to_disknum_of_disknum (n : Int) (h0 : 0 ≤ n) (h1 : n < 3904) :
    disknum_to_sd_major n ≠ -1 ∧
    sd_major_to_disknum (disknum_to_sd_major n) (n % 16 * 16) = n := by
  have hq := disknum_to_sd_major_cases n (n / 16) rfl
  have hr : n / 16 = 0 ∨ (1 ≤ n / 16 ∧ n / 16 < 8) ∨ (8 ≤ n / 16 ∧ n / 16 < 16) ∨
      (16 ≤ n / 16 ∧ n / 16 < 127) ∨ (127 ≤ n / 16 ∧ n / 16 < 183) ∨
      (183 ≤ n / 16 ∧ n / 16 < 191) ∨ (191 ≤ n / 16 ∧ n / 16 < 244) := by omega
  have key : ∀ M : Int, disknum_to_sd_major n = M → 0 ≤ M → M ≤ 254 →
      (if M = 8 then n % 16 * 16 / 16
        else if M ≥ 65 ∧ M ≤ 71 then n % 16 * 16 / 16 + (M - 64) * 16
        else if M ≥ 128 ∧ M ≤ 135 then n % 16 * 16 / 16 + (M - 120) * 16
        else if M ≥ 144 then n % 16 * 16 / 16 + (M - 128) * 16
        else if M ≥ 72 ∧ M < 128 then n % 16 * 16 / 16 + (M + 55) * 16
        else if M ≥ 136 ∧ M < 144 then n % 16 * 16 / 16 + (M + 47) * 16
        else if M ≥ 12 ∧ M ≤ 64 then n % 16 * 16 / 16 + (M + 179) * 16
        else -1) = n →
      disknum_to_sd_major n ≠ -1 ∧
      sd_major_to_disknum (disknum_to_sd_major n) (n % 16 * 16) = n := by
    intro M hM hM0 hM1 hv
    rw [hM, sd_major_to_disknum_small M _ hM0 hM1 (by omega) (by omega)]
    exact ⟨by omega, hv⟩
  rcases hr with h | ⟨ha, hb⟩ | ⟨ha, hb⟩ | ⟨ha, hb⟩ | ⟨ha, hb⟩ | ⟨ha, hb⟩ | ⟨ha, hb⟩
  · refine key 8 (hq.1 h) (by omega) (by omega) ?_
    rw [if_pos rfl]
    omega
  · refine key _ (hq.2.1 ha hb) (by omega) (by omega) ?_
    rw [if_neg (by omega), if_pos (by omega)]
    omega
  · refine key _ (hq.2.2.1 ha hb) (by omega) (by omega) ?_
    rw [if_neg (by omega), if_neg (by omega), if_pos (by omega)]
    omega
  · refine key _ (hq.2.2.2.1 ha hb) (by omega) (by omega) ?_
    rw [if_neg (by omega), if_neg (by omega), if_neg (by omega), if_pos (by omega)]
    omega
  · refine key _ (hq.2.2.2.2.1 ha hb) (by omega) (by omega) ?_
    rw [if_neg (by omega), if_neg (by omega), if_neg (by omega), if_neg (by omega),
      if_pos (by omega)]
    omega
  · refine key _ (hq.2.2.2.2.2.1 ha hb) (by omega) (by omega) ?_
    rw [if_neg (by omega), if_neg (by omega), if_neg (by omega), if_neg (by omega),
      if_neg (by omega), if_pos (by omega)]
    omega
  · refine key _ (hq.2.2.2.2.2.2.1 ha hb) (by omega) (by omega) ?_
    rw [if_neg (by omega), if_neg (by omega), if_neg (by omega), if_neg (by omega),
      if_neg (by omega), if_neg (by omega), if_pos (by omega)]
    omega

/-- From the disk number of a known major, `disknum_to_sd_major` gives the major
back. -/
theorem disknum_of_sd_major (M minor : Int) (hM : M = 8 ∨ 12 ≤ M) (hM1 : M ≤ 254)
    (hm0 : 0 ≤ minor) (hm1 : minor ≤ 255) :
    sd_major_to_disknum M minor ≠ -1 ∧
    disknum_to_sd_major (sd_major_to_disknum M minor) = M := by
  have hb := sd_major_to_disknum_small M minor (by omega) hM1 hm0 (by omega)
  have hd : ∀ v : Int, sd_major_to_disknum M minor = v →
      (v / 16 = 0 → M = 8) → (1 ≤ v / 16 → v / 16 < 8 → M = 64 + v / 16) →
      (8 ≤ v / 16 → v / 16 < 16 → M = 120 + v / 16) →
      (16 ≤ v / 16 → v / 16 < 127 → M = 128 + v / 16) →
      (127 ≤ v / 16 → v / 16 < 183 → M = v / 16 - 55) →
      (183 ≤ v / 16 → v / 16 < 191 → M = v / 16 - 47) →
      (191 ≤ v / 16 → v / 16 < 244 → M = v / 16 - 179) →
      0 ≤ v → v / 16 < 244 →
      sd_major_to_disknum M minor ≠ -1 ∧
      disknum_to_sd_major (sd_major_to_disknum M minor) = M := by
    intro v hv c0 c1 c2 c3 c4 c5 c6 hv0 hv1
    have hq := disknum_to_sd_major_cases v (v / 16) rfl
    rw [hv]
    refine ⟨by omega, ?_⟩
    have hr : v / 16 = 0 ∨ (1 ≤ v / 16 ∧ v / 16 < 8) ∨ (8 ≤ v / 16 ∧ v / 16 < 16) ∨
        (16 ≤ v / 16 ∧ v / 16 < 127) ∨ (127 ≤ v / 16 ∧ v / 16 < 183) ∨
        (183 ≤ v / 16 ∧ v / 16 < 191) ∨ (191 ≤ v / 16 ∧ v / 16 < 244) := by omega
    rcases hr with h | ⟨ha, hb⟩ | ⟨ha, hb⟩ | ⟨ha, hb⟩ | ⟨ha, hb⟩ | ⟨ha, hb⟩ | ⟨ha, hb⟩
    · rw [hq.1 h, c0 h]
    · rw [hq.2.1 ha hb, ← c1 ha hb]
    · rw [hq.2.2.1 ha hb, ← c2 ha hb]
    · rw [hq.2.2.2.1 ha hb, ← c3 ha hb]
    · rw [hq.2.2.2.2.1 ha hb, ← c4 ha hb]
    · rw [hq.2.2.2.2.2.1 ha hb, ← c5 ha hb]
    · rw [hq.2.2.2.2.2.2.1 ha hb, ← c6 ha hb]
  by_cases h8 : M = 8
  · rw [if_pos h8] at hb
    exact hd _ hb (by omega) (by omega) (by omega) (by omega) (by omega) (by omega)
      (by omega) (by omega) (by omega)
  rw [if_neg h8] at hb
  by_cases h1 : M ≥ 65 ∧ M ≤ 71
  · rw [if_pos h1] at hb
    exact hd _ hb (by omega) (by omega) (by omega) (by omega) (by omega) (by omega)
      (by omega) (by omega) (by omega)
  rw [if_neg h1] at hb
  by_cases h2 : M ≥ 128 ∧ M ≤ 135
  · rw [if_pos h2] at hb
    exact hd _ hb (by omega) (by omega) (by omega) (by omega) (by omega) (by omega)
      (by omega) (by omega) (by omega)
  rw [if_neg h2] at hb
  by_cases h3 : M ≥ 144
  · rw [if_pos h3] at hb
    exact hd _ hb (by omega) (by omega) (by omega) (by omega) (by omega) (by omega)
      (by omega) (by omega) (by omega)
  rw [if_neg h3] at hb
  by_cases h4 : M ≥ 72 ∧ M < 128
  · rw [if_pos h4] at hb
    exact hd _ hb (by omega) (by omega) (by omega) (by omega) (by omega) (by omega)
      (by omega) (by omega) (by omega)
  rw [if_neg h4] at hb
  by_cases h5 : M ≥ 136 ∧ M < 144
  · rw [if_pos h5] at hb
    exact hd _ hb (by omega) (by omega) (by omega) (by omega) (by omega) (by omega)
      (by omega) (by omega) (by omega)
  rw [if_neg h5] at hb
  have h6 : M ≥ 12 ∧ M ≤ 64 := by omega
  rw [if_pos h6] at hb
  exact hd _ hb (by omega) (by omega) (by omega) (by omega) (by omega) (by omega)
    (by omega) (by omega) (by omega)

/-- C29: for every disk number `n` with `0 ≤ n < 3904`, `disknum_to_sd_major n` is a
major (not -1) from which `sd_major_to_disknum` with the minor `(n & 0x0f) << 4` gives
`n` back, so that distinct disk numbers get distinct pairs of major and minor; for
every `n ≥ 3904` the result is -1; conversely, for every major `M ≤ 254` that
`sd_major_to_disknum` knows (8, or 12 and above; for every other major it returns -1)
and every minor in 0..255, `disknum_to_sd_major (sd_major_to_disknum M minor) = M`. -/
theorem disknum_major_round_trip :
    (∀ n : Int, 0 ≤ n → n < 3904 →
      disknum_to_sd_major n ≠ -1 ∧
      sd_major_to_disknum (disknum_to_sd_major n) (int_shl (int_and n 0x0f) 4) = n) ∧
    (∀ n m : Int, 0 ≤ n → n < 3904 → 0 ≤ m → m < 3904 →
      disknum_to_sd_major n = disknum_to_sd_major m →
      int_shl (int_and n 0x0f) 4 = int_shl (int_and m 0x0f) 4 → n = m) ∧
    (∀ n : Int, 3904 ≤ n → disknum_to_sd_major n = -1) ∧
    (∀ M minor : Int, M = 8 ∨ 12 ≤ M → M ≤ 254 → 0 ≤ minor → minor ≤ 255 →
      sd_major_to_disknum M minor ≠ -1 ∧
      disknum_to_sd_major (sd_major_to_disknum M minor) = M) ∧
    (∀ M minor : Int, ¬ (M = 8 ∨ 12 ≤ M) → sd_major_to_disknum M minor = -1) := by
  refine ⟨?_, ?_, ?_, ?_, ?_⟩
  · intro n h0 h1
    rw [probe_minor_eq n h0 (by omega)]
    exact sd_major_to_disknum_of_disknum n h0 h1
  · intro n m hn0 hn1 hm0 hm1 hmaj hmin
    have h1 := (sd_major_to_disknum_of_disknum n hn0 hn1).2
    have h2 := (sd_major_to_disknum_of_disknum m hm0 hm1).2
    rw [probe_minor_eq n hn0 (by omega), probe_minor_eq m hm0 (by omega)] at hmin
    rw [hmaj, hmin, h2] at h1
    exact h1.symm
  · intro n h
    exact (disknum_to_sd_major_cases n (n / 16) rfl).2.2.2.2.2.2.2 (Or.inr (by omega))
  · intro M minor hM hM1 hm0 hm1
    exact disknum_of_sd_major M minor hM hM1 hm0 hm1
  · intro M minor hM
    simp only [sd_major_to_disknum, SCSI_DISK0_MAJOR, SCSI_DISK1_MAJOR, SCSI_DISK7_MAJOR]
    rw [if_neg (by omega), if_neg (by omega), if_neg (by omega), if_neg (by omega),
      if_neg (by omega), if_neg (by omega), if_neg (by omega)]

/-- Witness for C29: disk number 3903, the last one `disknum_to_sd_major` serves. -/
theorem disknum_major_round_trip_witness :
    disknum_to_sd_major 3903 ≠ -1 ∧
    sd_major_to_disknum (disknum_to_sd_major 3903) (int_shl (int_and 3903 0x0f) 4) = 3903 :=
  disknum_major_round_trip.1 3903 (by decide) (by decide)

/-! ## Default node of a disk (`findscsidisk`, `comparediskidlun`) -/

theorem to_u32_small (x : Int) (h0 : 0 ≤ x) (h1 : x < 4294967296) : to_u32 x = x.toNat := by
  unfold to_u32
  rw [Int.emod_eq_of_lt h0 h1]

/-- The minor `findscsidisk` sets by default: `(no << 4) & ~0x0f` is `no * 16`. -/
theorem default_minor_eq (n : Int) (h0 : 0 ≤ n) (h1 : n < 134217728) :
    int_and (int_shl n 4) (-16) = n * 16 := by
  have e1 : int_shl n 4 = n * 16 := by
    unfold int_shl
    rw [wrap32_id _ (by omega) (by omega)]
    norm_num
  have e2 : to_u32 (n * 16) = n.toNat * 16 := by
    rw [to_u32_small _ (by omega) (by omega)]
    omega
  have e3 : to_u32 (-16) = 4294967280 := by decide
  have e4 : n.toNat * 16 &&& 4294967280 = n.toNat * 16 := by
    have h32 := Nat.and_pow_two_sub_one_eq_mod (n.toNat * 16) 32
    have h4 := Nat.and_pow_two_sub_one_eq_mod (n.toNat * 16) 4
    norm_num at h32 h4
    have hor : (4294967280 ||| 15 : Nat) = 4294967295 := by decide
    have hd := Nat.and_or_distrib_left (n.toNat * 16) 4294967280 15
    rw [hor, h32, h4, Nat.or_zero] at hd
    rw [← hd]
    omega
  unfold int_and of_u32
  rw [e1, e2, e3, e4, if_pos (by omega)]
  omega

/-- C30 (code defect): the minor `findscsidisk` sets by default, `(no << 4) & ~0x0f`,
is `no * 16`, whereas `comparediskidlun` probes the minor `(no & 0x0f) << 4`, which
is `(no % 16) * 16`: the two agree for the disk numbers 0..15 only.  For disk number
16 without any device answering, `findscsidisk` leaves major 65 and minor 256, though
its first probe was for major 65 and minor 0, and `sd_major_to_disknum` maps the
node left to disk number 32. -/
theorem findscsidisk_default_minor :
    (∀ n : Int, 0 ≤ n → n < 134217728 →
      int_and (int_shl n 4) (-16) = n * 16 ∧ int_shl (int_and n 0x0f) 4 = n % 16 * 16 ∧
      (int_and (int_shl n 4) (-16) = int_shl (int_and n 0x0f) 4 ↔ n < 16)) ∧
    ((findscsidisk 32 no_devices ⟨fs_of [], [], false⟩ {} 16).1.major,
      (findscsidisk 32 no_devices ⟨fs_of [], [], false⟩ {} 16).1.minor) = (65, 256) ∧
    (mknod_calls (comparediskidlun no_devices ⟨fs_of [], [], false⟩ {} 16).2) =
      [syscall.mknod TESTDEV 0o60600 (makedev_small 65 0)] ∧
    (disknum_to_sd_major 16, int_shl (int_and 16 0x0f) 4) = (65, 0) ∧
    sd_major_to_disknum 65 256 = 32 ∧ sd_major_to_disknum 65 0 = 16 := by
  refine ⟨?_, by decide, by decide, by decide, by decide, by decide⟩
  intro n h0 h1
  have e1 := default_minor_eq n h0 h1
  have e2 := probe_minor_eq n h0 (by omega)
  refine ⟨e1, e2, ?_⟩
  rw [e1, e2]
  omega

/-! ## Removing stale nodes (`sanitize_sdev`) -/

/-- C21 (code defect): `sanitize_sdev` looks at every entry with `stat`, which
follows symbolic links, so its test `S_ISLNK` never holds.  In the example directory
the node of the registered disk is left as it is and the orphan block node is removed
and backed by a shadow record with its owner, group and mode (by none when
delete-without-backup is set); but an entry on which `stat` fails is never touched, so
the symbolic link whose target does not exist is not removed, the link to a regular
file is not removed, and the link to a block node is removed with a shadow record
that carries the permissions of the target. -/
theorem sanitize_sdev_keeps_dangling_link :
    (∀ (env : sys_env) (san_del : Int) (reglist : List sname) (w : world)
        (d_name : List Char),
      sanitize_known d_name reglist = Exec.ret false →
      sys_stat w.fs (DEVSCSI ++ "/".toList ++ d_name) = none →
      sanitize_entry env san_del reglist w d_name = Exec.ret w) ∧
    node_after (sanitize_sdev {} 0 [sda_entry] managed_dir ⟨managed_fs, [], false⟩) canon_path =
      some (some canon_node) ∧
    node_after (sanitize_sdev {} 0 [sda_entry] managed_dir ⟨managed_fs, [], false⟩)
      "/dev/scsi/sdh9-0c0i0l0".toList = some none ∧
    perm_after (sanitize_sdev {} 0 [sda_entry] managed_dir ⟨managed_fs, [], false⟩)
      "/dev/scsi/.shadow.sdh9-0c0i0l0".toList = some (0, 6, 0o640) ∧
    node_after (sanitize_sdev {} 1 [sda_entry] managed_dir ⟨managed_fs, [], false⟩)
      "/dev/scsi/sdh9-0c0i0l0".toList = some none ∧
    node_after (sanitize_sdev {} 1 [sda_entry] managed_dir ⟨managed_fs, [], false⟩)
      "/dev/scsi/.shadow.sdh9-0c0i0l0".toList = some none ∧
    sys_lstat managed_fs "/dev/scsi/stale".toList =
      some { st_mode := S_IFLNK ||| 0o777, st_uid := 0, st_gid := 0 } ∧
    sys_stat managed_fs "/dev/scsi/stale".toList = none ∧
    node_after (sanitize_sdev {} 0 [sda_entry] managed_dir ⟨managed_fs, [], false⟩)
      "/dev/scsi/stale".toList = some (some (fnode.symlink "/dev/gone".toList 0 0)) ∧
    node_after (sanitize_sdev {} 0 [sda_entry] managed_dir ⟨managed_fs, [], false⟩)
      "/dev/scsi/notes".toList = some (some (fnode.symlink "/dev/scsi.txt".toList 0 0)) ∧
    node_after (sanitize_sdev {} 0 [sda_entry] managed_dir ⟨managed_fs, [], false⟩)
      "/dev/scsi/cdrom".toList = some none ∧
    perm_after (sanitize_sdev {} 0 [sda_entry] managed_dir ⟨managed_fs, [], false⟩)
      "/dev/scsi/.shadow.cdrom".toList = some (1000, 0, 0o666) ∧
    trace_after (sanitize_sdev {} 1 [sda_entry] managed_dir ⟨managed_fs, [], false⟩) =
      some [syscall.unlink "/dev/scsi/sdh9-0c0i0l0".toList,
        syscall.unlink "/dev/scsi/cdrom".toList] := by
  refine ⟨?_, by decide⟩
  intro env san_del reglist w d_name hk hs
  simp only [sanitize_entry, hk, hs]
  split_ifs <;> rfl

/-! ## Entries by pointer -/

theorem reg_set_length (l : List sname) (p : Nat) (e : sname) :
    (reg_set l p e).length = l.length := by
  unfold reg_set
  split_ifs
  · exact List.length_set _ _ _
  · rfl

theorem reg_get_none (l : List sname) (p : Nat) (h : l.length ≤ p) : reg_get l p = none := by
  unfold reg_get
  rw [if_neg (by omega)]

theorem reg_get_lt (l : List sname) (p : Nat) (e : sname) (h : reg_get l p = some e) :
    p < l.length := by
  unfold reg_get at h
  split_ifs at h with hp
  exact hp

theorem reg_get_cons_self (l : List sname) (e : sname) : reg_get (e :: l) l.length = some e := by
  unfold reg_get
  simp

theorem reg_get_cons_lt (l : List sname) (e : sname) (p : Nat) (h : p < l.length) :
    reg_get (e :: l) p = reg_get l p := by
  unfold reg_get
  have h1 : p < (e :: l).length := by
    simp only [List.length_cons]
    omega
  rw [if_pos h1, if_pos h]
  have e1 : (e :: l).length - 1 - p = (l.length - 1 - p) + 1 := by
    simp only [List.length_cons]
    omega
  rw [e1, List.getElem?_cons_succ]

theorem reg_get_set_self (l : List sname) (p : Nat) (e : sname) (h : p < l.length) :
    reg_get (reg_set l p e) p = some e := by
  unfold reg_get reg_set
  rw [if_pos h, List.length_set, if_pos h, List.getElem?_set]
  rw [if_pos rfl, if_pos (by omega)]

theorem reg_get_set_other (l : List sname) (p q : Nat) (e : sname) (h : q ≠ p) :
    reg_get (reg_set l p e) q = reg_get l q := by
  by_cases hp : p < l.length
  · by_cases hq : q < l.length
    · simp only [reg_get, reg_set, if_pos hp, List.length_set, if_pos hq]
      rw [List.getElem?_set, if_neg (by omega)]
    · simp only [reg_get, reg_set, if_pos hp, List.length_set, if_neg hq]
  · simp only [reg_set, if_neg hp]

theorem reg_set_same (l : List sname) (p : Nat) (e : sname) (h : reg_get l p = some e) :
    reg_set l p e = l := by
  have hp := reg_get_lt l p e h
  unfold reg_get at h
  rw [if_pos hp] at h
  unfold reg_set
  rw [if_pos hp]
  apply List.ext_getElem?
  intro i
  rw [List.getElem?_set]
  split_ifs with h1 h2
  · rw [← h1, h]
  · omega
  · rfl

/-! ## Comparing entries (`sname_cmp`) -/

theorem safe_strcmp_eq_false (a b : Option (List Char)) : safe_strcmp a b = false ↔ a = b := by
  cases a <;> cases b <;> simp [safe_strcmp]

theorem ite_nz (c : Prop) [Decidable c] (k x : Int) (hk : k ≠ 0) :
    (if c then k else x) = 0 ↔ ¬ c ∧ x = 0 := by
  split_ifs with h
  · simp [hk, h]
  · simp [h]

/-- The comparison `sname_cmp` gives 0 exactly when the two entries agree on the
fields it reads. -/
theorem sname_cmp_eq_zero (a b : sname) :
    sname_cmp a b = 0 ↔
      a.hostid = b.hostid ∧ a.hostnum = b.hostnum ∧ a.hostname = b.hostname ∧
      a.chan = b.chan ∧ a.id = b.id ∧ a.lun = b.lun ∧ a.inq_devtp = b.inq_devtp ∧
      a.rmvbl = b.rmvbl ∧ a.manufacturer = b.manufacturer ∧ a.model = b.model ∧
      a.rev = b.rev ∧ a.serial = b.serial ∧ a.wwid = b.wwid ∧ a.hsv_os_id = b.hsv_os_id := by
  have s1 := safe_strcmp_eq_false a.hostname b.hostname
  have s2 := safe_strcmp_eq_false a.manufacturer b.manufacturer
  have s3 := safe_strcmp_eq_false a.model b.model
  have s4 := safe_strcmp_eq_false a.rev b.rev
  have s5 := safe_strcmp_eq_false a.serial b.serial
  unfold sname_cmp
  rw [ite_nz _ 1 _ (by decide), ite_nz _ 1 _ (by decide), ite_nz _ 2 _ (by decide),
    ite_nz _ 3 _ (by decide), ite_nz _ 4 _ (by decide), ite_nz _ 5 _ (by decide),
    ite_nz _ 6 _ (by decide), ite_nz _ 7 _ (by decide), ite_nz _ 8 _ (by decide),
    ite_nz _ 9 _ (by decide), ite_nz _ 10 _ (by decide), ite_nz _ 11 _ (by decide)]
  simp only [Bool.not_eq_true, s1, s2, s3, s4, s5, not_or, not_not, ne_eq, and_true,
    and_assoc]

theorem sname_cmp_ne_zero (a b : sname)
    (h : (b.hostnum, b.chan, b.id, b.lun) ≠ (a.hostnum, a.chan, a.id, a.lun)) :
    sname_cmp a b ≠ 0 := by
  intro h0
  have := (sname_cmp_eq_zero a b).mp h0
  apply h
  rw [this.2.1, this.2.2.2.1, this.2.2.2.2.1, this.2.2.2.2.2.1]

/-! ## Consistency check of the build functions -/

theorem bind_eq_ret {α β : Type} (x : Exec α) (f : α → Exec β) (b : β)
    (h : x.bind f = Exec.ret b) : ∃ a, x = Exec.ret a ∧ f a = Exec.ret b := by
  cases x with
  | ret a => exact ⟨a, rfl, h⟩
  | crash => simp [Exec.bind] at h
  | nofuel => simp [Exec.bind] at h

theorem bind_ret {α β : Type} (a : α) (f : α → Exec β) : (Exec.ret a).bind f = f a := rfl

/-- C22: `sname_cmp` gives 0 exactly when the two entries agree on host id, host
number, host name, channel, id, lun, peripheral type, removable flag, manufacturer,
model, revision, serial, wwid and OS-unit-id, so it gives a value other than 0 when
the host number, channel, id or lun that `getscsiinfo` read for the new entry differs
from that of the generic entry `g`.  Then each of `build_tape`, `build_os_tape`,
`build_cdrom`, `build_changer` and `build_disk` returns 1 with the registry it was
given, the new entry taken out again: nothing is designated by the pointer the new
entry had, `g` has no `related` link (and, after `build_disk`, the partition -1), and
when `g` had no `related` link before (and the partition -1), the registry is the
very list it was before the call. -/
theorem consistency_abort (G : globals) (S : system) (reglist : List sname) (w : world)
    (gp : Nat) (g : sname) (no : Int) (hg : reg_get reglist gp = some g) :
    (∀ a b : sname, sname_cmp a b = 0 ↔
      a.hostid = b.hostid ∧ a.hostnum = b.hostnum ∧ a.hostname = b.hostname ∧
      a.chan = b.chan ∧ a.id = b.id ∧ a.lun = b.lun ∧ a.inq_devtp = b.inq_devtp ∧
      a.rmvbl = b.rmvbl ∧ a.manufacturer = b.manufacturer ∧ a.model = b.model ∧
      a.rev = b.rev ∧ a.serial = b.serial ∧ a.wwid = b.wwid ∧ a.hsv_os_id = b.hsv_os_id) ∧
    (∀ h : sname, (h.hostnum, h.chan, h.id, h.lun) ≠ (g.hostnum, g.chan, g.id, g.lun) →
      sname_cmp g h ≠ 0) ∧
    (∀ r w1 d info,
      set_names G { sname_dup g gp with major := SCSI_TAPE_MAJOR, minor := no,
                                        devtp := devtype_t.ST } = Exec.ret r →
      create_node G S w r.2 = Exec.ret w1 → S.k_open w1 r.1 = some d →
      getscsiinfo G d r.2 1 = Exec.ret info →
      (info.2.hostnum, info.2.chan, info.2.id, info.2.lun) ≠
        (g.hostnum, g.chan, g.id, g.lun) →
      build_tape G S reglist w gp no =
        Exec.ret (1, reg_set reglist gp { g with related := none }, w1)) ∧
    (∀ r w1 d info,
      set_names G { sname_dup g gp with major := OSST_MAJOR, minor := no,
                                        devtp := devtype_t.OSST } = Exec.ret r →
      create_node G S w r.2 = Exec.ret w1 → S.k_open w1 r.1 = some d →
      getscsiinfo G d r.2 1 = Exec.ret info →
      (info.2.hostnum, info.2.chan, info.2.id, info.2.lun) ≠
        (g.hostnum, g.chan, g.id, g.lun) →
      build_os_tape G S reglist w gp no =
        Exec.ret (1, reg_set reglist gp { g with related := none }, w1)) ∧
    (∀ r w1 d info,
      set_names G { sname_dup g gp with major := SCSI_CDROM_MAJOR, minor := no,
                                        devtp := devtype_t.SR } = Exec.ret r →
      create_node G S w r.2 = Exec.ret w1 → S.k_open w1 r.1 = some d →
      getscsiinfo G d r.2 1 = Exec.ret info →
      (info.2.hostnum, info.2.chan, info.2.id, info.2.lun) ≠
        (g.hostnum, g.chan, g.id, g.lun) →
      build_cdrom G S reglist w gp no =
        Exec.ret (1, reg_set reglist gp { g with related := none }, w1)) ∧
    (∀ r w1 d info,
      set_names G { sname_dup g gp with major := SCSI_CHANGER_MAJOR, minor := no,
                                        devtp := devtype_t.SCH } = Exec.ret r →
      create_node G S w r.2 = Exec.ret w1 → S.k_open w1 r.1 = some d →
      getscsiinfo G d r.2 1 = Exec.ret info →
      (info.2.hostnum, info.2.chan, info.2.id, info.2.lun) ≠
        (g.hostnum, g.chan, g.id, g.lun) →
      build_changer G S reglist w gp no =
        Exec.ret (1, reg_set reglist gp { g with related := none }, w1)) ∧
    (∀ r w1 d info,
      set_names G { (findscsidisk G.full_scan S w (sname_dup g gp) no).1 with
                    devtp := devtype_t.SD } = Exec.ret r →
      create_node G S (findscsidisk G.full_scan S w (sname_dup g gp) no).2 r.2 =
        Exec.ret w1 →
      S.k_open w1 r.1 = some d → getscsiinfo G d r.2 1 = Exec.ret info →
      (info.2.hostnum, info.2.chan, info.2.id, info.2.lun) ≠
        (g.hostnum, g.chan, g.id, g.lun) →
      build_disk G S reglist w gp no =
        Exec.ret (1, reg_set reglist gp { g with partition := -1, related := none }, w1)) ∧
    (∀ g1 : sname, (reg_set reglist gp g1).length = reglist.length ∧
      reg_get (reg_set reglist gp g1) reglist.length = none ∧
      reg_get (reg_set reglist gp g1) gp = some g1 ∧
      ∀ q, q ≠ gp → reg_get (reg_set reglist gp g1) q = reg_get reglist q) ∧
    (g.related = none → reg_set reglist gp { g with related := none } = reglist) ∧
    (g.related = none → g.partition = -1 →
      reg_set reglist gp { g with partition := -1, related := none } = reglist) := by
  have hcmp : ∀ h : sname, (h.hostnum, h.chan, h.id, h.lun) ≠
      (g.hostnum, g.chan, g.id, g.lun) → sname_cmp g h ≠ 0 :=
    fun h hd => sname_cmp_ne_zero g h hd
  refine ⟨sname_cmp_eq_zero, hcmp, ?_, ?_, ?_, ?_, ?_, ?_, ?_, ?_⟩
  · intro r w1 d info hn hc ho hi hd
    simp only [build_tape, hg, hn, bind_ret, hc, ho, hi, hcmp info.2 hd, ne_eq,
      not_false_eq_true, if_true, build_give_up]
  · intro r w1 d info hn hc ho hi hd
    simp only [build_os_tape, hg, hn, bind_ret, hc, ho, hi, hcmp info.2 hd, ne_eq,
      not_false_eq_true, if_true, build_give_up]
  · intro r w1 d info hn hc ho hi hd
    simp only [build_cdrom, hg, hn, bind_ret, hc, ho, hi, hcmp info.2 hd, ne_eq,
      not_false_eq_true, if_true, build_give_up]
  · intro r w1 d info hn hc ho hi hd
    simp only [build_changer, hg, hn, bind_ret, hc, ho, hi, hcmp info.2 hd, ne_eq,
      not_false_eq_true, if_true, build_give_up]
  · intro r w1 d info hn hc ho hi hd
    have hc2 : sname_cmp { g with partition := -1, related := some reglist.length } info.2 ≠ 0 :=
      hcmp info.2 hd
    simp only [build_disk, hg, hn, bind_ret, hc, ho, hi, hc2, ne_eq,
      not_false_eq_true, if_true, build_give_up]
  · intro g1
    have hp := reg_get_lt reglist gp g hg
    refine ⟨reg_set_length _ _ _, reg_get_none _ _ (by rw [reg_set_length]),
      reg_get_set_self _ _ _ hp, fun q hq => reg_get_set_other _ _ _ _ hq⟩
  · intro hr
    have e : ({ g with related := none } : sname) = g := by
      cases g
      simp only [sname.mk.injEq] at hr ⊢
      simp_all
    rw [e]
    exact reg_set_same reglist gp g hg
  · intro hr hpt
    have e : ({ g with partition := -1, related := none } : sname) = g := by
      cases g
      simp only [sname.mk.injEq] at hr hpt ⊢
      simp_all
    rw [e]
    exact reg_set_same reglist gp g hg

set_option maxRecDepth 100000 in
/-- Witness for C22: the generic entry `sg_entry` has lun 0 and the device behind the
new node reports lun 1; `build_cdrom` returns 1 and the registry is the list it was
before, and so do the other four build functions. -/
theorem consistency_abort_witness :
    (∃ w1, build_cdrom {} (one_device dev_lun1) [sg_entry] ⟨fs_of [], [], false⟩ 0 0 =
      Exec.ret (1, reg_set [sg_entry] 0 { sg_entry with related := none }, w1)) ∧
    reg_set [sg_entry] 0 { sg_entry with related := none } = [sg_entry] ∧
    built_registry (build_cdrom {} (one_device dev_lun1) [sg_entry] ⟨fs_of [], [], false⟩ 0 0) =
      some [sg_entry] ∧
    built_status (build_changer {} (one_device dev_lun1) [sg_entry] ⟨fs_of [], [], false⟩ 0 0) =
      some 1 ∧
    built_registry (build_changer {} (one_device dev_lun1) [sg_entry] ⟨fs_of [], [], false⟩ 0 0) =
      some [sg_entry] ∧
    built_status (build_tape {} (one_device dev_lun1) [sg_entry] ⟨fs_of [], [], false⟩ 0 0) =
      some 1 ∧
    built_registry (build_tape {} (one_device dev_lun1) [sg_entry] ⟨fs_of [], [], false⟩ 0 0) =
      some [sg_entry] ∧
    built_status (build_os_tape {} (one_device dev_lun1) [sg_entry] ⟨fs_of [], [], false⟩ 0 0) =
      some 1 ∧
    built_registry (build_os_tape {} (one_device dev_lun1) [sg_entry] ⟨fs_of [], [], false⟩ 0 0) =
      some [sg_entry] ∧
    built_status (build_disk {} (one_device dev_lun1) [sg_entry] ⟨fs_of [], [], false⟩ 0 0) =
      some 1 ∧
    built_registry (build_disk {} (one_device dev_lun1) [sg_entry] ⟨fs_of [], [], false⟩ 0 0) =
      some [sg_entry] :=
  ⟨⟨_, (consistency_abort {} (one_device dev_lun1) [sg_entry] ⟨fs_of [], [], false⟩ 0 sg_entry 0
      (by decide)).2.2.2.2.1 _ _ dev_lun1 _ rfl rfl rfl rfl (by decide)⟩,
    by decide, by decide, by decide, by decide, by decide, by decide, by decide, by decide,
    by decide, by decide⟩

/-! ## The `related` links of the build functions -/

theorem getidlun_related (d : scsi_dev) (s : sname) (i : Int) :
    (getidlun d s i).2.related = s.related := by
  unfold getidlun
  cases d.idlun with
  | none => rfl
  | some x =>
    obtain ⟨id0, id1⟩ := x
    simp only
    split_ifs <;> rfl

theorem getscsihostname_related (d : scsi_dev) (s : sname) :
    (getscsihostname d s).2.related = s.related := by
  unfold getscsihostname
  cases d.probe_host <;> rfl

theorem get_hsv_os_id_related (d : scsi_dev) (s : sname) :
    (get_hsv_os_id d s).related = s.related := by
  unfold get_hsv_os_id
  cases s.model with
  | none => rfl
  | some m =>
    simp only
    split_ifs
    · rfl
    · cases d.hsv <;> rfl

theorem inquiry_related (verbose : Int) (d : scsi_dev) (s : sname) (r : Int × sname)
    (h : inquiry verbose d s = Exec.ret r) : r.2.related = s.related := by
  unfold inquiry at h
  cases hstd : d.inq_std with
  | none =>
    simp only [hstd, Exec.ret.injEq] at h
    rw [← h]
  | some pg =>
    simp only [hstd] at h
    obtain ⟨mf, _, h⟩ := bind_eq_ret _ _ _ h
    obtain ⟨md, _, h⟩ := bind_eq_ret _ _ _ h
    obtain ⟨rv, _, h⟩ := bind_eq_ret _ _ _ h
    generalize (if byte_at pg 2 &&& 7 ≥ 3 then (0 : Int) else s.lun) = lun at h
    cases hsup : d.inq_vpd lun 0 with
    | none =>
      simp only [hsup, Exec.ret.injEq] at h
      rw [← h]
    | some sup =>
      simp only [hsup] at h
      obtain ⟨ser, _, h⟩ := bind_eq_ret _ _ _ h
      by_cases hw : ((List.range (byte_at sup 3)).any
          fun off => byte_at sup (4 + off) == 131) = true
      · rw [if_pos hw] at h
        cases h83 : d.inq_vpd lun 131 with
        | none =>
          simp only [h83, Exec.ret.injEq] at h
          rw [← h]
        | some p =>
          simp only [h83] at h
          obtain ⟨v, _, h⟩ := bind_eq_ret _ _ _ h
          simp only [Exec.ret.injEq] at h
          rw [← h]
      · rw [if_neg hw] at h
        simp only [Exec.ret.injEq] at h
        rw [← h]

theorem set_names_related (G : globals) (s : sname) (r : List Char × sname)
    (h : set_names G s = Exec.ret r) : r.2.related = s.related := by
  unfold set_names at h
  obtain ⟨name, _, h⟩ := bind_eq_ret _ _ _ h
  obtain ⟨oldname, _, h⟩ := bind_eq_ret _ _ _ h
  simp only [Exec.ret.injEq] at h
  rw [← h]

theorem getscsiinfo_related (G : globals) (d : scsi_dev) (s : sname) (i : Int)
    (r : Int × sname) (h : getscsiinfo G d s i = Exec.ret r) : r.2.related = s.related := by
  unfold getscsiinfo at h
  by_cases h1 : (getidlun d s i).1 ≠ 0
  · rw [if_pos h1] at h
    simp only [Exec.ret.injEq] at h
    rw [← h, getidlun_related]
  · rw [if_neg h1] at h
    by_cases h2 : (getscsihostname d (getidlun d s i).2).1 < 0
    · rw [if_pos h2] at h
      simp only [Exec.ret.injEq] at h
      rw [← h, getscsihostname_related, getidlun_related]
    · rw [if_neg h2] at h
      obtain ⟨r3, hinq, h⟩ := bind_eq_ret _ _ _ h
      have e3 := inquiry_related _ _ _ _ hinq
      rw [getscsihostname_related, getidlun_related] at e3
      obtain ⟨name, _, h⟩ := bind_eq_ret _ _ _ h
      by_cases h3 : i ≠ 0
      · rw [if_pos h3] at h
        obtain ⟨oldname, _, h⟩ := bind_eq_ret _ _ _ h
        simp only [Exec.ret.injEq] at h
        rw [← h]
        simp only [get_hsv_os_id_related, e3]
      · rw [if_neg h3] at h
        simp only [Exec.ret.injEq] at h
        rw [← h]
        simp only [get_hsv_os_id_related, e3]

/-- The statements that make the no-rewind entry: when they return, the value is 0
and the new entry, put in front of the entry `h` it was copied from, has its
`related` link set to `h`. -/
theorem build_norewind_related (G : globals) (S : system) (b : Bool) (h : sname)
    (reglist : List sname) (w : world) (res : Int × List sname × world)
    (hr : build_norewind G S b h reglist w = Exec.ret res) :
    res.1 = 0 ∧ ∃ n, res.2.1 = n :: h :: reglist ∧ n.related = some reglist.length := by
  unfold build_norewind at hr
  obtain ⟨spnt2, h2, hr⟩ := bind_eq_ret _ _ _ hr
  obtain ⟨w1, _, hr⟩ := bind_eq_ret _ _ _ hr
  simp only [Exec.ret.injEq] at hr
  rw [← hr]
  refine ⟨rfl, spnt2, rfl, ?_⟩
  cases b with
  | true =>
    simp only [if_true] at h2
    obtain ⟨r, hn, h2⟩ := bind_eq_ret _ _ _ h2
    simp only [Exec.ret.injEq] at h2
    rw [← h2, set_names_related G _ r hn]
    rfl
  | false =>
    simp only [Bool.false_eq_true, if_false] at h2
    obtain ⟨name, _, h2⟩ := bind_eq_ret _ _ _ h2
    simp only [Exec.ret.injEq] at h2
    rw [← h2]
    rfl

/-- The partition scan: every entry it puts in front of the registry has its
`related` link set to the entry of the whole disk. -/
theorem build_disk_parts_related (G : globals) (S : system) (h : sname) (hp : Nat) :
    ∀ (fuel : Nat) (minor : Int) (reglist : List sname) (w : world)
      (res : List sname × world),
      build_disk_parts G S h hp fuel minor reglist w = Exec.ret res →
      ∃ parts, res.1 = parts ++ reglist ∧ ∀ e ∈ parts, e.related = some hp := by
  intro fuel
  induction fuel with
  | zero =>
    intro minor reglist w res hr
    unfold build_disk_parts at hr
    by_cases hz : int_mod minor 16 ≠ 0
    · rw [if_pos hz] at hr
      cases hr
    · rw [if_neg hz] at hr
      simp only [Exec.ret.injEq] at hr
      rw [← hr]
      exact ⟨[], rfl, fun e he => by cases he⟩
  | succ f ih =>
    intro minor reglist w res hr
    unfold build_disk_parts at hr
    by_cases hz : int_mod minor 16 ≠ 0
    · rw [if_neg (not_not.mpr hz)] at hr
      cases hfd : S.k_open (sys_mknod S.env
          (if (sys_stat w.fs TESTDEV).isSome then (sys_unlink w TESTDEV).2 else w)
          TESTDEV (0o600 ||| S_IFBLK) (S.makedev h.major minor)).2 TESTDEV with
      | none =>
        simp only [hfd] at hr
        exact ih _ _ _ _ hr
      | some dv =>
        simp only [hfd] at hr
        obtain ⟨r, hn, hr⟩ := bind_eq_ret _ _ _ hr
        obtain ⟨w4, _, hr⟩ := bind_eq_ret _ _ _ hr
        obtain ⟨parts, hp1, hp2⟩ := ih _ _ _ _ hr
        refine ⟨parts ++ [r.2], ?_, ?_⟩
        · rw [hp1]
          simp
        · intro e he
          rcases List.mem_append.mp he with he | he
          · exact hp2 e he
          · rw [List.mem_singleton.mp he, set_names_related G _ r hn]
            rfl
    · rw [if_pos hz] at hr
      simp only [Exec.ret.injEq] at hr
      rw [← hr]
      exact ⟨[], rfl, fun e he => by cases he⟩

theorem set_names_slot (G : globals) (s : sname) (r : List Char × sname)
    (h : set_names G s = Exec.ret r) :
    r.2.devtp = s.devtp ∧ r.2.minor = s.minor ∧ r.2.partition = s.partition := by
  unfold set_names at h
  obtain ⟨name, _, h⟩ := bind_eq_ret _ _ _ h
  obtain ⟨oldname, _, h⟩ := bind_eq_ret _ _ _ h
  simp only [Exec.ret.injEq] at h
  rw [← h]
  exact ⟨rfl, rfl, rfl⟩

theorem partition_of_minor (minor : Int) (h0 : 0 ≤ minor) (h1 : minor < 4294967296)
    (hz : int_mod minor 16 ≠ 0) :
    to_schar (int_mod minor 16) = int_and minor 0x0f ∧ 0 < int_and minor 0x0f := by
  have e1 : int_mod minor 16 = minor % 16 := by
    unfold int_mod
    exact Int.tmod_eq_emod h0 (by decide)
  rw [e1] at hz
  rw [e1, int_and_15 minor h0 h1]
  unfold to_schar
  rw [if_pos (by omega)]
  omega

/-- The partition entries `build_disk` registers: each is a disk entry whose partition
field is the low nibble of its minor, which is not 0. -/
theorem build_disk_parts_partition (G : globals) (S : system) (h : sname) (hp : Nat)
    (hsd : h.devtp = devtype_t.SD) :
    ∀ (fuel : Nat) (minor : Int) (reglist : List sname) (w : world)
      (res : List sname × world), 0 ≤ minor → minor ≤ 4294967296 →
      build_disk_parts G S h hp fuel minor reglist w = Exec.ret res →
      ∃ parts, res.1 = parts ++ reglist ∧
        ∀ e ∈ parts, e.devtp = devtype_t.SD ∧ 0 < e.partition ∧
          e.partition = int_and e.minor 0x0f := by
  intro fuel
  induction fuel with
  | zero =>
    intro minor reglist w res _ _ hr
    unfold build_disk_parts at hr
    by_cases hz : int_mod minor 16 ≠ 0
    · rw [if_pos hz] at hr
      cases hr
    · rw [if_neg hz] at hr
      simp only [Exec.ret.injEq] at hr
      rw [← hr]
      exact ⟨[], rfl, fun e he => by cases he⟩
  | succ f ih =>
    intro minor reglist w res h0 h1 hr
    unfold build_disk_parts at hr
    by_cases hz : int_mod minor 16 ≠ 0
    · rw [if_neg (not_not.mpr hz)] at hr
      have hlt : minor < 4294967296 := by
        have e1 : int_mod minor 16 = minor % 16 := by
          unfold int_mod
          exact Int.tmod_eq_emod h0 (by decide)
        rw [e1] at hz
        omega
      cases hfd : S.k_open (sys_mknod S.env
          (if (sys_stat w.fs TESTDEV).isSome then (sys_unlink w TESTDEV).2 else w)
          TESTDEV (0o600 ||| S_IFBLK) (S.makedev h.major minor)).2 TESTDEV with
      | none =>
        simp only [hfd] at hr
        exact ih _ _ _ _ (by omega) (by omega) hr
      | some dv =>
        simp only [hfd] at hr
        obtain ⟨r, hn, hr⟩ := bind_eq_ret _ _ _ hr
        obtain ⟨w4, _, hr⟩ := bind_eq_ret _ _ _ hr
        obtain ⟨parts, hp1, hp2⟩ := ih _ _ _ _ (by omega) (by omega) hr
        refine ⟨parts ++ [r.2], ?_, ?_⟩
        · rw [hp1]
          simp
        · intro e he
          rcases List.mem_append.mp he with he | he
          · exact hp2 e he
          · obtain ⟨s1, s2, s3⟩ := set_names_slot G _ r hn
            obtain ⟨p1, p2⟩ := partition_of_minor minor h0 hlt hz
            rw [List.mem_singleton.mp he, s1, s2, s3]
            exact ⟨hsd, (show (0 : Int) < to_schar (int_mod minor 16) from p1 ▸ p2), p1⟩
    · rw [if_pos hz] at hr
      simp only [Exec.ret.injEq] at hr
      rw [← hr]
      exact ⟨[], rfl, fun e he => by cases he⟩

/-! ## The build functions never run out of fuel -/

theorem bind_fuel {α β : Type} (x : Exec α) (f : α → Exec β) (hx : x ≠ Exec.nofuel)
    (hf : ∀ a, f a ≠ Exec.nofuel) : x.bind f ≠ Exec.nofuel := by
  cases x with
  | ret a => exact hf a
  | crash => intro h; cases h
  | nofuel => exact absurd rfl hx

theorem mk_shadow_nm_fuel (nm : List Char) : mk_shadow_nm nm ≠ Exec.nofuel := by
  unfold mk_shadow_nm
  split
  · intro h; cases h
  · split <;> (intro h; cases h)

theorem backup_shadow_fuel (env : sys_env) (w : world) (nm : List Char) (st : stat_t) :
    backup_shadow env w nm st ≠ Exec.nofuel := by
  unfold backup_shadow
  cases hm : mk_shadow_nm nm with
  | nofuel => exact absurd hm (mk_shadow_nm_fuel nm)
  | crash => intro h; cases h
  | ret shadow =>
    dsimp only
    split
    · split <;> (intro h; cases h)
    · intro h; cases h

theorem rm_shadow_fuel (w : world) (nm : List Char) : rm_shadow w nm ≠ Exec.nofuel := by
  unfold rm_shadow
  cases hm : mk_shadow_nm nm with
  | nofuel => exact absurd hm (mk_shadow_nm_fuel nm)
  | crash => intro h; cases h
  | ret shadow =>
    dsimp only
    repeat' split
    all_goals (intro h; cases h)

theorem get_perm_fuel (filemode : Nat) (fs : filesys) (nm : List Char)
    (linkto : Option (List Char)) (stbuf : stat_t) (cdrom : Bool) :
    get_perm filemode fs nm linkto stbuf cdrom ≠ Exec.nofuel := by
  unfold get_perm
  cases hm : mk_shadow_nm nm with
  | nofuel => exact absurd hm (mk_shadow_nm_fuel nm)
  | crash =>
    dsimp only
    repeat' split
    all_goals (intro h; cases h)
  | ret shadow =>
    dsimp only
    repeat' split
    all_goals (intro h; cases h)

theorem update_device_fuel (env : sys_env) (makedev : Int → Int → Nat) (filemode : Nat)
    (w : world) (linkto : Option (List Char)) (path : List Char) (fmode : Nat)
    (major minor : Int) :
    update_device env makedev filemode w linkto path fmode major minor ≠ Exec.nofuel := by
  unfold update_device
  cases hg : get_perm filemode w.fs path linkto {} (major = SCSI_CDROM_MAJOR) with
  | nofuel => exact absurd hg (get_perm_fuel _ _ _ _ _ _)
  | crash => intro h; cases h
  | ret st =>
    dsimp only
    repeat' split
    all_goals first | exact rm_shadow_fuel _ _ | (intro h; cases h)

theorem create_symlink_fuel (env : sys_env) (makedev : Int → Int → Nat) (filemode : Nat)
    (override_link_perm : Int) (w : world) (linkto nm : List Char) (fmode : Nat)
    (major minor : Int) :
    create_symlink env makedev filemode override_link_perm w linkto nm fmode major minor ≠
      Exec.nofuel := by
  unfold create_symlink
  cases hg : get_perm filemode w.fs nm (some linkto) {} (major = SCSI_CDROM_MAJOR) with
  | nofuel => exact absurd hg (get_perm_fuel _ _ _ _ _ _)
  | crash => intro h; cases h
  | ret st =>
    dsimp only
    repeat' split
    all_goals first | exact backup_shadow_fuel _ _ _ _ | (intro h; cases h)

theorem create_node_fuel (G : globals) (S : system) (w : world) (spnt : sname) :
    create_node G S w spnt ≠ Exec.nofuel := by
  unfold create_node create_dev
  dsimp only
  split
  · split
    · exact create_symlink_fuel _ _ _ _ _ _ _ _ _ _
    · exact update_device_fuel _ _ _ _ _ _ _ _ _
  · intro h; cases h

theorem scsiname_fuel (nm_cbtu : Int) (spnt : sname) :
    scsiname nm_cbtu spnt ≠ Exec.nofuel := by
  unfold scsiname
  split <;> (intro h; cases h)

theorem oldscsiname_fuel (use_scd : Int) (spnt : sname) :
    oldscsiname use_scd spnt ≠ Exec.nofuel := by
  unfold oldscsiname
  repeat' split
  all_goals (intro h; cases h)

theorem set_names_fuel (G : globals) (spnt : sname) : set_names G spnt ≠ Exec.nofuel := by
  unfold set_names
  refine bind_fuel _ _ (scsiname_fuel _ _) (fun name => ?_)
  refine bind_fuel _ _ (oldscsiname_fuel _ _) (fun oldname => ?_)
  intro h; cases h

theorem int_mod_eq_zero (a : Int) : int_mod a 16 = 0 ↔ (-a) % 16 = 0 := by
  unfold int_mod
  cases a with
  | ofNat n =>
    have e : Int.tmod (Int.ofNat n) 16 = ((n % 16 : Nat) : Int) := rfl
    rw [e, Int.ofNat_eq_coe]
    omega
  | negSucc n =>
    have e : Int.tmod (Int.negSucc n) 16 = -(((n + 1) % 16 : Nat) : Int) := rfl
    rw [e, Int.negSucc_eq]
    omega

/-- The partition scan ends within the fuel it is given: it stops at the next minor
that is a multiple of 16, at most 15 steps away. -/
theorem build_disk_parts_total (G : globals) (S : system) (h : sname) (hp : Nat) :
    ∀ (fuel : Nat) (minor : Int) (reglist : List sname) (w : world),
      ((-minor) % 16).toNat ≤ fuel →
      build_disk_parts G S h hp fuel minor reglist w ≠ Exec.nofuel := by
  intro fuel
  induction fuel with
  | zero =>
    intro minor reglist w hf
    unfold build_disk_parts
    have hz : ¬ (int_mod minor 16 ≠ 0) := by
      rw [not_not, int_mod_eq_zero]
      omega
    rw [if_neg hz]
    intro hx; cases hx
  | succ f ih =>
    intro minor reglist w hf
    unfold build_disk_parts
    by_cases hz : int_mod minor 16 ≠ 0
    · rw [if_neg (not_not.mpr hz)]
      have hnext : ((-(minor + 1)) % 16).toNat ≤ f := by
        have := (int_mod_eq_zero minor).not.mp hz
        omega
      dsimp only
      split
      · exact ih _ _ _ hnext
      · refine bind_fuel _ _ (set_names_fuel _ _) (fun r => ?_)
        exact bind_fuel _ _ (create_node_fuel _ _ _ _) (fun w4 => ih _ _ _ hnext)
    · rw [if_pos hz]
      intro hx; cases hx

/-! ## The `related` links after a build function -/

theorem comparediskidlun_related (S : system) (w : world) (spnt : sname) (no : Int) :
    (comparediskidlun S w spnt no).1.2.related = spnt.related := by
  unfold comparediskidlun
  dsimp only
  split
  · rfl
  · split
    · rfl
    · split <;> rfl

theorem findscsidisk_loop_related (S : system) (no : Int) :
    ∀ (l : List Int) (spnt : sname) (w : world),
      (findscsidisk_loop S no l spnt w).1.related = spnt.related := by
  intro l
  induction l with
  | nil => intro spnt w; rfl
  | cons i rest ih =>
    intro spnt w
    unfold findscsidisk_loop
    have hd : (if no - i ≥ 0 then comparediskidlun S w spnt (no - i)
        else ((false, spnt), w)).1.2.related = spnt.related := by
      split
      · exact comparediskidlun_related _ _ _ _
      · rfl
    dsimp only
    generalize (if no - i ≥ 0 then comparediskidlun S w spnt (no - i)
      else ((false, spnt), w)) = down at hd ⊢
    by_cases h1 : down.1.1 = true
    · rw [if_pos h1]
      exact hd
    · rw [if_neg h1]
      by_cases h2 : (comparediskidlun S down.2 down.1.2 (no + i)).1.1 = true
      · rw [if_pos h2, comparediskidlun_related, hd]
      · rw [if_neg h2, ih, comparediskidlun_related, hd]

theorem findscsidisk_related (full_scan : Int) (S : system) (w : world) (spnt : sname)
    (no : Int) : (findscsidisk full_scan S w spnt no).1.related = spnt.related := by
  unfold findscsidisk
  dsimp only
  split
  · rw [comparediskidlun_related]
  · rw [findscsidisk_loop_related, comparediskidlun_related]

theorem give_up_ne_success (reglist : List sname) (w : world) (gp : Nat) (g : sname)
    (reg1 : List sname) (w1 : world) :
    build_give_up reglist w gp g ≠ Exec.ret (0, reg1, w1) := by
  intro h
  have h1 := congrArg built_status h
  simp [built_status, build_give_up] at h1

/-- A successful `build_cdrom` puts one entry in front of the registry, whose `related`
link designates the generic entry. -/
theorem build_cdrom_related (G : globals) (S : system) (reglist : List sname) (w : world)
    (gp : Nat) (g : sname) (no : Int) (reg1 : List sname) (w1 : world)
    (hg : reg_get reglist gp = some g)
    (hr : build_cdrom G S reglist w gp no = Exec.ret (0, reg1, w1)) :
    ∃ h, reg1 = h :: reglist ∧ h.related = some gp := by
  unfold build_cdrom at hr
  simp only [hg] at hr
  obtain ⟨r, hn, hr⟩ := bind_eq_ret _ _ _ hr
  obtain ⟨w2, _, hr⟩ := bind_eq_ret _ _ _ hr
  have er : r.2.related = some gp := by
    rw [set_names_related G _ r hn]
    rfl
  cases hfd : S.k_open w2 r.1 with
  | none =>
    simp only [hfd] at hr
    by_cases hc : r.2.rmvbl ≠ 0 ∧ G.supp_rmvbl ≠ 0
    · rw [if_pos hc] at hr
      simp only [Exec.ret.injEq, Prod.mk.injEq, true_and] at hr
      exact ⟨_, hr.1.symm, er⟩
    · rw [if_neg hc] at hr
      exact absurd hr (give_up_ne_success _ _ _ _ _ _)
  | some d =>
    simp only [hfd] at hr
    obtain ⟨info, hi, hr⟩ := bind_eq_ret _ _ _ hr
    by_cases hc : sname_cmp g info.2 ≠ 0
    · rw [if_pos hc] at hr
      exact absurd hr (give_up_ne_success _ _ _ _ _ _)
    · rw [if_neg hc] at hr
      simp only [Exec.ret.injEq, Prod.mk.injEq, true_and] at hr
      exact ⟨_, hr.1.symm, by rw [getscsiinfo_related G d _ _ info hi, er]⟩

/-- A successful `build_changer` puts one entry in front of the registry, whose
`related` link designates the generic entry. -/
theorem build_changer_related (G : globals) (S : system) (reglist : List sname) (w : world)
    (gp : Nat) (g : sname) (no : Int) (reg1 : List sname) (w1 : world)
    (hg : reg_get reglist gp = some g)
    (hr : build_changer G S reglist w gp no = Exec.ret (0, reg1, w1)) :
    ∃ h, reg1 = h :: reglist ∧ h.related = some gp := by
  unfold build_changer at hr
  simp only [hg] at hr
  obtain ⟨r, hn, hr⟩ := bind_eq_ret _ _ _ hr
  obtain ⟨w2, _, hr⟩ := bind_eq_ret _ _ _ hr
  have er : r.2.related = some gp := by
    rw [set_names_related G _ r hn]
    rfl
  cases hfd : S.k_open w2 r.1 with
  | none =>
    simp only [hfd] at hr
    by_cases hc : r.2.rmvbl ≠ 0 ∧ G.supp_rmvbl ≠ 0
    · rw [if_pos hc] at hr
      simp only [Exec.ret.injEq, Prod.mk.injEq, true_and] at hr
      exact ⟨_, hr.1.symm, er⟩
    · rw [if_neg hc] at hr
      exact absurd hr (give_up_ne_success _ _ _ _ _ _)
  | some d =>
    simp only [hfd] at hr
    obtain ⟨info, hi, hr⟩ := bind_eq_ret _ _ _ hr
    by_cases hc : sname_cmp g info.2 ≠ 0
    · rw [if_pos hc] at hr
      exact absurd hr (give_up_ne_success _ _ _ _ _ _)
    · rw [if_neg hc] at hr
      simp only [Exec.ret.injEq, Prod.mk.injEq, true_and] at hr
      exact ⟨_, hr.1.symm, by rw [getscsiinfo_related G d _ _ info hi, er]⟩

/-- A successful `build_tape` puts two entries in front of the registry: the tape,
whose `related` link designates the generic entry, and before it the no-rewind
entry, whose `related` link designates the tape. -/
theorem build_tape_related (G : globals) (S : system) (reglist : List sname) (w : world)
    (gp : Nat) (g : sname) (no : Int) (reg1 : List sname) (w1 : world)
    (hg : reg_get reglist gp = some g)
    (hr : build_tape G S reglist w gp no = Exec.ret (0, reg1, w1)) :
    ∃ h n, reg1 = n :: h :: reglist ∧ h.related = some gp ∧
      n.related = some reglist.length := by
  unfold build_tape at hr
  simp only [hg] at hr
  obtain ⟨r, hn, hr⟩ := bind_eq_ret _ _ _ hr
  obtain ⟨w2, _, hr⟩ := bind_eq_ret _ _ _ hr
  have er : r.2.related = some gp := by
    rw [set_names_related G _ r hn]
    rfl
  cases hfd : S.k_open w2 r.1 with
  | none =>
    simp only [hfd] at hr
    exact absurd hr (give_up_ne_success _ _ _ _ _ _)
  | some d =>
    simp only [hfd] at hr
    obtain ⟨info, hi, hr⟩ := bind_eq_ret _ _ _ hr
    by_cases hc : sname_cmp g info.2 ≠ 0
    · rw [if_pos hc] at hr
      exact absurd hr (give_up_ne_success _ _ _ _ _ _)
    · rw [if_neg hc] at hr
      obtain ⟨_, n, h1, h2⟩ := build_norewind_related _ _ _ _ _ _ _ hr
      exact ⟨info.2, n, h1, by rw [getscsiinfo_related G d _ _ info hi, er], h2⟩

/-- A successful `build_os_tape` puts two entries in front of the registry: the tape,
whose `related` link designates the generic entry, and before it the no-rewind
entry, whose `related` link designates the tape. -/
theorem build_os_tape_related (G : globals) (S : system) (reglist : List sname) (w : world)
    (gp : Nat) (g : sname) (no : Int) (reg1 : List sname) (w1 : world)
    (hg : reg_get reglist gp = some g)
    (hr : build_os_tape G S reglist w gp no = Exec.ret (0, reg1, w1)) :
    ∃ h n, reg1 = n :: h :: reglist ∧ h.related = some gp ∧
      n.related = some reglist.length := by
  unfold build_os_tape at hr
  simp only [hg] at hr
  obtain ⟨r, hn, hr⟩ := bind_eq_ret _ _ _ hr
  obtain ⟨w2, _, hr⟩ := bind_eq_ret _ _ _ hr
  have er : r.2.related = some gp := by
    rw [set_names_related G _ r hn]
    rfl
  cases hfd : S.k_open w2 r.1 with
  | none =>
    simp only [hfd] at hr
    by_cases hc : G.supp_rmvbl ≠ 0
    · rw [if_pos hc] at hr
      obtain ⟨_, n, h1, h2⟩ := build_norewind_related _ _ _ _ _ _ _ hr
      exact ⟨_, n, h1, er, h2⟩
    · rw [if_neg hc] at hr
      exact absurd hr (give_up_ne_success _ _ _ _ _ _)
  | some d =>
    simp only [hfd] at hr
    obtain ⟨info, hi, hr⟩ := bind_eq_ret _ _ _ hr
    by_cases hc : sname_cmp g info.2 ≠ 0
    · rw [if_pos hc] at hr
      exact absurd hr (give_up_ne_success _ _ _ _ _ _)
    · rw [if_neg hc] at hr
      obtain ⟨_, n, h1, h2⟩ := build_norewind_related _ _ _ _ _ _ _ hr
      exact ⟨info.2, n, h1, by rw [getscsiinfo_related G d _ _ info hi, er], h2⟩

/-- A successful `build_disk` stores the pointer to the disk in the generic entry and
puts in front of the registry the disk, whose `related` link designates the generic
entry, and before it the partitions found, whose `related` links designate the
disk. -/
theorem build_disk_related (G : globals) (S : system) (reglist : List sname) (w : world)
    (gp : Nat) (g : sname) (no : Int) (reg1 : List sname) (w1 : world)
    (hg : reg_get reglist gp = some g)
    (hr : build_disk G S reglist w gp no = Exec.ret (0, reg1, w1)) :
    ∃ h parts,
      reg1 = parts ++ h :: reg_set reglist gp
        { g with partition := -1, related := some reglist.length } ∧
      h.related = some gp ∧ ∀ e ∈ parts, e.related = some reglist.length := by
  unfold build_disk at hr
  simp only [hg] at hr
  obtain ⟨r, hn, hr⟩ := bind_eq_ret _ _ _ hr
  obtain ⟨w2, _, hr⟩ := bind_eq_ret _ _ _ hr
  have er : r.2.related = some gp := by
    rw [set_names_related G _ r hn]
    exact findscsidisk_related _ _ _ _ _
  cases hfd : S.k_open w2 r.1 with
  | none =>
    simp only [hfd] at hr
    by_cases hc : r.2.rmvbl ≠ 0 ∧ G.supp_rmvbl ≠ 0
    · rw [if_pos hc] at hr
      simp only [Exec.ret.injEq, Prod.mk.injEq, true_and] at hr
      exact ⟨_, [], hr.1.symm, er, fun e he => by cases he⟩
    · rw [if_neg hc] at hr
      exact absurd hr (give_up_ne_success _ _ _ _ _ _)
  | some d =>
    simp only [hfd] at hr
    obtain ⟨info, hi, hr⟩ := bind_eq_ret _ _ _ hr
    split_ifs at hr with hc
    · exact absurd hr (give_up_ne_success _ _ _ _ _ _)
    · obtain ⟨res, hp, hr⟩ := bind_eq_ret _ _ _ hr
      simp only [Exec.ret.injEq, Prod.mk.injEq, true_and] at hr
      obtain ⟨parts, h1, h2⟩ := build_disk_parts_related _ _ _ _ _ _ _ _ _ hp
      exact ⟨info.2, parts, by rw [← hr.1, h1],
        by rw [getscsiinfo_related G d _ _ info hi, er], h2⟩

theorem reg_get_append (pre l : List sname) (p : Nat) (h : p < l.length) :
    reg_get (pre ++ l) p = reg_get l p := by
  unfold reg_get
  rw [if_pos h, if_pos (by rw [List.length_append]; omega), List.length_append,
    List.getElem?_append_right (by omega)]
  congr 1
  omega

set_option maxRecDepth 100000 in
/-- C23 (counterexample): `build_tape` succeeds on the generic entry `sg_entry` and
leaves the registry no-rewind tape, tape, generic entry, with the `related` pointers
1, 0 and none: the generic entry does not point to the tape, and the no-rewind entry
points to the tape (pointer 1), not to the generic entry (pointer 0).  After
`build_cdrom` the generic entry has no `related` link either, and after `build_disk`
the two partitions point to the disk (pointer 1), not to the generic entry. -/
theorem related_links_counterexample :
    built_status (build_tape {} (one_device dev_lun0) [sg_entry] ⟨fs_of [], [], false⟩ 0 0) =
      some 0 ∧
    built_links (build_tape {} (one_device dev_lun0) [sg_entry] ⟨fs_of [], [], false⟩ 0 0) =
      some [(devtype_t.ST, 128, some 1), (devtype_t.ST, 0, some 0),
        (devtype_t.SG, 0, none)] ∧
    built_status (build_cdrom {} (one_device dev_lun0) [sg_entry] ⟨fs_of [], [], false⟩ 0 0) =
      some 0 ∧
    built_links (build_cdrom {} (one_device dev_lun0) [sg_entry] ⟨fs_of [], [], false⟩ 0 0) =
      some [(devtype_t.SR, 0, some 0), (devtype_t.SG, 0, none)] ∧
    built_status
      (build_disk {} (disk_with_two_parts dev_lun0) [sg_entry] ⟨fs_of [], [], false⟩ 0 0) =
      some 0 ∧
    built_links
      (build_disk {} (disk_with_two_parts dev_lun0) [sg_entry] ⟨fs_of [], [], false⟩ 0 0) =
      some [(devtype_t.SD, 2, some 1), (devtype_t.SD, 1, some 1),
        (devtype_t.SD, 0, some 0), (devtype_t.SG, 0, some 1)] := by
  refine ⟨?_, ?_, ?_, ?_, ?_, ?_⟩
  · decide
  · decide
  · decide
  · decide
  · decide
  · decide

/-- C23 (amended): after a successful build step on the generic entry `g` (pointer
`gp`) the new high-level entry `h` is in the registry under the pointer
`reglist.length` and `h.related` designates `g`.  After `build_cdrom`,
`build_changer`, `build_tape` and `build_os_tape` the generic entry is what it was
before, its `related` link included; only `build_disk` stores the pointer to `h` in
`g.related` (and -1 in `g.partition`).  The no-rewind entry of a tape and every
partition entry of a disk has its `related` link designating `h`, the entry it was
copied from. -/
theorem related_links (G : globals) (S : system) (reglist : List sname) (w : world)
    (gp : Nat) (g : sname) (no : Int) (reg1 : List sname) (w1 : world)
    (hg : reg_get reglist gp = some g) :
    (build_cdrom G S reglist w gp no = Exec.ret (0, reg1, w1) →
      ∃ h, reg1 = h :: reglist ∧ reg_get reg1 reglist.length = some h ∧
        h.related = some gp ∧ reg_get reg1 gp = some g) ∧
    (build_changer G S reglist w gp no = Exec.ret (0, reg1, w1) →
      ∃ h, reg1 = h :: reglist ∧ reg_get reg1 reglist.length = some h ∧
        h.related = some gp ∧ reg_get reg1 gp = some g) ∧
    (build_tape G S reglist w gp no = Exec.ret (0, reg1, w1) →
      ∃ h n, reg1 = n :: h :: reglist ∧ reg_get reg1 reglist.length = some h ∧
        h.related = some gp ∧ reg_get reg1 gp = some g ∧
        n.related = some reglist.length) ∧
    (build_os_tape G S reglist w gp no = Exec.ret (0, reg1, w1) →
      ∃ h n, reg1 = n :: h :: reglist ∧ reg_get reg1 reglist.length = some h ∧
        h.related = some gp ∧ reg_get reg1 gp = some g ∧
        n.related = some reglist.length) ∧
    (build_disk G S reglist w gp no = Exec.ret (0, reg1, w1) →
      ∃ h parts,
        reg1 = parts ++ h :: reg_set reglist gp
          { g with partition := -1, related := some reglist.length } ∧
        reg_get reg1 reglist.length = some h ∧ h.related = some gp ∧
        reg_get reg1 gp = some { g with partition := -1, related := some reglist.length } ∧
        ∀ e ∈ parts, e.related = some reglist.length) := by
  have hlt := reg_get_lt reglist gp g hg
  have one : ∀ h : sname, reg_get (h :: reglist) reglist.length = some h ∧
      reg_get (h :: reglist) gp = some g := fun h =>
    ⟨reg_get_cons_self reglist h, by rw [reg_get_cons_lt reglist h gp hlt, hg]⟩
  have two : ∀ h n : sname, reg_get (n :: h :: reglist) reglist.length = some h ∧
      reg_get (n :: h :: reglist) gp = some g := fun h n =>
    ⟨by rw [reg_get_cons_lt (h :: reglist) n reglist.length (by simp)]
        exact reg_get_cons_self reglist h,
      by rw [reg_get_cons_lt (h :: reglist) n gp (by simp; omega),
          reg_get_cons_lt reglist h gp hlt, hg]⟩
  refine ⟨?_, ?_, ?_, ?_, ?_⟩
  · intro hr
    obtain ⟨h, e1, e2⟩ := build_cdrom_related G S reglist w gp g no reg1 w1 hg hr
    subst e1
    exact ⟨h, rfl, (one h).1, e2, (one h).2⟩
  · intro hr
    obtain ⟨h, e1, e2⟩ := build_changer_related G S reglist w gp g no reg1 w1 hg hr
    subst e1
    exact ⟨h, rfl, (one h).1, e2, (one h).2⟩
  · intro hr
    obtain ⟨h, n, e1, e2, e3⟩ := build_tape_related G S reglist w gp g no reg1 w1 hg hr
    subst e1
    exact ⟨h, n, rfl, (two h n).1, e2, (two h n).2, e3⟩
  · intro hr
    obtain ⟨h, n, e1, e2, e3⟩ := build_os_tape_related G S reglist w gp g no reg1 w1 hg hr
    subst e1
    exact ⟨h, n, rfl, (two h n).1, e2, (two h n).2, e3⟩
  · intro hr
    obtain ⟨h, parts, e1, e2, e3⟩ := build_disk_related G S reglist w gp g no reg1 w1 hg hr
    subst e1
    have hl := reg_set_length reglist gp
      { g with partition := -1, related := some reglist.length }
    generalize hL : reg_set reglist gp
      { g with partition := -1, related := some reglist.length } = L at hl ⊢
    refine ⟨h, parts, rfl, ?_, e2, ?_, e3⟩
    · rw [reg_get_append parts _ reglist.length (by simp [hl]), ← hl]
      exact reg_get_cons_self L h
    · rw [reg_get_append parts _ gp (by simp [hl]; omega),
        reg_get_cons_lt L h gp (by omega), ← hL]
      exact reg_get_set_self reglist gp _ hlt

set_option maxRecDepth 100000 in
/-- Witness for C23: `build_disk` succeeds on the registry that holds `sg_entry` when
the kernel opens the minors 1 and 2 of the first disk; the registry afterwards is two
partition entries, the disk and the generic entry. -/
theorem related_links_witness :
    reg_get [sg_entry] 0 = some sg_entry ∧
    ∃ reg1 w1,
      build_disk {} (disk_with_two_parts dev_lun0) [sg_entry] ⟨fs_of [], [], false⟩ 0 0 =
        Exec.ret (0, reg1, w1) ∧
      reg1.length = 4 ∧
      ∃ h parts,
        reg1 = parts ++ h :: reg_set [sg_entry] 0
          { sg_entry with partition := -1, related := some [sg_entry].length } ∧
        reg_get reg1 [sg_entry].length = some h ∧ h.related = some 0 ∧
        reg_get reg1 0 =
          some { sg_entry with partition := -1, related := some [sg_entry].length } ∧
        ∀ e ∈ parts, e.related = some [sg_entry].length :=
  ⟨by decide, _, _, rfl, by decide,
    (related_links {} (disk_with_two_parts dev_lun0) [sg_entry] ⟨fs_of [], [], false⟩ 0 sg_entry 0
      _ _ (by decide)).2.2.2.2 rfl⟩

/-! ## Numerals printed by `%d` and `%x` -/

theorem digit_value_digitChar : ∀ k < 16, digit_value (Nat.digitChar k) = k := by
  decide

theorem digitChar_dec : ∀ k < 10, Nat.digitChar k ∈ dec_chars := by
  decide

theorem digitChar_hex : ∀ k < 16, Nat.digitChar k ∈ hex_chars := by
  decide

theorem numeral_value_concat (base : Nat) (l : List Char) (c : Char) :
    numeral_value base (l ++ [c]) = numeral_value base l * base + digit_value c := by
  unfold numeral_value
  rw [List.foldl_append]
  rfl

theorem toDigitsCore_spec (base : Nat) (hb : 2 ≤ base) (hb16 : base ≤ 16) :
    ∀ (fuel n : Nat) (ds : List Char), n < fuel →
      ∃ pre, Nat.toDigitsCore base fuel n ds = pre ++ ds ∧ pre ≠ [] ∧
        (∀ c ∈ pre, ∃ k < base, c = Nat.digitChar k) ∧ numeral_value base pre = n := by
  intro fuel
  induction fuel with
  | zero => intro n ds h; omega
  | succ f ih =>
    intro n ds h
    unfold Nat.toDigitsCore
    dsimp only
    have hmod : n % base < base := Nat.mod_lt _ (by omega)
    by_cases h0 : n / base = 0
    · rw [if_pos h0]
      refine ⟨[Nat.digitChar (n % base)], rfl, by simp, ?_, ?_⟩
      · intro c hc
        rw [List.mem_singleton] at hc
        exact ⟨_, hmod, hc⟩
      · have := numeral_value_concat base [] (Nat.digitChar (n % base))
        rw [List.nil_append] at this
        rw [this, digit_value_digitChar _ (by omega)]
        have := Nat.div_add_mod n base
        rw [h0] at this
        simp [numeral_value]
        omega
    · rw [if_neg h0]
      have hlt : n / base < f := by
        have : n / base < n := Nat.div_lt_self (by
          rcases Nat.eq_zero_or_pos n with hn | hn
          · rw [hn] at h0; simp at h0
          · exact hn) (by omega)
        omega
      obtain ⟨pre, e1, e2, e3, e4⟩ := ih (n / base) (Nat.digitChar (n % base) :: ds) hlt
      refine ⟨pre ++ [Nat.digitChar (n % base)], ?_, by simp, ?_, ?_⟩
      · rw [e1]; simp
      · intro c hc
        rcases List.mem_append.mp hc with hc | hc
        · exact e3 c hc
        · rw [List.mem_singleton] at hc
          exact ⟨_, hmod, hc⟩
      · rw [numeral_value_concat, e4, digit_value_digitChar _ (by omega)]
        have := Nat.div_add_mod n base
        rw [Nat.mul_comm] at this
        exact this

theorem toDigits_spec (base : Nat) (hb : 2 ≤ base) (hb16 : base ≤ 16) (n : Nat) :
    Nat.toDigits base n ≠ [] ∧
      (∀ c ∈ Nat.toDigits base n, ∃ k < base, c = Nat.digitChar k) ∧
      numeral_value base (Nat.toDigits base n) = n := by
  obtain ⟨pre, e1, e2, e3, e4⟩ := toDigitsCore_spec base hb hb16 (n + 1) n [] (by omega)
  unfold Nat.toDigits
  rw [e1, List.append_nil]
  exact ⟨e2, e3, e4⟩

theorem toDigits_inj (base : Nat) (hb : 2 ≤ base) (hb16 : base ≤ 16) (n m : Nat)
    (h : Nat.toDigits base n = Nat.toDigits base m) : n = m := by
  rw [← (toDigits_spec base hb hb16 n).2.2, h, (toDigits_spec base hb hb16 m).2.2]

theorem toDigits_dec (n : Nat) : ∀ c ∈ Nat.toDigits 10 n, c ∈ dec_chars := by
  intro c hc
  obtain ⟨k, hk, e⟩ := (toDigits_spec 10 (by decide) (by decide) n).2.1 c hc
  rw [e]
  exact digitChar_dec k hk

theorem toDigits_hex (n : Nat) : ∀ c ∈ Nat.toDigits 16 n, c ∈ hex_chars := by
  intro c hc
  obtain ⟨k, hk, e⟩ := (toDigits_spec 16 (by decide) (by decide) n).2.1 c hc
  rw [e]
  exact digitChar_hex k hk

/-- Two texts that are each a run of characters of one class followed by nothing or
by a character outside the class are equal only when the runs are equal. -/
theorem split_run (p : Char → Prop) :
    ∀ (a a1 r r1 : List Char), (∀ c ∈ a, p c) → (∀ c ∈ a1, p c) →
      (∀ c ∈ r.head?, ¬ p c) → (∀ c ∈ r1.head?, ¬ p c) →
      a ++ r = a1 ++ r1 → a = a1 ∧ r = r1 := by
  intro a
  induction a with
  | nil =>
    intro a1 r r1 _ ha1 hr _ h
    cases a1 with
    | nil => exact ⟨rfl, h⟩
    | cons c t =>
      rw [List.nil_append] at h
      rw [h] at hr
      exact absurd (ha1 c (List.mem_cons_self _ _)) (hr c rfl)
  | cons c t ih =>
    intro a1 r r1 ha ha1 hr hr1 h
    cases a1 with
    | nil =>
      rw [List.nil_append] at h
      rw [← h] at hr1
      exact absurd (ha c (List.mem_cons_self _ _)) (hr1 c rfl)
    | cons c1 t1 =>
      rw [List.cons_append, List.cons_append, List.cons.injEq] at h
      obtain ⟨e1, e2⟩ := ih t1 r r1 (fun x hx => ha x (List.mem_cons_of_mem _ hx))
        (fun x hx => ha1 x (List.mem_cons_of_mem _ hx)) hr hr1 h.2
      exact ⟨by rw [h.1, e1], e2⟩

theorem fmt_d_run (x y : Int) (r r1 : List Char)
    (hr : ∀ c ∈ r.head?, c ∉ dec_chars) (hr1 : ∀ c ∈ r1.head?, c ∉ dec_chars)
    (h : fmt_d x ++ r = fmt_d y ++ r1) : x = y ∧ r = r1 := by
  have hd : ∀ n : Nat, ∃ d t, Nat.toDigits 10 n = d :: t ∧ d ∈ dec_chars := by
    intro n
    have hs := toDigits_spec 10 (by decide) (by decide) n
    cases hl : Nat.toDigits 10 n with
    | nil => exact absurd hl hs.1
    | cons d t => exact ⟨d, t, rfl, toDigits_dec n d (by rw [hl]; exact List.mem_cons_self _ _)⟩
  unfold fmt_d at h
  by_cases hx : x < 0
  · by_cases hy : y < 0
    · rw [if_pos hx, if_pos hy, List.cons_append, List.cons_append, List.cons.injEq] at h
      obtain ⟨e1, e2⟩ := split_run (fun c => c ∈ dec_chars) _ _ _ _ (toDigits_dec _)
        (toDigits_dec _) hr hr1 h.2
      have := toDigits_inj 10 (by decide) (by decide) _ _ e1
      exact ⟨by omega, e2⟩
    · rw [if_pos hx, if_neg hy] at h
      obtain ⟨d, t, e, hdd⟩ := hd y.toNat
      rw [e, List.cons_append, List.cons_append, List.cons.injEq] at h
      rw [← h.1] at hdd
      exact absurd hdd (by decide)
  · by_cases hy : y < 0
    · rw [if_neg hx, if_pos hy] at h
      obtain ⟨d, t, e, hdd⟩ := hd x.toNat
      rw [e, List.cons_append, List.cons_append, List.cons.injEq] at h
      rw [h.1] at hdd
      exact absurd hdd (by decide)
    · rw [if_neg hx, if_neg hy] at h
      obtain ⟨e1, e2⟩ := split_run (fun c => c ∈ dec_chars) _ _ _ _ (toDigits_dec _)
        (toDigits_dec _) hr hr1 h
      have := toDigits_inj 10 (by decide) (by decide) _ _ e1
      exact ⟨by omega, e2⟩

theorem fmt_d_chars (x : Int) : ∀ c ∈ fmt_d x, c = '-' ∨ c ∈ dec_chars := by
  intro c hc
  unfold fmt_d at hc
  split at hc
  · rcases List.mem_cons.mp hc with hc | hc
    · exact Or.inl hc
    · exact Or.inr (toDigits_dec _ c hc)
  · exact Or.inr (toDigits_dec _ c hc)

theorem fmt_d_inj (x y : Int) (h : fmt_d x = fmt_d y) : x = y := by
  have h1 : fmt_d x ++ [] = fmt_d y ++ [] := by rw [h]
  exact (fmt_d_run x y [] [] (fun c hc => by cases hc) (fun c hc => by cases hc) h1).1

/-- The topology part of a name in the default style determines the five numbers
printed in it: the channel separator is the last 'c' before the 'i', a decimal
numeral holding no 'c'. -/
theorem genpart_text_inj (hn hn1 ch ch1 id id1 ln ln1 : Int) (hx hx1 : Nat)
    (app app1 : List Char)
    (hap : ∀ c ∈ app.head?, c ∉ dec_chars) (hap1 : ∀ c ∈ app1.head?, c ∉ dec_chars)
    (h : fmt_d hn ++ '-' :: (Nat.toDigits 16 hx ++ 'c' :: (fmt_d ch ++ 'i' ::
        (fmt_d id ++ 'l' :: (fmt_d ln ++ app)))) =
      fmt_d hn1 ++ '-' :: (Nat.toDigits 16 hx1 ++ 'c' :: (fmt_d ch1 ++ 'i' ::
        (fmt_d id1 ++ 'l' :: (fmt_d ln1 ++ app1))))) :
    hn = hn1 ∧ hx = hx1 ∧ ch = ch1 ∧ id = id1 ∧ ln = ln1 ∧ app = app1 := by
  have hdash : ∀ r : List Char, ∀ c ∈ ('-' :: r).head?, c ∉ dec_chars := by
    intro r c hc
    simp only [List.head?_cons, Option.mem_def, Option.some.injEq] at hc
    rw [← hc]
    decide
  have hl : ∀ r : List Char, ∀ c ∈ ('l' :: r).head?, c ∉ dec_chars := by
    intro r c hc
    simp only [List.head?_cons, Option.mem_def, Option.some.injEq] at hc
    rw [← hc]
    decide
  obtain ⟨e1, h⟩ := fmt_d_run _ _ _ _ (hdash _) (hdash _) h
  rw [List.cons.injEq] at h
  have h := h.2
  have hd_i : ∀ x : Int, ∀ c ∈ fmt_d x, c ≠ 'i' := by
    intro x c hc
    rcases fmt_d_chars x c hc with e | e
    · rw [e]; decide
    · intro e1
      rw [e1] at e
      exact absurd e (by decide)
  have hd_c : ∀ x : Int, ∀ c ∈ fmt_d x, c ≠ 'c' := by
    intro x c hc
    rcases fmt_d_chars x c hc with e | e
    · rw [e]; decide
    · intro e1
      rw [e1] at e
      exact absurd e (by decide)
  have hT : ∀ (n : Nat) (x : Int), ∀ c ∈ Nat.toDigits 16 n ++ 'c' :: fmt_d x, c ≠ 'i' := by
    intro n x c hc
    rcases List.mem_append.mp hc with hc | hc
    · intro e1
      have := toDigits_hex n c hc
      rw [e1] at this
      exact absurd this (by decide)
    · rcases List.mem_cons.mp hc with hc | hc
      · rw [hc]; decide
      · exact hd_i x c hc
  have hi : ∀ r : List Char, ∀ c ∈ ('i' :: r).head?, ¬ c ≠ 'i' := by
    intro r c hc
    simp only [List.head?_cons, Option.mem_def, Option.some.injEq] at hc
    rw [← hc]
    decide
  have hc1 : ∀ r : List Char, ∀ c ∈ ('c' :: r).head?, ¬ c ≠ 'c' := by
    intro r c hc
    simp only [List.head?_cons, Option.mem_def, Option.some.injEq] at hc
    rw [← hc]
    decide
  have h2 : (Nat.toDigits 16 hx ++ 'c' :: fmt_d ch) ++ 'i' :: (fmt_d id ++ 'l' ::
        (fmt_d ln ++ app)) =
      (Nat.toDigits 16 hx1 ++ 'c' :: fmt_d ch1) ++ 'i' :: (fmt_d id1 ++ 'l' ::
        (fmt_d ln1 ++ app1)) := by
    simp only [List.append_assoc, List.cons_append]
    exact h
  obtain ⟨eT, eR⟩ := split_run (fun c => c ≠ 'i') _ _ _ _ (hT hx ch) (hT hx1 ch1)
    (hi _) (hi _) h2
  rw [List.cons.injEq] at eR
  obtain ⟨e4, eR⟩ := fmt_d_run _ _ _ _ (hl _) (hl _) eR.2
  rw [List.cons.injEq] at eR
  obtain ⟨e5, e6⟩ := fmt_d_run _ _ _ _ hap hap1 eR.2
  have eT1 := congrArg List.reverse eT
  simp only [List.reverse_append, List.reverse_cons, List.append_assoc,
    List.singleton_append] at eT1
  obtain ⟨e3, eH⟩ := split_run (fun c => c ≠ 'c') _ _ _ _
    (fun c hc => hd_c ch c (List.mem_reverse.mp hc))
    (fun c hc => hd_c ch1 c (List.mem_reverse.mp hc)) (hc1 _) (hc1 _) eT1
  rw [List.cons.injEq] at eH
  have e2 := toDigits_inj 16 (by decide) (by decide) _ _ (List.reverse_injective eH.2)
  exact ⟨e1, e2, fmt_d_inj _ _ (List.reverse_injective e3), e4, e5, e6⟩

theorem int_and_128 (x : Int) : int_and x 0x80 = 0 ∨ int_and x 0x80 = 128 := by
  unfold int_and
  have e : to_u32 0x80 = 2 ^ 7 := by decide
  rw [e, Nat.and_two_pow]
  cases (to_u32 x).testBit 7
  · left; decide
  · right; decide

theorem scsiname_dnm_cases (e : sname) (dnm app : List Char)
    (h : scsiname_dnm e = some (dnm, app)) :
    dnm ∈ [['s', 'g'], ['s', 'r'], ['s', 't'], ['n', 's', 't'], ['o', 's', 's', 't'],
      ['n', 'o', 's', 's', 't'], ['s', 'd'], ['s', 'c', 'h']] ∧
      ∀ c ∈ app.head?, c ∉ dec_chars := by
  unfold scsiname_dnm at h
  cases hd : e.devtp <;> rw [hd] at h <;> dsimp only at h
  case NONE => cases h
  all_goals (try split_ifs at h)
  all_goals
    simp only [Option.some.injEq, Prod.mk.injEq] at h
    obtain ⟨e1, e2⟩ := h
    subst e1
    subst e2
    refine ⟨by decide, ?_⟩
    intro c hc
    cases hc <;> decide

theorem dnm_text_inj (d d1 r r1 : List Char)
    (hd : d ∈ [['s', 'g'], ['s', 'r'], ['s', 't'], ['n', 's', 't'], ['o', 's', 's', 't'],
      ['n', 'o', 's', 's', 't'], ['s', 'd'], ['s', 'c', 'h']])
    (hd1 : d1 ∈ [['s', 'g'], ['s', 'r'], ['s', 't'], ['n', 's', 't'], ['o', 's', 's', 't'],
      ['n', 'o', 's', 's', 't'], ['s', 'd'], ['s', 'c', 'h']])
    (h : d ++ 'h' :: r = d1 ++ 'h' :: r1) : d = d1 ∧ r = r1 := by
  simp only [List.mem_cons, List.mem_singleton, List.not_mem_nil, or_false] at hd hd1
  rcases hd with rfl | rfl | rfl | rfl | rfl | rfl | rfl | rfl <;>
    rcases hd1 with rfl | rfl | rfl | rfl | rfl | rfl | rfl | rfl <;>
    first
      | (simp at h; done)
      | (simp at h; exact ⟨rfl, h⟩)

/-- Equal names in the default style: the basename stem, the partition suffix and the
five numbers of the topology part are equal. -/
theorem scsiname_default_parts (a b : sname) (n : List Char)
    (ha : scsiname 0 a = Exec.ret n) (hb : scsiname 0 b = Exec.ret n) :
    scsiname_dnm a = scsiname_dnm b ∧ a.hostnum = b.hostnum ∧
      to_u32 a.hostid = to_u32 b.hostid ∧ a.chan = b.chan ∧ a.id = b.id ∧
      a.lun = b.lun := by
  unfold scsiname at ha hb
  cases ea : scsiname_dnm a with
  | none =>
    rw [ea] at ha
    cases ha
  | some pa =>
    cases eb : scsiname_dnm b with
    | none =>
      rw [eb] at hb
      cases hb
    | some pb =>
      obtain ⟨dnm, app⟩ := pa
      obtain ⟨dnm1, app1⟩ := pb
      rw [ea] at ha
      rw [eb] at hb
      simp only [Exec.ret.injEq] at ha hb
      have h := ha.trans hb.symm
      have e1 : "/".toList = ['/'] := rfl
      have e2 : "h".toList = ['h'] := rfl
      have e3 : "-".toList = ['-'] := rfl
      have e4 : "c".toList = ['c'] := rfl
      have e5 : "i".toList = ['i'] := rfl
      have e6 : "l".toList = ['l'] := rfl
      simp only [scsiname_genpart, ne_eq, not_true_eq_false, if_false, e1, e2, e3, e4, e5,
        e6, fmt_x, List.append_assoc, List.cons_append, List.nil_append] at h
      have h := List.append_cancel_left h
      rw [List.cons.injEq] at h
      obtain ⟨ca, pa⟩ := scsiname_dnm_cases a dnm app ea
      obtain ⟨cb, pb⟩ := scsiname_dnm_cases b dnm1 app1 eb
      obtain ⟨ed, h⟩ := dnm_text_inj _ _ _ _ ca cb h.2
      obtain ⟨g1, g2, g3, g4, g5, g6⟩ := genpart_text_inj _ _ _ _ _ _ _ _ _ _ _ _ pa pb h
      exact ⟨by rw [ed, g6], g1, g2, g3, g4, g5⟩

/-- Equal basename stems and partition suffixes: the kinds are equal, for tapes the
no-rewind bits and for disks the partition nibbles. -/
theorem scsiname_dnm_inj (a b : sname) (hk : a.devtp ≠ devtype_t.NONE)
    (h : scsiname_dnm a = scsiname_dnm b) :
    a.devtp = b.devtp ∧
      ((a.devtp = devtype_t.ST ∨ a.devtp = devtype_t.OSST) →
        int_and a.minor 0x80 = int_and b.minor 0x80) ∧
      (a.devtp = devtype_t.SD → int_and a.minor 0x0f = int_and b.minor 0x0f) := by
  have ha := int_and_128 a.minor
  have hb := int_and_128 b.minor
  unfold scsiname_dnm at h
  cases hda : a.devtp <;> cases hdb : b.devtp <;> rw [hda, hdb] at h <;>
    dsimp only at h
  all_goals (try split_ifs at h)
  all_goals first
    | exact absurd hda hk
    | (simp at h; done)
    | (refine ⟨rfl, ?_, ?_⟩
       · first
           | (intro hx; rcases hx with hx | hx <;> cases hx; done)
           | (intro _; omega)
       · first
           | (intro hx; cases hx; done)
           | (intro _
              simp only [Option.some.injEq, Prod.mk.injEq, true_and, List.cons.injEq,
                List.append_cancel_left_eq] at h
              first
                | exact fmt_d_inj _ _ h
                | omega))

theorem scsiname_ret (nm_cbtu : Int) (e : sname) (hk : e.devtp ≠ devtype_t.NONE) :
    ∃ n, scsiname nm_cbtu e = Exec.ret n := by
  unfold scsiname scsiname_dnm
  cases hd : e.devtp
  case NONE => exact absurd hd hk
  all_goals
    dsimp only
    try split_ifs
  all_goals exact ⟨_, rfl⟩

/-- C25: in the default naming style (`nm_cbtu` = 0) two entries with a valid kind that
`scsiname` gives the same name have the same kind, for the tape kinds the same
no-rewind bit `minor & 0x80`, the same host number, the same host adapter id as
printed by `%x` (the same `int` when both are in the range of `int`), the same
channel, id and lun, and for disks the same partition nibble `minor & 0x0f`; in the
cbtu style the name does not depend on the host adapter id. -/
theorem scsiname_injective (a b : sname) (hk : a.devtp ≠ devtype_t.NONE)
    (h : scsiname 0 a = scsiname 0 b) :
    a.devtp = b.devtp ∧
    ((a.devtp = devtype_t.ST ∨ a.devtp = devtype_t.OSST) →
      int_and a.minor 0x80 = int_and b.minor 0x80) ∧
    a.hostnum = b.hostnum ∧
    to_u32 a.hostid = to_u32 b.hostid ∧
    (-2147483648 ≤ a.hostid → a.hostid < 2147483648 → -2147483648 ≤ b.hostid →
      b.hostid < 2147483648 → a.hostid = b.hostid) ∧
    a.chan = b.chan ∧ a.id = b.id ∧ a.lun = b.lun ∧
    (a.devtp = devtype_t.SD → int_and a.minor 0x0f = int_and b.minor 0x0f) ∧
    (∀ nm_cbtu x : Int, nm_cbtu ≠ 0 →
      scsiname nm_cbtu { a with hostid := x } = scsiname nm_cbtu a) := by
  obtain ⟨n, ha⟩ := scsiname_ret 0 a hk
  have hb : scsiname 0 b = Exec.ret n := by rw [← h, ha]
  obtain ⟨p1, p2, p3, p4, p5, p6⟩ := scsiname_default_parts a b n ha hb
  obtain ⟨k1, k2, k3⟩ := scsiname_dnm_inj a b hk p1
  refine ⟨k1, k2, p2, p3, ?_, p4, p5, p6, k3, ?_⟩
  · intro h1 h2 h3 h4
    unfold to_u32 at p3
    omega
  · intro nm_cbtu x hnm
    unfold scsiname
    have e1 : scsiname_dnm { a with hostid := x } = scsiname_dnm a := rfl
    have e2 : scsiname_genpart nm_cbtu { a with hostid := x } = scsiname_genpart nm_cbtu a := by
      unfold scsiname_genpart
      rw [if_pos hnm, if_pos hnm]
    rw [e1, e2]

/-- Witness for C25: two disk entries that differ in major, minor and model get the
name "/dev/scsi/sdh1-cc0i3l0p5", the adapter id 0xc printed before the separator
'c'. -/
theorem scsiname_injective_witness :
    scsiname 0 part5_entry = Exec.ret "/dev/scsi/sdh1-cc0i3l0p5".toList ∧
    part5_entry.minor ≠ part5_twin.minor ∧
    (part5_entry.devtp = part5_twin.devtp ∧
    ((part5_entry.devtp = devtype_t.ST ∨ part5_entry.devtp = devtype_t.OSST) →
      int_and part5_entry.minor 0x80 = int_and part5_twin.minor 0x80) ∧
    part5_entry.hostnum = part5_twin.hostnum ∧
    to_u32 part5_entry.hostid = to_u32 part5_twin.hostid ∧
    (-2147483648 ≤ part5_entry.hostid → part5_entry.hostid < 2147483648 →
      -2147483648 ≤ part5_twin.hostid → part5_twin.hostid < 2147483648 →
      part5_entry.hostid = part5_twin.hostid) ∧
    part5_entry.chan = part5_twin.chan ∧ part5_entry.id = part5_twin.id ∧
    part5_entry.lun = part5_twin.lun ∧
    (part5_entry.devtp = devtype_t.SD →
      int_and part5_entry.minor 0x0f = int_and part5_twin.minor 0x0f) ∧
    (∀ nm_cbtu x : Int, nm_cbtu ≠ 0 →
      scsiname nm_cbtu { part5_entry with hostid := x } = scsiname nm_cbtu part5_entry)) :=
  ⟨by decide, by decide, scsiname_injective part5_entry part5_twin (by decide) (by decide)⟩

/-! ## Shadow names of the names the program makes -/

end Scsidev
